import Mathlib

/-!
Verification development for the fantasy-football playoff/relegation engine
(`app.py`, `playoff_scenarios.py`, `monte_carlo.py`).

Conventions of the shallow embedding:
* Team identifiers are strings, as in the source.
* Python floats (win percentages, points) are modelled as exact rationals.
* A season snapshot `Stats` maps each team to its record.  The head-to-head
  sub-map is modelled as a total function `Team → H2H`: every helper in
  `app.py` reads it through `dict.get(..., zero-record)`, which is exactly a
  total map defaulting to the zero record.  The one place where the two files
  differ on missing entries — the raw `get_h2h_record` lookup, which
  `playoff_scenarios.py` indexes directly (raising `KeyError`) while `app.py`
  defaults — is modelled separately on an `Option`-valued dictionary below.
* Loops that repeatedly shrink a worklist are written as structural recursion
  on a fuel argument; every caller passes fuel that provably suffices (the
  list length), so the fuel-exhausted branch is never taken at the call sites.
* Display-only dictionary fields of results (`record`, `division`, `status`
  strings) are omitted; seeds, team names and flags are kept.
-/

-- Rational arithmetic is kept reducible so that concrete runs of the
-- embedded functions can be checked by `decide`.
attribute [local semireducible] Rat.add Rat.mul Rat.sub Rat.inv

abbrev Team := String

/-- One head-to-head sub-record: wins/losses/ties against a fixed opponent and
the points scored in those games (`h2h[opp]` in the JSON data). -/
structure H2H where
  wins : ℕ
  losses : ℕ
  ties : ℕ
  points_for : ℚ
deriving DecidableEq

/-- The zero head-to-head record, the default `dict.get` value in the source. -/
def H2H.zero : H2H := ⟨0, 0, 0, 0⟩

/-- One team's season record (`stats[team]` in the JSON data).  `h2h` is the
head-to-head sub-map, total with zero default as explained in the header. -/
structure TeamStats where
  wins : ℕ
  losses : ℕ
  ties : ℕ
  division_wins : ℕ
  division_losses : ℕ
  division_ties : ℕ
  points_for : ℚ
  points_against : ℚ
  matrix_rank : ℤ
  h2h : Team → H2H

/-- A season snapshot: per-team records. -/
abbrev Stats := Team → TeamStats

/-- Division table: division name to ordered member list (`divisions`). -/
abbrev Divisions := List (String × List Team)

/-- The optional head-to-head-points override used by the division tie-break
(`h2h_points_override`), keyed by the ordered team pair.  Python passes `None`
or a dict; `None` and the empty dict are both modelled by the constantly-`none`
function (both make `if h2h_points_override and (t1,t2) in ...` false). -/
abbrev H2HOverride := Team × Team → Option (ℚ × ℚ)

/-- `calculate_win_pct(wins, losses, ties)` from `app.py` lines 39-43:
`(wins + 0.5*ties)/total`, with the 0.0 sentinel for zero games. -/
def calculate_win_pct (wins losses ties : ℕ) : ℚ :=
  if wins + losses + ties = 0 then 0
  else ((wins : ℚ) + (ties : ℚ) / 2) / ((wins : ℚ) + (losses : ℚ) + (ties : ℚ))

/-- `get_h2h_record(stats, team1, team2)` as used by the tie-break chains:
`stats[team1]['h2h'].get(team2, zero-record)` (`app.py` lines 46-48). -/
def get_h2h_record (stats : Stats) (team1 team2 : Team) : ℕ × ℕ × ℕ :=
  let h2h := (stats team1).h2h team2
  (h2h.wins, h2h.losses, h2h.ties)

/-- `get_h2h_record_vs_group(stats, team, opponents)` (`app.py` lines 51-59):
sums the head-to-head record over every other member of the group. -/
def get_h2h_record_vs_group (stats : Stats) (team : Team) (opponents : List Team) :
    ℕ × ℕ × ℕ :=
  opponents.foldl
    (fun acc opp =>
      if opp ≠ team then
        let h2h := (stats team).h2h opp
        (acc.1 + h2h.wins, acc.2.1 + h2h.losses, acc.2.2 + h2h.ties)
      else acc)
    (0, 0, 0)

/-- `get_h2h_points_vs_group(stats, team, opponents)`
(`playoff_scenarios.py` lines 88-95). -/
def get_h2h_points_vs_group (stats : Stats) (team : Team) (opponents : List Team) : ℚ :=
  opponents.foldl
    (fun acc opp =>
      if opp ≠ team then acc + ((stats team).h2h opp).points_for else acc)
    0

/-- `calculate_strength_of_schedule(stats, team, teams)` (`app.py` lines 62-78):
each opponent's overall record weighted by games played against them, fed
through `calculate_win_pct`. -/
def calculate_strength_of_schedule (stats : Stats) (team : Team) (teams : List Team) : ℚ :=
  let totals := teams.foldl
    (fun acc opp =>
      if opp ≠ team then
        let h2h := (stats team).h2h opp
        let games := h2h.wins + h2h.losses + h2h.ties
        if games > 0 then
          (acc.1 + (stats opp).wins * games,
           acc.2.1 + (stats opp).losses * games,
           acc.2.2 + (stats opp).ties * games)
        else acc
      else acc)
    (0, 0, 0)
  calculate_win_pct totals.1 totals.2.1 totals.2.2

/-- `get_team_division(team, divisions)` (`app.py` lines 32-36): the first
division whose member list contains the team, else `None`. -/
def get_team_division (team : Team) (divisions : Divisions) : Option String :=
  match divisions with
  | [] => none
  | (div, teams) :: rest =>
      if team ∈ teams then some div else get_team_division team rest

/-- Python `sorted` on team names: code-point lexicographic order, i.e.
lexicographic order on the character lists. -/
def pySorted (l : List Team) : List Team :=
  l.insertionSort (fun a b => a.data ≤ b.data)

/-- The maximum of a list of scores; `none` on the empty list (where Python's
`max` would raise).  Used to model `max(values())` on non-empty dicts. -/
def listMax {α : Type} [LinearOrder α] : List α → Option α
  | [] => none
  | x :: xs =>
      match listMax xs with
      | none => some x
      | some m => some (max x m)

/-- The minimum of a list of scores; `none` on the empty list. -/
def listMin {α : Type} [LinearOrder α] : List α → Option α
  | [] => none
  | x :: xs =>
      match listMin xs with
      | none => some x
      | some m => some (min x m)

/-- `best_teams = [t for t in group if score[t] == max(score.values())]`, the
peel step shared by every multi-team tie-break loop in the source. -/
def maxGroupBy {α : Type} [LinearOrder α] (f : Team → α) (group : List Team) : List Team :=
  match listMax (group.map f) with
  | none => []
  | some m => group.filter (fun t => f t = m)

/-- Same with `min` (the matrix-rank step: lower is better). -/
def minGroupBy {α : Type} [LinearOrder α] (f : Team → α) (group : List Team) : List Team :=
  match listMin (group.map f) with
  | none => []
  | some m => group.filter (fun t => f t = m)

/-- Python `max(list, key=f)`: the first element attaining the maximum
(`none` on the empty list, where Python raises). -/
def pyMaxBy {α : Type} [LinearOrder α] (f : Team → α) : List Team → Option Team
  | [] => none
  | x :: xs => some (xs.foldl (fun acc t => if f t > f acc then t else acc) x)

/-- Deduplicate keeping the first occurrence of each key: the key order of a
Python `defaultdict` filled by one pass over a list. -/
def firstKeys {β : Type} [DecidableEq β] : List β → List β
  | [] => []
  | x :: xs => x :: (firstKeys xs).filter (fun y => decide (y ≠ x))

/-- `defaultdict(list)` grouping of a team list by a key function, keys in
first-appearance order, each group in original list order. -/
def pyGroupBy {β : Type} [DecidableEq β] (key : Team → β) (l : List Team) :
    List (β × List Team) :=
  (firstKeys (l.map key)).map (fun k => (k, l.filter (fun t => decide (key t = k))))

/-- `_break_tie_division_two(stats, [t1, t2], h2h_points_override)`
(`app.py` lines 261-301): the six-stage pairwise division tie-break
(head-to-head wins, division record, head-to-head points with optional
override, total points, matrix rank, alphabetical). -/
def break_tie_division_two (stats : Stats) (t1 t2 : Team) (ov : H2HOverride) :
    List Team :=
  let w1 := ((stats t1).h2h t2).wins
  let w2 := ((stats t2).h2h t1).wins
  if w1 > w2 then [t1, t2]
  else if w2 > w1 then [t2, t1]
  else
    let div1_pct := calculate_win_pct (stats t1).division_wins
      (stats t1).division_losses (stats t1).division_ties
    let div2_pct := calculate_win_pct (stats t2).division_wins
      (stats t2).division_losses (stats t2).division_ties
    if div1_pct > div2_pct then [t1, t2]
    else if div2_pct > div1_pct then [t2, t1]
    else
      let pts :=
        match ov (t1, t2) with
        | some p => p
        | none => (((stats t1).h2h t2).points_for, ((stats t2).h2h t1).points_for)
      if pts.1 > pts.2 then [t1, t2]
      else if pts.2 > pts.1 then [t2, t1]
      else if (stats t1).points_for > (stats t2).points_for then [t1, t2]
      else if (stats t2).points_for > (stats t1).points_for then [t2, t1]
      else if (stats t1).matrix_rank < (stats t2).matrix_rank then [t1, t2]
      else if (stats t2).matrix_rank < (stats t1).matrix_rank then [t2, t1]
      else pySorted [t1, t2]

/-- Stage score: head-to-head win percentage against the current tied group
(rule 1 of the division chain). -/
def h2hGroupPct (stats : Stats) (group : List Team) (t : Team) : ℚ :=
  let r := get_h2h_record_vs_group stats t group
  calculate_win_pct r.1 r.2.1 r.2.2

/-- Stage score: division-record win percentage (rule 2). -/
def divisionPct (stats : Stats) (t : Team) : ℚ :=
  calculate_win_pct (stats t).division_wins (stats t).division_losses
    (stats t).division_ties

/-- `_break_tie_division_multi(stats, tied_teams, divisions, h2h_points_override)`
(`app.py` lines 304-373).  The `while` loop with `remaining.remove` is written
as fuel recursion; the callers pass `tied_teams.length` as fuel, which always
suffices because every iteration removes at least one team.  Note this variant
has NO head-to-head-points stage: it goes head-to-head pct, division record,
total points, matrix rank, alphabetical.  `divisions` and the override are
carried (and passed to recursive calls) exactly as in the source, unused. -/
def break_tie_division_multi (stats : Stats) (divisions : Divisions)
    (ov : H2HOverride) : ℕ → List Team → List Team
  | 0, remaining => remaining
  | fuel + 1, remaining =>
    if remaining.length ≤ 1 then remaining
    else
      let best1 := maxGroupBy (h2hGroupPct stats remaining) remaining
      if best1.length < remaining.length then
        (if best1.length = 1 then best1
         else break_tie_division_multi stats divisions ov fuel best1) ++
          break_tie_division_multi stats divisions ov fuel
            (remaining.filter (fun t => decide (t ∉ best1)))
      else
        let best2 := maxGroupBy (divisionPct stats) remaining
        if best2.length < remaining.length then
          (if best2.length = 1 then best2
           else break_tie_division_multi stats divisions ov fuel best2) ++
            break_tie_division_multi stats divisions ov fuel
              (remaining.filter (fun t => decide (t ∉ best2)))
        else
          let best3 := maxGroupBy (fun t => (stats t).points_for) remaining
          if best3.length < remaining.length then
            (if best3.length = 1 then best3
             else break_tie_division_multi stats divisions ov fuel best3) ++
              break_tie_division_multi stats divisions ov fuel
                (remaining.filter (fun t => decide (t ∉ best3)))
          else
            let best4 := minGroupBy (fun t => (stats t).matrix_rank) remaining
            if best4.length = 1 then
              best4 ++ break_tie_division_multi stats divisions ov fuel
                (remaining.filter (fun t => decide (t ∉ best4)))
            else pySorted remaining
termination_by structural fuel remaining => fuel

/-- `break_tie_division(stats, tied_teams, divisions, h2h_points_override)`
(`app.py` lines 81-86): dispatch on group size. -/
def break_tie_division (stats : Stats) (tied : List Team) (divisions : Divisions)
    (ov : H2HOverride) : List Team :=
  match tied with
  | [t] => [t]
  | [t1, t2] => break_tie_division_two stats t1 t2 ov
  | other => break_tie_division_multi stats divisions ov other.length other

/-- `_break_tie_division_multi(stats, tied_teams, h2h_points_override)`
(`playoff_scenarios.py` lines 179-280).  Unlike the `app.py` variant this one
HAS the head-to-head-points stage (rule 3) between division record and total
points.  The override is carried through recursion, unused, as in the source. -/
def break_tie_division_multi_ps (stats : Stats) (ov : H2HOverride) :
    ℕ → List Team → List Team
  | 0, remaining => remaining
  | fuel + 1, remaining =>
    if remaining.length ≤ 1 then remaining
    else
      let best1 := maxGroupBy (h2hGroupPct stats remaining) remaining
      if best1.length < remaining.length then
        (if best1.length = 1 then best1
         else break_tie_division_multi_ps stats ov fuel best1) ++
          break_tie_division_multi_ps stats ov fuel
            (remaining.filter (fun t => decide (t ∉ best1)))
      else
        let best2 := maxGroupBy (divisionPct stats) remaining
        if best2.length < remaining.length then
          (if best2.length = 1 then best2
           else break_tie_division_multi_ps stats ov fuel best2) ++
            break_tie_division_multi_ps stats ov fuel
              (remaining.filter (fun t => decide (t ∉ best2)))
        else
          let best3 := maxGroupBy (fun t => get_h2h_points_vs_group stats t remaining)
            remaining
          if best3.length < remaining.length then
            (if best3.length = 1 then best3
             else break_tie_division_multi_ps stats ov fuel best3) ++
              break_tie_division_multi_ps stats ov fuel
                (remaining.filter (fun t => decide (t ∉ best3)))
          else
            let best4 := maxGroupBy (fun t => (stats t).points_for) remaining
            if best4.length < remaining.length then
              (if best4.length = 1 then best4
               else break_tie_division_multi_ps stats ov fuel best4) ++
                break_tie_division_multi_ps stats ov fuel
                  (remaining.filter (fun t => decide (t ∉ best4)))
            else
              let best5 := minGroupBy (fun t => (stats t).matrix_rank) remaining
              if best5.length = 1 then
                best5 ++ break_tie_division_multi_ps stats ov fuel
                  (remaining.filter (fun t => decide (t ∉ best5)))
              else pySorted remaining
termination_by structural fuel remaining => fuel

/-- `_compare_cross_division(stats, candidates, all_teams, divisions)`
(`app.py` lines 418-490): the Wild-Card comparator returning the single best
candidate (head-to-head, strength of schedule, total points, matrix rank,
alphabetical).  `none` models the `IndexError` Python would raise on an empty
candidate list; every call site passes a non-empty list.  In the 3+-candidate
branch the final alphabetical fallback sorts the total-points survivors, as in
the source (the rank filter result is only used when it is a singleton). -/
def compare_cross_division (stats : Stats) (candidates : List Team)
    (all_teams : List Team) (divisions : Divisions) : Option Team :=
  match candidates with
  | [] => none
  | [t] => some t
  | [t1, t2] =>
      let w1 := ((stats t1).h2h t2).wins
      let w2 := ((stats t2).h2h t1).wins
      if w1 > w2 then some t1
      else if w2 > w1 then some t2
      else
        let sos1 := calculate_strength_of_schedule stats t1 all_teams
        let sos2 := calculate_strength_of_schedule stats t2 all_teams
        if sos1 > sos2 then some t1
        else if sos2 > sos1 then some t2
        else if (stats t1).points_for > (stats t2).points_for then some t1
        else if (stats t2).points_for > (stats t1).points_for then some t2
        else if (stats t1).matrix_rank < (stats t2).matrix_rank then some t1
        else if (stats t2).matrix_rank < (stats t1).matrix_rank then some t2
        else (pySorted candidates).head?
  | remaining =>
      let best1 := maxGroupBy (h2hGroupPct stats remaining) remaining
      if best1.length = 1 then best1.head?
      else
        let best2 := maxGroupBy
          (fun t => calculate_strength_of_schedule stats t all_teams) best1
        if best2.length = 1 then best2.head?
        else
          let best3 := maxGroupBy (fun t => (stats t).points_for) best2
          if best3.length = 1 then best3.head?
          else
            let best4 := minGroupBy (fun t => (stats t).matrix_rank) best3
            if best4.length = 1 then best4.head?
            else (pySorted best3).head?

/-- One `remaining_by_div[div].pop(0)` step of `break_tie_wildcard`. -/
def popDiv (d : Option String) : List (Option String × List Team) →
    List (Option String × List Team)
  | [] => []
  | (k, ts) :: rest =>
      if k = d then (k, ts.tail) :: rest else (k, ts) :: popDiv d rest

/-- The `while sum(len(...)) > 0` interleaving loop of `break_tie_wildcard`
(`app.py` lines 395-413), fueled by the total number of teams. -/
def wcInterleave (stats : Stats) (teams : List Team) (divisions : Divisions) :
    ℕ → List (Option String × List Team) → List Team
  | 0, _ => []
  | fuel + 1, rem =>
    let candidates := rem.filterMap (fun p => p.2.head?)
    match candidates with
    | [] => []
    | [t] =>
        t :: wcInterleave stats teams divisions fuel
          (popDiv (get_team_division t divisions) rem)
    | cs =>
        match compare_cross_division stats cs teams divisions with
        | none => []
        | some best =>
            best :: wcInterleave stats teams divisions fuel
              (popDiv (get_team_division best divisions) rem)
termination_by structural fuel rem => fuel

/-- `break_tie_wildcard(stats, tied_teams, teams, divisions)`
(`app.py` lines 376-415): group by division, order each division's subset with
the division chain (override `None`), then interleave across divisions taking
the cross-division best remaining candidate each round. -/
def break_tie_wildcard (stats : Stats) (tied : List Team) (teams : List Team)
    (divisions : Divisions) : List Team :=
  if tied.length = 1 then tied
  else
    let by_division := pyGroupBy (fun t => get_team_division t divisions) tied
    if by_division.length = 1 then
      break_tie_division stats tied divisions (fun _ => none)
    else
      let ordered := by_division.map (fun p =>
        (p.1,
         if p.2.length > 1 then break_tie_division stats p.2 divisions (fun _ => none)
         else p.2))
      wcInterleave stats teams divisions tied.length ordered

/-- An actual Python head-to-head dictionary, as stored in the JSON data:
`none` for an opponent with no entry.  Used to model the one pair of functions
whose behaviour on missing entries differs between the two files. -/
abbrev H2HDict := Team → Option H2H

/-- `get_h2h_record(stats, team1, team2)` of `app.py` lines 46-48 applied to
`team1`'s dictionary: `stats[team1]['h2h'].get(team2, zero-record)` — a missing
entry defaults to the zero record. -/
def get_h2h_record_defaulted (d : H2HDict) (team2 : Team) : ℕ × ℕ × ℕ :=
  let h2h := (d team2).getD H2H.zero
  (h2h.wins, h2h.losses, h2h.ties)

/-- `get_h2h_record(stats, team1, team2)` of `playoff_scenarios.py` lines 70-73
applied to `team1`'s dictionary: direct indexing `stats[team1]['h2h'][team2]`.
`none` models the `KeyError` Python raises on a missing entry. -/
def get_h2h_record_direct (d : H2HDict) (team2 : Team) : Option (ℕ × ℕ × ℕ) :=
  (d team2).map (fun h2h => (h2h.wins, h2h.losses, h2h.ties))

/-- Point update of a snapshot at one team (a `new_stats[team][...] = ...`
mutation). -/
def updateStats (s : Stats) (t : Team) (f : TeamStats → TeamStats) : Stats :=
  fun u => if u = t then f (s u) else s u

/-- Point update of one team's head-to-head entry against one opponent. -/
def updateH2H (s : Stats) (t opp : Team) (f : H2H → H2H) : Stats :=
  updateStats s t (fun r =>
    { r with h2h := fun u => if u = opp then f (r.h2h u) else r.h2h u })

/-- One simulated game of the Monte-Carlo engine (an element of the
`game_results` list built by `simulate_week14`, `monte_carlo.py` 149-178). -/
structure GameResult where
  away_team : Team
  home_team : Team
  away_score : ℚ
  home_score : ℚ
  is_division_game : Bool

/-- The `'winner'` field computed at `monte_carlo.py` line 174:
`away_team if away_score > home_score else home_team`. -/
def simulate_week14_winner (g : GameResult) : Team :=
  if g.away_score > g.home_score then g.away_team else g.home_team

/-- One iteration of the loop of `apply_simulation_results`
(`monte_carlo.py` lines 196-222): update win/loss and division counters of the
two teams.  Note the source touches neither `h2h` nor any points field. -/
def apply_one_game (stats : Stats) (g : GameResult) : Stats :=
  if g.away_score > g.home_score then
    let s1 := updateStats stats g.away_team (fun r => { r with wins := r.wins + 1 })
    let s2 := updateStats s1 g.home_team (fun r => { r with losses := r.losses + 1 })
    if g.is_division_game then
      let s3 := updateStats s2 g.away_team
        (fun r => { r with division_wins := r.division_wins + 1 })
      updateStats s3 g.home_team
        (fun r => { r with division_losses := r.division_losses + 1 })
    else s2
  else
    let s1 := updateStats stats g.home_team (fun r => { r with wins := r.wins + 1 })
    let s2 := updateStats s1 g.away_team (fun r => { r with losses := r.losses + 1 })
    if g.is_division_game then
      let s3 := updateStats s2 g.home_team
        (fun r => { r with division_wins := r.division_wins + 1 })
      updateStats s3 g.away_team
        (fun r => { r with division_losses := r.division_losses + 1 })
    else s2

/-- `apply_simulation_results(base_stats, game_results, divisions)`
(`monte_carlo.py` lines 196-222); the deep copy is the fold's fresh result. -/
def apply_simulation_results (base_stats : Stats) (game_results : List GameResult) :
    Stats :=
  game_results.foldl apply_one_game base_stats

/-- An unplayed matchup (`week14_matchups` entries). -/
structure Matchup where
  away_team : Team
  home_team : Team
  is_division_game : Bool

/-- A user/scenario selection for one game (`selections[game_id]`). -/
structure Selection where
  winner : String
  margin : ℚ

/-- The scenario selections dictionary; association list with Python's
last-assignment-wins lookup. -/
abbrev Selections := List (String × Selection)

/-- `selections.get(game_id, default)` with dict semantics (the last binding
of a key wins, as repeated Python dict assignment overwrites). -/
def pyDictGet (sel : Selections) (k : String) : Option Selection :=
  sel.foldl (fun acc kv => if kv.1 = k then some kv.2 else acc) none

/-- `f"{away}_at_{home}".replace("'", "").replace(" ", "_")`
(`app.py` line 685). -/
def game_id (away home : Team) : String :=
  String.mk (((away.data ++ ("_at_".data) ++ home.data).filter
    (fun c => decide (c ≠ Char.ofNat 39))).map
      (fun c => if c = ' ' then Char.ofNat 95 else c))

/-- The margin-dependent FFPL override built at `app.py` lines 711-716. -/
def ffplOverride : H2HOverride := fun p =>
  if p = ("The ReBiggulators", "Los Pollos Hermanos") then some (61, 53)
  else if p = ("Los Pollos Hermanos", "The ReBiggulators") then some (53, 61)
  else none

/-- One iteration of the matchup loop of `simulate_week14_outcome`
(`app.py` lines 681-716): read the selection (defaulting to a home win by 5),
credit the winner and debit the loser, mirror the result in both head-to-head
entries, bump division counters for division games, and set the FFPL
margin-of-victory override when its trigger condition holds.  No points field
is touched. -/
def simulate_one_matchup (league_name : String) (selections : Selections)
    (acc : Stats × H2HOverride) (m : Matchup) : Stats × H2HOverride :=
  let sel := (pyDictGet selections (game_id m.away_team m.home_team)).getD ⟨"home", 5⟩
  let stats := acc.1
  let stats4 :=
    if sel.winner = "away" then
      let s1 := updateStats stats m.away_team (fun r => { r with wins := r.wins + 1 })
      let s2 := updateStats s1 m.home_team (fun r => { r with losses := r.losses + 1 })
      let s3 := updateH2H s2 m.away_team m.home_team
        (fun h2h => { h2h with wins := h2h.wins + 1 })
      let s4 := updateH2H s3 m.home_team m.away_team
        (fun h2h => { h2h with losses := h2h.losses + 1 })
      if m.is_division_game then
        let s5 := updateStats s4 m.away_team
          (fun r => { r with division_wins := r.division_wins + 1 })
        updateStats s5 m.home_team
          (fun r => { r with division_losses := r.division_losses + 1 })
      else s4
    else
      let s1 := updateStats stats m.home_team (fun r => { r with wins := r.wins + 1 })
      let s2 := updateStats s1 m.away_team (fun r => { r with losses := r.losses + 1 })
      let s3 := updateH2H s2 m.home_team m.away_team
        (fun h2h => { h2h with wins := h2h.wins + 1 })
      let s4 := updateH2H s3 m.away_team m.home_team
        (fun h2h => { h2h with losses := h2h.losses + 1 })
      if m.is_division_game then
        let s5 := updateStats s4 m.home_team
          (fun r => { r with division_wins := r.division_wins + 1 })
        updateStats s5 m.away_team
          (fun r => { r with division_losses := r.division_losses + 1 })
      else s4
  let ov :=
    if league_name = "FFPL" ∧ m.away_team = "The ReBiggulators" ∧
        m.home_team = "Los Pollos Hermanos" ∧ sel.winner = "away" ∧ sel.margin ≥ 3 then
      ffplOverride
    else acc.2
  (stats4, ov)

/-- `simulate_week14_outcome(base_stats, selections, matchups, divisions,
league_name)` (`app.py` lines 676-718).  The unused `divisions` parameter is
kept as in the source.  Returns the updated snapshot and the override. -/
def simulate_week14_outcome (base_stats : Stats) (selections : Selections)
    (matchups : List Matchup) (divisions : Divisions) (league_name : String) :
    Stats × H2HOverride :=
  let _ := divisions
  matchups.foldl (simulate_one_matchup league_name selections)
    (base_stats, fun _ => none)

/-- The all-zero team record (a convenient base for concrete snapshots;
`matrix_rank` defaults to the source's `.get('matrix_rank', 99)` default). -/
def ts0 : TeamStats :=
  { wins := 0, losses := 0, ties := 0, division_wins := 0, division_losses := 0,
    division_ties := 0, points_for := 0, points_against := 0, matrix_rank := 99,
    h2h := fun _ => H2H.zero }

/-- Build a head-to-head map from an explicit entry list (zero elsewhere). -/
def mkH2H (l : List (Team × H2H)) : Team → H2H := fun o =>
  ((l.find? (fun p => p.1 = o)).map Prod.snd).getD H2H.zero

/-- The empty head-to-head dictionary (a team pair with no recorded games). -/
def emptyH2HDict : H2HDict := fun _ => none

/-- An all-zero snapshot. -/
def statsZero : Stats := fun _ => ts0

/-- A Monte-Carlo game result with equal scores (the tie case). -/
def gameTied : GameResult :=
  { away_team := "Away Club", home_team := "Home Club",
    away_score := 3, home_score := 3, is_division_game := false }

/-- A Monte-Carlo game result with a clear away win by 10 to 3. -/
def gameAwayWin : GameResult :=
  { away_team := "A", home_team := "B",
    away_score := 10, home_score := 3, is_division_game := true }

/-- A tie-break stage of the division chain: a score for each team, possibly
depending on the currently tied group (higher is better). -/
abbrev DivisionStage := Stats → List Team → Team → ℚ

/-- The stage list of the division chain as the claim states it: head-to-head
win percentage among the group, division-record win percentage, total points in
head-to-head games against the group, total points in all games.  (Matrix rank
and the alphabetical fallback are the cascade's terminal step.) -/
def divisionChainStages : List DivisionStage :=
  [h2hGroupPct,
   fun s _ => divisionPct s,
   fun s g t => get_h2h_points_vs_group s t g,
   fun s _ t => (s t).points_for]

/-- The stage list actually used by `app.py`'s multi-team division chain: the
head-to-head-points stage is missing. -/
def appDivisionChainStages : List DivisionStage :=
  [h2hGroupPct,
   fun s _ => divisionPct s,
   fun s _ t => (s t).points_for]

/-- The first stage of a stage list whose best-scoring subset is a proper
subset of the group (the subset that gets peeled off), if any. -/
def firstSplit (s : Stats) (g : List Team) : List DivisionStage → Option (List Team)
  | [] => none
  | st :: rest =>
      let best := maxGroupBy (st s g) g
      if best.length < g.length then some best else firstSplit s g rest

/-- The generic peel-and-recurse division cascade over a stage list: peel the
strictly better subset at the first separating stage (recursing into it when
it has more than one member) and restart on the remainder; when no stage
separates, eliminate a uniquely best matrix rank, else sort the remaining
group alphabetically. -/
def divisionCascade (stages : List DivisionStage) (s : Stats) :
    ℕ → List Team → List Team
  | 0, g => g
  | fuel + 1, g =>
    if g.length ≤ 1 then g
    else
      match firstSplit s g stages with
      | some best =>
          (if best.length = 1 then best else divisionCascade stages s fuel best) ++
            divisionCascade stages s fuel (g.filter (fun t => decide (t ∉ best)))
      | none =>
          let bestR := minGroupBy (fun t => (s t).matrix_rank) g
          if bestR.length = 1 then
            bestR ++ divisionCascade stages s fuel
              (g.filter (fun t => decide (t ∉ bestR)))
          else pySorted g
termination_by structural fuel g => fuel

/-- Three division rivals all 1-1 head-to-head against each other and level on
division record, whose head-to-head points and total points order in opposite
directions: E has the most head-to-head points (30 vs 20 vs 10) while G has
the most total points (300 vs 200 vs 100). -/
def statsEFG : Stats := fun t =>
  if t = "E" then
    { ts0 with division_wins := 2, division_losses := 2, points_for := 100,
               matrix_rank := 1,
               h2h := mkH2H [("F", ⟨1, 1, 0, 15⟩), ("G", ⟨1, 1, 0, 15⟩)] }
  else if t = "F" then
    { ts0 with division_wins := 2, division_losses := 2, points_for := 200,
               matrix_rank := 2,
               h2h := mkH2H [("E", ⟨1, 1, 0, 10⟩), ("G", ⟨1, 1, 0, 10⟩)] }
  else if t = "G" then
    { ts0 with division_wins := 2, division_losses := 2, points_for := 300,
               matrix_rank := 3,
               h2h := mkH2H [("E", ⟨1, 1, 0, 5⟩), ("F", ⟨1, 1, 0, 5⟩)] }
  else ts0

/-- One row of `determine_playoff_teams`' result (display-only `record` and
`division` strings omitted). -/
structure PlayoffEntry where
  seed : ℕ
  team : Team
  is_division_winner : Bool
  has_bye : Bool
deriving DecidableEq

/-- The sort key `(wins, -losses, -ties)` used by `determine_relegation_teams`
(`app.py` lines 615-624): Python's tuple `min` is the lexicographic minimum. -/
def worstRecordKey (stats : Stats) (t : Team) : ℤ ×ₗ (ℤ ×ₗ ℤ) :=
  toLex (((stats t).wins : ℤ),
    toLex ((-((stats t).losses : ℤ)), (-((stats t).ties : ℤ))))

/-- The `while remaining` loop of `get_lowest_in_division_for_relegation`
(`app.py` lines 146-183), fueled: peel the best of the group by head-to-head
percentage, then division record, then first-maximal total points. -/
def get_lowest_loop (stats : Stats) : ℕ → List Team → List Team
  | 0, _ => []
  | fuel + 1, remaining =>
      match remaining with
      | [] => []
      | [t] => [t]
      | _ :: _ :: _ =>
          let best1 := maxGroupBy (h2hGroupPct stats remaining) remaining
          if best1.length = 1 then
            best1 ++ get_lowest_loop stats fuel
              (remaining.filter (fun t => decide (t ∉ best1)))
          else
            let best2 := maxGroupBy (divisionPct stats) best1
            if best2.length = 1 then
              best2 ++ get_lowest_loop stats fuel
                (remaining.filter (fun t => decide (t ∉ best2)))
            else
              match pyMaxBy (fun t => (stats t).points_for) best2 with
              | none => []
              | some best =>
                  best :: get_lowest_loop stats fuel (remaining.erase best)
termination_by structural fuel remaining => fuel

/-- `get_lowest_in_division_for_relegation(stats, div_teams)`
(`app.py` lines 89-183): orders a division's tied subset best to worst.  The
two-team branch (lines 104-143) runs head-to-head, division record,
head-to-head points, total points, matrix rank, alphabetical — the same
sequence as `_break_tie_division_two` with no override, to which it is
delegated here.  The 3+-team loop uses only head-to-head percentage, division
record and first-maximal total points. -/
def get_lowest_in_division_for_relegation (stats : Stats) (div_teams : List Team) :
    List Team :=
  match div_teams with
  | [t] => [t]
  | [t1, t2] => break_tie_division_two stats t1 t2 (fun _ => none)
  | other => get_lowest_loop stats other.length other

/-- `compare_cross_division_for_relegation(stats, candidates, all_teams,
divisions)` (`app.py` lines 186-258): the reduced cross-division comparator
used only by relegation.  The two-team branch (lines 200-231) is the same
sequence as `_compare_cross_division`'s, to which it is delegated here; the
3+-team branch has no matrix-rank stage and resolves a total-points tie to the
first maximal candidate (Python `max(best_teams, key=...)`). -/
def compare_cross_division_for_relegation (stats : Stats) (candidates : List Team)
    (all_teams : List Team) (divisions : Divisions) : Option Team :=
  match candidates with
  | [] => none
  | [t] => some t
  | [t1, t2] => compare_cross_division stats [t1, t2] all_teams divisions
  | remaining =>
      let best1 := maxGroupBy (h2hGroupPct stats remaining) remaining
      if best1.length = 1 then best1.head?
      else
        let best2 := maxGroupBy
          (fun t => calculate_strength_of_schedule stats t all_teams) best1
        if best2.length = 1 then best2.head?
        else pyMaxBy (fun t => (stats t).points_for) best2

/-- The `while len(remaining_candidates) > 1` elimination loop of
`determine_relegation_teams` (`app.py` lines 654-658): repeatedly remove the
cross-division best; the survivor is the relegated loser. -/
def relegationElim (stats : Stats) (teams : List Team) (divisions : Divisions) :
    ℕ → List Team → Option Team
  | 0, cands => cands.head?
  | fuel + 1, cands =>
      if cands.length ≤ 1 then cands.head?
      else
        match compare_cross_division_for_relegation stats cands teams divisions with
        | none => none
        | some best => relegationElim stats teams divisions fuel (cands.erase best)
termination_by structural fuel cands => fuel

/-- The body of one iteration of the `while len(relegation_teams) < 4` loop of
`determine_relegation_teams` (`app.py` lines 614-659), applied to the list of
still-eligible teams: the team relegated in this round. -/
def relegationPick (stats : Stats) (teams : List Team) (divisions : Divisions)
    (remaining : List Team) : Option Team :=
  if remaining = [] then none
  else
    let worst_teams := minGroupBy (worstRecordKey stats) remaining
    if worst_teams.length = 1 then worst_teams.head?
    else
      let by_division := pyGroupBy (fun t => get_team_division t divisions) worst_teams
      let ordered := by_division.map
        (fun p => (p.1, get_lowest_in_division_for_relegation stats p.2))
      let lowest := ordered.filterMap (fun p => p.2.getLast?)
      if lowest.length = 1 then lowest.head?
      else relegationElim stats teams divisions lowest.length lowest

/-- The `while len(relegation_teams) < 4` loop of `determine_relegation_teams`
(`app.py` lines 609-659), fueled: accumulates relegated teams in pick order,
recomputing the eligible list each round; a round with no eligible teams left
breaks out silently. -/
def relegationLoop (stats : Stats) (teams : List Team) (divisions : Divisions)
    (non_playoff : List Team) : ℕ → List Team → List Team
  | 0, acc => acc
  | fuel + 1, acc =>
      if acc.length < 4 then
        let remaining := non_playoff.filter (fun t => decide (t ∉ acc))
        match relegationPick stats teams divisions remaining with
        | none => acc
        | some t =>
            relegationLoop stats teams divisions non_playoff fuel (acc ++ [t])
      else acc
termination_by structural fuel acc => fuel

/-- `determine_relegation_teams(stats, playoff_teams, teams, divisions)`
(`app.py` lines 593-673): pick up to four relegated teams one at a time from
the worst record upward, then seed them 1..n in pick order. -/
def determine_relegation_teams (stats : Stats) (playoff_teams : List PlayoffEntry)
    (teams : List Team) (divisions : Divisions) : List (ℕ × Team) :=
  let playoff_team_names := playoff_teams.map PlayoffEntry.team
  let non_playoff := teams.filter (fun t => decide (t ∉ playoff_team_names))
  let rel := relegationLoop stats teams divisions non_playoff 4 []
  rel.enum.map (fun p => (p.1 + 1, p.2))

/-- Record triple `(wins, losses, ties)` of a team. -/
def recordKey (stats : Stats) (t : Team) : ℕ × ℕ × ℕ :=
  ((stats t).wins, (stats t).losses, (stats t).ties)

/-- Grouping of a team list by record, groups walked from worst to best
(ascending `(wins, -losses, -ties)`), each group in original list order. -/
def recordGroupsWorstFirst (stats : Stats) (l : List Team) : List (List Team) :=
  let recs := firstKeys (l.map (recordKey stats))
  let sorted := recs.insertionSort (fun r1 r2 =>
    (toLex ((r1.1 : ℤ), toLex ((-(r1.2.1 : ℤ)), (-(r1.2.2 : ℤ)))) : ℤ ×ₗ (ℤ ×ₗ ℤ)) ≤
      toLex ((r2.1 : ℤ), toLex ((-(r2.2.1 : ℤ)), (-(r2.2.2 : ℤ)))))
  sorted.map (fun r => l.filter (fun t => decide (recordKey stats t = r)))

/-- Modelled from the claim: walk the worst-to-best record groups, filling up
to `slots` relegation places; an overflowing group is ordered with the
wild-card chain and the worst `slots` entries (the tie-break losers) are
kept. -/
def specFillRelegation (stats : Stats) (teams : List Team) (divisions : Divisions) :
    ℕ → List (List Team) → List Team
  | _, [] => []
  | slots, g :: gs =>
      if slots = 0 then []
      else if g.length ≤ slots then
        g ++ specFillRelegation stats teams divisions (slots - g.length) gs
      else
        let ordered := break_tie_wildcard stats g teams divisions
        ordered.drop (ordered.length - slots)

/-- Modelled from the claim (C3): relegation selection walks record groups of
the non-qualifying teams from worst to best, fills up to four slots truncating
an overflowing group by keeping the worst of the wild-card-chain order, and
seeds the selected teams by re-grouping them worst to best with each tied
group ordered as the wild-card chain reversed. -/
def specRelegationClaim (stats : Stats) (playoff_names : List Team)
    (teams : List Team) (divisions : Divisions) : List (ℕ × Team) :=
  let non_playoff := teams.filter (fun t => decide (t ∉ playoff_names))
  let selected := specFillRelegation stats teams divisions 4
    (recordGroupsWorstFirst stats non_playoff)
  let seeded := ((recordGroupsWorstFirst stats selected).map
    (fun g => if g.length = 1 then g
      else (break_tie_wildcard stats g teams divisions).reverse)).flatten
  seeded.enum.map (fun p => (p.1 + 1, p.2))

/-- The amended description of `app.py`'s relegation selection as clean
structural recursion: pick the next relegated team (`relegationPick`) and
remove it from the pool, up to `n` times. -/
def specAppRelegation (stats : Stats) (teams : List Team) (divisions : Divisions) :
    ℕ → List Team → List Team
  | 0, _ => []
  | n + 1, pool =>
      match relegationPick stats teams divisions pool with
      | none => []
      | some t =>
          t :: specAppRelegation stats teams divisions n
            (pool.filter (fun u => decide (u ∉ [t])))
termination_by structural n pool => n

/-- Four teams of one division with identical records, points and head-to-head
data, distinguished only by matrix rank (D best, A worst). -/
def statsABCD : Stats := fun t =>
  if t = "A" then { ts0 with losses := 1, matrix_rank := 4 }
  else if t = "B" then { ts0 with losses := 1, matrix_rank := 3 }
  else if t = "C" then { ts0 with losses := 1, matrix_rank := 2 }
  else if t = "D" then { ts0 with losses := 1, matrix_rank := 1 }
  else ts0

/-- The four-team league of `statsABCD`. -/
def teamsABCD : List Team := ["A", "B", "C", "D"]

/-- Its single division. -/
def divsABCD : Divisions := [("X", ["A", "B", "C", "D"])]

/-- A small two-team snapshot with non-zero points and head-to-head data. -/
def statsPts : Stats := fun t =>
  if t = "A" then
    { ts0 with wins := 7, points_for := 100, points_against := 80,
               h2h := mkH2H [("B", ⟨1, 0, 0, 50⟩)] }
  else if t = "B" then
    { ts0 with wins := 6, points_for := 90, points_against := 85,
               h2h := mkH2H [("A", ⟨0, 1, 0, 40⟩)] }
  else ts0

/-- An override table that is NOT mirror-consistent: it assigns the points pair
`(0, 10)` to both orderings of `("A", "B")`. -/
def ovBad : H2HOverride := fun p =>
  if p = ("A", "B") ∨ p = ("B", "A") then some (0, 10) else none

/-- Record sort of the playoff seeder: Python
`sorted(records, key=lambda r: (-r[0], r[1], r[2]))` over the first-appearance
record keys — best record first, stable on (impossible) key ties. -/
def bestFirstRecords (stats : Stats) (l : List Team) : List (ℕ × ℕ × ℕ) :=
  (firstKeys (l.map (recordKey stats))).insertionSort (fun r1 r2 =>
    (toLex ((-(r1.1 : ℤ)), toLex ((r1.2.1 : ℤ), (r1.2.2 : ℤ))) : ℤ ×ₗ (ℤ ×ₗ ℤ)) ≤
      toLex ((-(r2.1 : ℤ)), toLex ((r2.2.1 : ℤ), (r2.2.2 : ℤ))))

/-- `rank_division(stats, division_teams, divisions, h2h_points_override)`
(`app.py` lines 492-509): group the division by record, walk records best to
worst, passing singleton groups through and delegating larger groups to the
division tie-break chain. -/
def rank_division (stats : Stats) (division_teams : List Team)
    (divisions : Divisions) (ov : H2HOverride) : List Team :=
  ((bestFirstRecords stats division_teams).map (fun r =>
    let tied := division_teams.filter (fun t => decide (recordKey stats t = r))
    if tied.length = 1 then tied
    else break_tie_division stats tied divisions ov)).flatten

/-- Python dict lookup `divisions[d]`, for keys drawn from the key list. -/
def divLookup (divisions : Divisions) (d : String) : List Team :=
  match divisions.filter (fun p => decide (p.1 = d)) with
  | [] => []
  | p :: _ => p.2

/-- `[division_rankings[div][0] for div in sorted(divisions.keys())]`
(`app.py` line 516): the division winners in sorted key order; `none` models
the `IndexError` raised on an empty division ranking. -/
def divisionWinners (stats : Stats) (divisions : Divisions) (ov : H2HOverride) :
    List String → Option (List Team)
  | [] => some []
  | d :: ds =>
      match (rank_division stats (divLookup divisions d) divisions ov).head?,
          divisionWinners stats divisions ov ds with
      | some w, some ws => some (w :: ws)
      | _, _ => none

/-- The wild-card fill loop of `determine_playoff_teams` (`app.py` lines
526-537): walk records best to worst, stop when the spots are filled, and
truncate an overflowing record group to the first spots of its wild-card-chain
order. -/
def fillWildcards (stats : Stats) (teams : List Team) (divisions : Divisions)
    (non_winners : List Team) : ℕ → List (ℕ × ℕ × ℕ) → List Team
  | _, [] => []
  | spots, r :: rest =>
      if spots = 0 then []
      else
        let tied := non_winners.filter (fun t => decide (recordKey stats t = r))
        if tied.length ≤ spots then
          tied ++ fillWildcards stats teams divisions non_winners
            (spots - tied.length) rest
        else (break_tie_wildcard stats tied teams divisions).take spots
termination_by structural spots rs => rs

/-- The two record-group seeding passes of `determine_playoff_teams`
(`app.py` lines 539-568): walk records best to worst; singleton groups pass
through, larger groups are ordered by the wild-card chain. -/
def seedByRecord (stats : Stats) (teams : List Team) (divisions : Divisions)
    (group : List Team) : List Team :=
  ((bestFirstRecords stats group).map (fun r =>
    let tied := group.filter (fun t => decide (recordKey stats t = r))
    if tied.length = 1 then tied
    else break_tie_wildcard stats tied teams divisions)).flatten

/-- `determine_playoff_teams(stats, teams, divisions, h2h_points_override)`
(`app.py` lines 511-590): division winners first of each division ranking in
sorted key order, wild cards filled to six total from the non-winners, both
groups seeded by record with the wild-card chain; winners get seeds 1.. and
byes for the top two.  `none` models the `IndexError` on an empty division
ranking; the presentational `record` and `division` strings of each entry are
omitted. -/
def determine_playoff_teams (stats : Stats) (teams : List Team)
    (divisions : Divisions) (ov : H2HOverride) : Option (List PlayoffEntry) :=
  match divisionWinners stats divisions ov (pySorted (divisions.map Prod.fst)) with
  | none => none
  | some division_winners =>
      let non_winners := teams.filter (fun t => decide (t ∉ division_winners))
      let wild_cards := fillWildcards stats teams divisions non_winners
        (6 - division_winners.length) (bestFirstRecords stats non_winners)
      let seeded_winners := seedByRecord stats teams divisions division_winners
      let seeded_wildcards := seedByRecord stats teams divisions wild_cards
      some (seeded_winners.enum.map (fun p =>
          ⟨p.1 + 1, p.2, true, decide (p.1 < 2)⟩) ++
        seeded_wildcards.enum.map (fun p =>
          ⟨seeded_winners.length + p.1 + 1, p.2, false, false⟩))

/-- Per-team output of the scenario-weighted summary (the presentational
`current_record`, `division` and `status` fields are omitted). -/
structure TeamSummary where
  championship_pct : ℚ
  bye_pct : ℚ
  relegation_pct : ℚ
  safe_pct : ℚ
deriving DecidableEq

/-- `get_matchup_win_probability(away, home, matchup_probs)` (`app.py` lines
721-726): the Power-Matrix away-win probability, defaulting to one half. -/
def get_matchup_win_probability (matchup_probs : Team × Team → Option ℚ)
    (away home : Team) : ℚ :=
  match matchup_probs (away, home) with
  | some p => p
  | none => 1 / 2

/-- `itertools.product([0, 1], repeat=n)` with `false` standing for `0`
(away win): every outcome assignment, first game varying slowest. -/
def pyProduct : ℕ → List (List Bool)
  | 0 => [[]]
  | n + 1 => ((pyProduct n).map (fun l => false :: l)) ++
      ((pyProduct n).map (fun l => true :: l))

/-- A scenario's probability (`app.py` lines 785-788): product over the games
of the chosen side's probability. -/
def scenarioProb (game_probs : List (ℚ × ℚ)) (results : List Bool) : ℚ :=
  ((game_probs.zip results).map (fun q => if q.2 then q.1.2 else q.1.1)).prod

/-- The selections dictionary built for one scenario (`app.py` lines
791-794): away win on `false`, home win on `true`, margin 5. -/
def scenarioSelections (matchup_list : List (Team × Team))
    (results : List Bool) : Selections :=
  (matchup_list.zip results).map (fun p =>
    (game_id p.1.1 p.1.2, ⟨if p.2 then "home" else "away", 5⟩))

/-- One scenario of the weighted summary (`app.py` lines 796-807): simulate
the selected outcomes, determine the playoff field with the scenario's
override and, when relegation is on, the relegation names; `none` models the
propagated `IndexError` of an empty division ranking. -/
def scenarioOutcome (stats : Stats) (teams : List Team) (divisions : Divisions)
    (matchups : List Matchup) (league_name : String) (has_relegation : Bool)
    (results : List Bool) : Option (List PlayoffEntry × List Team) :=
  let matchup_list := matchups.map (fun m => (m.away_team, m.home_team))
  let out := simulate_week14_outcome stats
    (scenarioSelections matchup_list results) matchups divisions league_name
  match determine_playoff_teams out.1 teams divisions out.2 with
  | none => none
  | some playoff_teams =>
      some (playoff_teams,
        if has_relegation then
          (determine_relegation_teams out.1 playoff_teams teams divisions).map
            Prod.snd
        else [])

/-- The scenario walk of the weighted summary: every outcome assignment in
order, failing as Python would on the first failing scenario. -/
def scenarioOutcomes (stats : Stats) (teams : List Team)
    (divisions : Divisions) (matchups : List Matchup) (league_name : String)
    (has_relegation : Bool) :
    List (List Bool) → Option (List (List PlayoffEntry × List Team))
  | [] => some []
  | results :: rest =>
      match scenarioOutcome stats teams divisions matchups league_name
          has_relegation results,
        scenarioOutcomes stats teams divisions matchups league_name
          has_relegation rest with
      | some o, some os => some (o :: os)
      | _, _ => none

/-- Python `round(x, 1)`: round half to even at one decimal place. -/
def pyRound1 (x : ℚ) : ℚ :=
  let y := x * 10
  let f := ⌊y⌋
  let r : ℤ :=
    if y - f < 1 / 2 then f
    else if y - f > 1 / 2 then f + 1
    else if f % 2 = 0 then f else f + 1
  (r : ℚ) / 10

/-- The raw (un-normalised) per-team accumulators of the weighted scenario
walk (`app.py` lines 809-820): each scenario adds its probability once per
playoff entry carrying the team's name (only bye-holding entries for `bye`),
once per relegation-name occurrence, and once per `teams` occurrence when the
team is in neither list. -/
def scenarioAccum (teams : List Team)
    (data : List (ℚ × (List PlayoffEntry × List Team))) (team : Team) :
    TeamSummary :=
  { championship_pct := (data.map (fun q =>
      q.1 * ((q.2.1.filter (fun p => decide (p.team = team))).length : ℚ))).sum
    bye_pct := (data.map (fun q =>
      q.1 * ((q.2.1.filter (fun p =>
        decide (p.team = team) && p.has_bye)).length : ℚ))).sum
    relegation_pct := (data.map (fun q =>
      q.1 * ((q.2.2.filter (fun u => decide (u = team))).length : ℚ))).sum
    safe_pct := (data.map (fun q =>
      if q.2.1.all (fun p => decide (p.team ≠ team)) &&
          q.2.2.all (fun u => decide (u ≠ team)) then
        q.1 * ((teams.filter (fun u => decide (u = team))).length : ℚ)
      else 0)).sum }

/-- `get_team_summary_weighted(league_name)` (`app.py` lines 729-842) over
the league's unpacked fields: snapshot, teams, divisions, unplayed matchups,
Power-Matrix probabilities, relegation flag, league name.  With no unplayed
games the percentages are assigned directly from one deterministic
evaluation; otherwise every outcome assignment is walked, weighted by its
probability, and normalised by the total probability with `round(..., 1)`.
`none` models a propagated `IndexError`; the summary is total over team
names, matching the Python dict on the league's teams; the presentational
`record`, `division` and `status` fields are omitted. -/
def get_team_summary_weighted (stats : Stats) (teams : List Team)
    (divisions : Divisions) (matchups : List Matchup)
    (matchup_probs : Team × Team → Option ℚ) (has_relegation : Bool)
    (league_name : String) : Option (Team → TeamSummary) :=
  match matchups with
  | [] =>
      match determine_playoff_teams stats teams divisions (fun _ => none) with
      | none => none
      | some playoff_teams =>
          let relegation_names :=
            if has_relegation then
              (determine_relegation_teams stats playoff_teams teams
                divisions).map Prod.snd
            else []
          some (fun team =>
            { championship_pct :=
                if playoff_teams.any (fun p => decide (p.team = team)) then 100
                else 0
              bye_pct :=
                if playoff_teams.any (fun p =>
                    decide (p.team = team) && p.has_bye) then 100
                else 0
              relegation_pct :=
                if relegation_names.any (fun u => decide (u = team)) then 100
                else 0
              safe_pct :=
                if playoff_teams.all (fun p => decide (p.team ≠ team)) &&
                    relegation_names.all (fun u => decide (u ≠ team)) then 100
                else 0 })
  | _ :: _ =>
      let matchup_list := matchups.map (fun m => (m.away_team, m.home_team))
      let game_probs := matchup_list.map (fun p =>
        (get_matchup_win_probability matchup_probs p.1 p.2,
          1 - get_matchup_win_probability matchup_probs p.1 p.2))
      let scenarios := pyProduct matchups.length
      match scenarioOutcomes stats teams divisions matchups league_name
          has_relegation scenarios with
      | none => none
      | some outs =>
          let data := (scenarios.map (fun results =>
            scenarioProb game_probs results)).zip outs
          let total_prob := (scenarios.map (fun results =>
            scenarioProb game_probs results)).sum
          some (fun team =>
            let raw := scenarioAccum teams data team
            if total_prob > 0 then
              { championship_pct :=
                  pyRound1 (raw.championship_pct / total_prob * 100)
                bye_pct := pyRound1 (raw.bye_pct / total_prob * 100)
                relegation_pct :=
                  pyRound1 (raw.relegation_pct / total_prob * 100)
                safe_pct := pyRound1 (raw.safe_pct / total_prob * 100) }
            else raw)

/-- The playoff field of the two-team league `["A", "B"]` with one division:
A wins the division (with a bye), B is the only wild card. -/
def playoffAB : List PlayoffEntry := [⟨1, "A", true, true⟩, ⟨2, "B", false, false⟩]

/-- The zero-matchup weighted summary of that league, written out. -/
def zsAB : Team → TeamSummary := fun team =>
  { championship_pct :=
      if playoffAB.any (fun p => decide (p.team = team)) then 100 else 0
    bye_pct :=
      if playoffAB.any (fun p => decide (p.team = team) && p.has_bye) then 100
      else 0
    relegation_pct :=
      if ([] : List Team).any (fun u => decide (u = team)) then 100 else 0
    safe_pct :=
      if playoffAB.all (fun p => decide (p.team ≠ team)) &&
          ([] : List Team).all (fun u => decide (u ≠ team)) then 100
      else 0 }

/-- `_break_tie_wildcard_two(stats, [t1, t2])` (`playoff_scenarios.py` lines
410-445): the pairwise wild-card chain — head-to-head wins, strength of
schedule, total points, matrix rank, alphabetical.  The module global `TEAMS`
(used by the strength-of-schedule stage) is passed as `teams`. -/
def break_tie_wildcard_two_ps (stats : Stats) (t1 t2 : Team)
    (teams : List Team) : List Team :=
  let w1 := ((stats t1).h2h t2).wins
  let w2 := ((stats t2).h2h t1).wins
  if w1 > w2 then [t1, t2]
  else if w2 > w1 then [t2, t1]
  else
    let sos1 := calculate_strength_of_schedule stats t1 teams
    let sos2 := calculate_strength_of_schedule stats t2 teams
    if sos1 > sos2 then [t1, t2]
    else if sos2 > sos1 then [t2, t1]
    else if (stats t1).points_for > (stats t2).points_for then [t1, t2]
    else if (stats t2).points_for > (stats t1).points_for then [t2, t1]
    else if (stats t1).matrix_rank < (stats t2).matrix_rank then [t1, t2]
    else if (stats t2).matrix_rank < (stats t1).matrix_rank then [t2, t1]
    else pySorted [t1, t2]

/-- `_compare_cross_division(stats, candidates)` (`playoff_scenarios.py`
lines 348-407): the wild-card comparator of the scenario engine — two
candidates go through `_break_tie_wildcard_two`; three or more are peeled by
head-to-head, strength of schedule, total points and matrix rank, the final
alphabetical fallback sorting the total-points survivors (the rank filter
result is used only when it is a singleton, as in the source).  `none` models
the `IndexError` Python would raise on an empty candidate list. -/
def compare_cross_division_ps (stats : Stats) (candidates : List Team)
    (teams : List Team) : Option Team :=
  match candidates with
  | [] => none
  | [t] => some t
  | [t1, t2] => (break_tie_wildcard_two_ps stats t1 t2 teams).head?
  | remaining =>
      let best1 := maxGroupBy (h2hGroupPct stats remaining) remaining
      if best1.length = 1 then best1.head?
      else
        let best2 := maxGroupBy
          (fun t => calculate_strength_of_schedule stats t teams) best1
        if best2.length = 1 then best2.head?
        else
          let best3 := maxGroupBy (fun t => (stats t).points_for) best2
          if best3.length = 1 then best3.head?
          else
            let best4 := minGroupBy (fun t => (stats t).matrix_rank) best3
            if best4.length = 1 then best4.head?
            else (pySorted best3).head?

/-- `break_tie_division(stats, tied_teams, h2h_points_override)`
(`playoff_scenarios.py` lines 118-128): dispatch to the pairwise six-stage
chain — `playoff_scenarios.py`'s `_break_tie_division_two` (lines 129-177) is
the same stage sequence as `app.py`'s (lines 261-301), so the shared
`break_tie_division_two` embeds both — or to the scenario engine's multi-team
chain (the one WITH the head-to-head-points stage). -/
def break_tie_division_ps (stats : Stats) (tied : List Team)
    (ov : H2HOverride) : List Team :=
  match tied with
  | [t] => [t]
  | [t1, t2] => break_tie_division_two stats t1 t2 ov
  | other => break_tie_division_multi_ps stats ov other.length other

/-- The `while sum(len(...)) > 0` interleaving loop of
`playoff_scenarios.py`'s `break_tie_wildcard` (lines 319-345), fueled by the
total number of teams; identical in shape to `app.py`'s loop but calling the
scenario engine's cross-division comparator. -/
def wcInterleave_ps (stats : Stats) (teams : List Team)
    (divisions : Divisions) : ℕ → List (Option String × List Team) → List Team
  | 0, _ => []
  | fuel + 1, rem =>
    let candidates := rem.filterMap (fun p => p.2.head?)
    match candidates with
    | [] => []
    | [t] =>
        t :: wcInterleave_ps stats teams divisions fuel
          (popDiv (get_team_division t divisions) rem)
    | cs =>
        match compare_cross_division_ps stats cs teams with
        | none => []
        | some best =>
            best :: wcInterleave_ps stats teams divisions fuel
              (popDiv (get_team_division best divisions) rem)
termination_by structural fuel rem => fuel

/-- `break_tie_wildcard(stats, tied_teams)` (`playoff_scenarios.py` lines
283-345): group by division, order each division's subset with the scenario
engine's division chain (override `None`), then interleave across divisions.
The module globals `TEAMS` and `DIVISIONS` are passed as `teams` and
`divisions`. -/
def break_tie_wildcard_ps (stats : Stats) (tied : List Team)
    (teams : List Team) (divisions : Divisions) : List Team :=
  if tied.length = 1 then tied
  else
    let by_division := pyGroupBy (fun t => get_team_division t divisions) tied
    if by_division.length = 1 then
      break_tie_division_ps stats tied (fun _ => none)
    else
      let ordered := by_division.map (fun p =>
        (p.1,
         if p.2.length > 1 then break_tie_division_ps stats p.2 (fun _ => none)
         else p.2))
      wcInterleave_ps stats teams divisions tied.length ordered

/-- Record sort of the scenario engine's relegation: Python
`sorted(records, key=lambda r: (r[0], -r[1], -r[2]))` over the
first-appearance record keys — worst record first. -/
def worstFirstRecords (stats : Stats) (l : List Team) : List (ℕ × ℕ × ℕ) :=
  (firstKeys (l.map (recordKey stats))).insertionSort (fun r1 r2 =>
    (toLex ((r1.1 : ℤ), toLex ((-(r1.2.1 : ℤ)), (-(r1.2.2 : ℤ)))) : ℤ ×ₗ (ℤ ×ₗ ℤ)) ≤
      toLex ((r2.1 : ℤ), toLex ((-(r2.2.1 : ℤ)), (-(r2.2.2 : ℤ)))))

/-- The relegation fill loop of `playoff_scenarios.py`'s
`determine_relegation_teams` (lines 767-785): walk records worst to best,
stop when the four slots are filled, and truncate an overflowing record group
to the last `spots_remaining` entries (`ordered[-(spots_remaining):]`) of its
wild-card-chain order. -/
def psFillRelegation (stats : Stats) (teams : List Team)
    (divisions : Divisions) (non_playoff : List Team) :
    ℕ → List (ℕ × ℕ × ℕ) → List Team
  | _, [] => []
  | spots, r :: rest =>
      if spots = 0 then []
      else
        let tied := non_playoff.filter (fun t => decide (recordKey stats t = r))
        if tied.length ≤ spots then
          tied ++ psFillRelegation stats teams divisions non_playoff
            (spots - tied.length) rest
        else
          let ordered := break_tie_wildcard_ps stats tied teams divisions
          ordered.drop (ordered.length - spots)
termination_by structural spots rs => rs

/-- `determine_relegation_teams(stats, playoff_teams)`
(`playoff_scenarios.py` lines 742-809): fill four relegation slots from the
worst record group upward (truncating an overflow to the wild-card-chain
losers), then seed by re-grouping the selected teams by record, worst to
best, with each tied group in reversed wild-card order.  `playoff_teams` is
the scenario engine's `(seed, team, is_division_winner)` tuple list; the
module globals `TEAMS` and `DIVISIONS` are passed as `teams` and
`divisions`. -/
def determine_relegation_teams_ps (stats : Stats)
    (playoff_teams : List (ℕ × Team × Bool)) (teams : List Team)
    (divisions : Divisions) : List (ℕ × Team) :=
  let playoff_team_names := playoff_teams.map (fun p => p.2.1)
  let non_playoff := teams.filter (fun t => decide (t ∉ playoff_team_names))
  let relegation_teams := psFillRelegation stats teams divisions non_playoff 4
    (worstFirstRecords stats non_playoff)
  let seeded := ((worstFirstRecords stats relegation_teams).map (fun r =>
    let tied := relegation_teams.filter
      (fun t => decide (recordKey stats t = r))
    if tied.length = 1 then tied
    else (break_tie_wildcard_ps stats tied teams divisions).reverse)).flatten
  seeded.enum.map (fun p => (p.1 + 1, p.2))

/-- Modelled from the claim (C3), generic in the wild-card chain used for
truncation: walk the worst-to-best record groups, filling up to `slots`
relegation places; an overflowing group is ordered with the chain and the
worst `slots` entries (the tie-break losers) are kept. -/
def specFillRelegationWith (wc : List Team → List Team) :
    ℕ → List (List Team) → List Team
  | _, [] => []
  | slots, g :: gs =>
      if slots = 0 then []
      else if g.length ≤ slots then
        g ++ specFillRelegationWith wc (slots - g.length) gs
      else
        let ordered := wc g
        ordered.drop (ordered.length - slots)
termination_by structural slots gs => gs

/-- Modelled from the claim (C3), generic in the wild-card chain: relegation
selection walks record groups of the non-qualifying teams from worst to best,
fills up to four slots truncating an overflowing group by keeping the worst
of the chain order, and seeds the selected teams by re-grouping them worst to
best with each tied group ordered as the chain reversed. -/
def specRelegationClaimWith (stats : Stats) (wc : List Team → List Team)
    (playoff_names : List Team) (teams : List Team) : List (ℕ × Team) :=
  let non_playoff := teams.filter (fun t => decide (t ∉ playoff_names))
  let selected := specFillRelegationWith wc 4
    (recordGroupsWorstFirst stats non_playoff)
  let seeded := ((recordGroupsWorstFirst stats selected).map
    (fun g => if g.length = 1 then g else (wc g).reverse)).flatten
  seeded.enum.map (fun p => (p.1 + 1, p.2))

/-- The scenario engine's outcome dictionary (`playoff_scenarios.py`): a
result string per `(away, home)` pair, looked up with `.get(..., 'home')`. -/
abbrev PSOutcome := Team × Team → Option String

/-- One iteration of the matchup loop of `playoff_scenarios.py`'s
`simulate_week14_outcome` (lines 816-838): credit winner and loser, mirror
the result in both head-to-head entries, bump division counters for division
games.  A result string that is neither `"away"` nor `"home"` leaves the game
unapplied (the `if`/`elif` falls through).  No points field is touched. -/
def simulate_one_matchup_ps (outcome : PSOutcome) (stats : Stats)
    (m : Matchup) : Stats :=
  let result := (outcome (m.away_team, m.home_team)).getD "home"
  if result = "away" then
    let s1 := updateStats stats m.away_team (fun r => { r with wins := r.wins + 1 })
    let s2 := updateStats s1 m.home_team (fun r => { r with losses := r.losses + 1 })
    let s3 := updateH2H s2 m.away_team m.home_team
      (fun h2h => { h2h with wins := h2h.wins + 1 })
    let s4 := updateH2H s3 m.home_team m.away_team
      (fun h2h => { h2h with losses := h2h.losses + 1 })
    if m.is_division_game then
      let s5 := updateStats s4 m.away_team
        (fun r => { r with division_wins := r.division_wins + 1 })
      updateStats s5 m.home_team
        (fun r => { r with division_losses := r.division_losses + 1 })
    else s4
  else if result = "home" then
    let s1 := updateStats stats m.home_team (fun r => { r with wins := r.wins + 1 })
    let s2 := updateStats s1 m.away_team (fun r => { r with losses := r.losses + 1 })
    let s3 := updateH2H s2 m.home_team m.away_team
      (fun h2h => { h2h with wins := h2h.wins + 1 })
    let s4 := updateH2H s3 m.away_team m.home_team
      (fun h2h => { h2h with losses := h2h.losses + 1 })
    if m.is_division_game then
      let s5 := updateStats s4 m.home_team
        (fun r => { r with division_wins := r.division_wins + 1 })
      updateStats s5 m.away_team
        (fun r => { r with division_losses := r.division_losses + 1 })
    else s4
  else stats

/-- `simulate_week14_outcome(stats, outcome)` (`playoff_scenarios.py` lines
812-840); the module global `WEEK14_MATCHUPS` is passed as `matchups` and the
deep copy is the fold's fresh result. -/
def simulate_week14_outcome_ps (stats : Stats) (outcome : PSOutcome)
    (matchups : List Matchup) : Stats :=
  matchups.foldl (simulate_one_matchup_ps outcome) stats

/-- The frame of one credited game in a snapshot update: the winner `w` gains
exactly one win, the loser `l` exactly one loss, division counters move
exactly when `isDiv`, the head-to-head sub-records mirror the result exactly
when `h2hTouched` (and are untouched otherwise), no points field moves, and
every other team is untouched. -/
def creditedGameFrame (s res : Stats) (w l : Team) (isDiv : Bool)
    (h2hTouched : Bool) : Prop :=
  (res w).wins = (s w).wins + 1 ∧
  (res w).losses = (s w).losses ∧
  (res w).ties = (s w).ties ∧
  (res w).division_wins = (s w).division_wins + (if isDiv then 1 else 0) ∧
  (res w).division_losses = (s w).division_losses ∧
  (res w).points_for = (s w).points_for ∧
  (res w).points_against = (s w).points_against ∧
  (res l).losses = (s l).losses + 1 ∧
  (res l).wins = (s l).wins ∧
  (res l).ties = (s l).ties ∧
  (res l).division_losses = (s l).division_losses + (if isDiv then 1 else 0) ∧
  (res l).division_wins = (s l).division_wins ∧
  (res l).points_for = (s l).points_for ∧
  (res l).points_against = (s l).points_against ∧
  (if h2hTouched then
    (res w).h2h l = { (s w).h2h l with wins := ((s w).h2h l).wins + 1 } ∧
    (∀ u, u ≠ l → (res w).h2h u = (s w).h2h u) ∧
    (res l).h2h w = { (s l).h2h w with losses := ((s l).h2h w).losses + 1 } ∧
    (∀ u, u ≠ w → (res l).h2h u = (s l).h2h u)
  else (res w).h2h = (s w).h2h ∧ (res l).h2h = (s l).h2h) ∧
  (∀ t, t ≠ w → t ≠ l → res t = s t)

-- ===== Theorems =====

section MaxLemmas

variable {α : Type} [LinearOrder α]

theorem listMax_isSome {l : List α} (h : l ≠ []) : ∃ m, listMax l = some m := by
  cases l with
  | nil => exact absurd rfl h
  | cons x xs =>
      cases hxs : listMax xs with
      | none => exact ⟨x, by simp [listMax, hxs]⟩
      | some m => exact ⟨max x m, by simp [listMax, hxs]⟩

theorem listMax_none {l : List α} (hm : listMax l = none) : l = [] := by
  cases l with
  | nil => rfl
  | cons x xs => cases hxs : listMax xs <;> simp [listMax, hxs] at hm

theorem le_listMax {l : List α} {x m : α} (hx : x ∈ l) (hm : listMax l = some m) :
    x ≤ m := by
  induction l generalizing m with
  | nil => cases hx
  | cons y ys ih =>
      cases hys : listMax ys with
      | none =>
          have hnil := listMax_none hys
          subst hnil
          simp only [listMax] at hm
          rcases List.mem_cons.1 hx with rfl | hx2
          · exact le_of_eq (Option.some.inj hm)
          · cases hx2
      | some m2 =>
          simp only [listMax, hys] at hm
          have hm2 : m = max y m2 := by exact (Option.some.inj hm).symm
          subst hm2
          rcases List.mem_cons.1 hx with rfl | hx2
          · exact le_max_left _ _
          · exact le_trans (ih hx2 hys) (le_max_right _ _)

theorem listMax_mem {l : List α} {m : α} (hm : listMax l = some m) : m ∈ l := by
  induction l generalizing m with
  | nil => simp [listMax] at hm
  | cons y ys ih =>
      cases hys : listMax ys with
      | none =>
          simp only [listMax, hys] at hm
          simp [← Option.some.inj hm]
      | some m2 =>
          simp only [listMax, hys] at hm
          have hm2 : m = max y m2 := (Option.some.inj hm).symm
          subst hm2
          rcases max_choice y m2 with h | h
          · simp [h]
          · simp only [h]
            exact List.mem_cons_of_mem _ (ih hys)

theorem listMin_isSome {α : Type} [LinearOrder α] {l : List α} (h : l ≠ []) :
    ∃ m, listMin l = some m := by
  cases l with
  | nil => exact absurd rfl h
  | cons x xs =>
      cases hxs : listMin xs with
      | none => exact ⟨x, by simp [listMin, hxs]⟩
      | some m => exact ⟨min x m, by simp [listMin, hxs]⟩

theorem listMin_none {α : Type} [LinearOrder α] {l : List α} (hm : listMin l = none) :
    l = [] := by
  cases l with
  | nil => rfl
  | cons x xs => cases hxs : listMin xs <;> simp [listMin, hxs] at hm

theorem listMin_le {α : Type} [LinearOrder α] {l : List α} {x m : α} (hx : x ∈ l)
    (hm : listMin l = some m) : m ≤ x := by
  induction l generalizing m with
  | nil => cases hx
  | cons y ys ih =>
      cases hys : listMin ys with
      | none =>
          have hnil := listMin_none hys
          subst hnil
          simp only [listMin] at hm
          rcases List.mem_cons.1 hx with rfl | hx2
          · exact le_of_eq (Option.some.inj hm).symm
          · cases hx2
      | some m2 =>
          simp only [listMin, hys] at hm
          have hm2 : m = min y m2 := (Option.some.inj hm).symm
          subst hm2
          rcases List.mem_cons.1 hx with rfl | hx2
          · exact min_le_left _ _
          · exact le_trans (min_le_right _ _) (ih hx2 hys)

theorem listMin_mem {α : Type} [LinearOrder α] {l : List α} {m : α}
    (hm : listMin l = some m) : m ∈ l := by
  induction l generalizing m with
  | nil => simp [listMin] at hm
  | cons y ys ih =>
      cases hys : listMin ys with
      | none =>
          simp only [listMin, hys] at hm
          simp [← Option.some.inj hm]
      | some m2 =>
          simp only [listMin, hys] at hm
          have hm2 : m = min y m2 := (Option.some.inj hm).symm
          subst hm2
          rcases min_choice y m2 with h | h
          · simp [h]
          · simp only [h]
            exact List.mem_cons_of_mem _ (ih hys)

end MaxLemmas

section GroupLemmas

variable {α : Type} [LinearOrder α] {f : Team → α} {g : List Team}

theorem maxGroupBy_ne_nil (hg : g ≠ []) : maxGroupBy f g ≠ [] := by
  obtain ⟨m, hm⟩ := listMax_isSome (show g.map f ≠ [] by simpa using hg)
  obtain ⟨t, ht, hft⟩ := List.mem_map.1 (listMax_mem hm)
  simp only [maxGroupBy, hm]
  intro hcontra
  have : t ∈ g.filter (fun t => f t = m) := by
    simp [List.mem_filter, ht, hft]
  simp [hcontra] at this

theorem mem_maxGroupBy {t : Team} (ht : t ∈ maxGroupBy f g) : t ∈ g := by
  unfold maxGroupBy at ht
  cases hm : listMax (g.map f) with
  | none => simp [hm] at ht
  | some m =>
      simp only [hm] at ht
      exact (List.mem_filter.1 ht).1

theorem mem_minGroupBy {t : Team} (ht : t ∈ minGroupBy f g) : t ∈ g := by
  unfold minGroupBy at ht
  cases hm : listMin (g.map f) with
  | none => simp [hm] at ht
  | some m =>
      simp only [hm] at ht
      exact (List.mem_filter.1 ht).1

theorem minGroupBy_ne_nil (hg : g ≠ []) : minGroupBy f g ≠ [] := by
  obtain ⟨m, hm⟩ := listMin_isSome (show g.map f ≠ [] by simpa using hg)
  obtain ⟨t, ht, hft⟩ := List.mem_map.1 (listMin_mem hm)
  simp only [minGroupBy, hm]
  intro hcontra
  have : t ∈ g.filter (fun t => f t = m) := by
    simp [List.mem_filter, ht, hft]
  simp [hcontra] at this

/-- Peeling the extremal sub-group off a group leaves a permutation:
`group ~ best ++ [t for t in group if t not in best]`.  This is the shape of
every `result.extend(...); remaining.remove(...)` step in the source. -/
theorem maxGroupBy_split_perm :
    g.Perm (maxGroupBy f g ++ g.filter (fun t => decide (t ∉ maxGroupBy f g))) := by
  cases hm : listMax (g.map f) with
  | none =>
      have : g = [] := by
        have := listMax_none hm
        simpa using this
      simp [this, maxGroupBy, listMax]
  | some m =>
      have hbest : maxGroupBy f g = g.filter (fun t => f t = m) := by
        simp [maxGroupBy, hm]
      have hmem : ∀ t ∈ g, (decide (t ∉ maxGroupBy f g)) = !(decide (f t = m)) := by
        intro t ht
        by_cases hft : f t = m
        · have : t ∈ maxGroupBy f g := by
            rw [hbest]; simp [List.mem_filter, ht, hft]
          simp [this, hft]
        · have : t ∉ maxGroupBy f g := by
            rw [hbest]
            intro hc
            exact hft (by simpa using (List.mem_filter.1 hc).2)
          simp [this, hft]
      have heq : g.filter (fun t => decide (t ∉ maxGroupBy f g)) =
          g.filter (fun t => !(decide (f t = m))) := List.filter_congr hmem
      rw [heq, hbest]
      exact (List.filter_append_perm (fun t => decide (f t = m)) g).symm

/-- The `min` version of `maxGroupBy_split_perm` (matrix-rank peel). -/
theorem minGroupBy_split_perm :
    g.Perm (minGroupBy f g ++ g.filter (fun t => decide (t ∉ minGroupBy f g))) := by
  cases hm : listMin (g.map f) with
  | none =>
      have : g = [] := by
        have := listMin_none hm
        simpa using this
      simp [this, minGroupBy, listMin]
  | some m =>
      have hbest : minGroupBy f g = g.filter (fun t => f t = m) := by
        simp [minGroupBy, hm]
      have hmem : ∀ t ∈ g, (decide (t ∉ minGroupBy f g)) = !(decide (f t = m)) := by
        intro t ht
        by_cases hft : f t = m
        · have : t ∈ minGroupBy f g := by
            rw [hbest]; simp [List.mem_filter, ht, hft]
          simp [this, hft]
        · have : t ∉ minGroupBy f g := by
            rw [hbest]
            intro hc
            exact hft (by simpa using (List.mem_filter.1 hc).2)
          simp [this, hft]
      have heq : g.filter (fun t => decide (t ∉ minGroupBy f g)) =
          g.filter (fun t => !(decide (f t = m))) := List.filter_congr hmem
      rw [heq, hbest]
      exact (List.filter_append_perm (fun t => decide (f t = m)) g).symm

end GroupLemmas

theorem mem_firstKeys {β : Type} [DecidableEq β] {l : List β} {y : β} :
    y ∈ firstKeys l ↔ y ∈ l := by
  induction l with
  | nil => simp [firstKeys]
  | cons x xs ih =>
      simp only [firstKeys, List.mem_cons, List.mem_filter]
      constructor
      · rintro (rfl | ⟨hy, _⟩)
        · exact Or.inl rfl
        · exact Or.inr (ih.1 hy)
      · rintro (rfl | hy)
        · exact Or.inl rfl
        · by_cases hxy : y = x
          · exact Or.inl hxy
          · exact Or.inr ⟨ih.2 hy, by simp [hxy]⟩

theorem firstKeys_nodup {β : Type} [DecidableEq β] (l : List β) : (firstKeys l).Nodup := by
  induction l with
  | nil => simp [firstKeys]
  | cons x xs ih =>
      simp only [firstKeys]
      refine List.Nodup.cons ?_ (List.Nodup.filter _ ih)
      intro hx
      have := (List.mem_filter.1 hx).2
      simp at this

/-- C7 counterexample: on a pair with no head-to-head entry,
`playoff_scenarios.get_h2h_record` does not return the zero record — the
direct dictionary index fails (`none` models the raised `KeyError`), contrary
to the claim that the lookup defaults to `(0,0,0)` and never fails. -/
theorem C7_direct_lookup_fails_on_missing :
    get_h2h_record_direct emptyH2HDict "Team B" ≠ some (0, 0, 0) ∧
    get_h2h_record_direct emptyH2HDict "Team B" = none := by
  exact ⟨by decide, rfl⟩

/-- C7 (amended): the `app.py` head-to-head lookup defaults a missing entry to
the zero record `(0,0,0)` and reads an existing entry verbatim, so it never
fails; the `playoff_scenarios.py` lookup instead fails (raises `KeyError`)
exactly when the entry is missing. -/
theorem C7_h2h_lookup_amended (d : H2HDict) (team2 : Team) :
    (d team2 = none → get_h2h_record_defaulted d team2 = (0, 0, 0)) ∧
    (∀ h2h, d team2 = some h2h →
      get_h2h_record_defaulted d team2 = (h2h.wins, h2h.losses, h2h.ties)) ∧
    (get_h2h_record_direct d team2 = none ↔ d team2 = none) := by
  refine ⟨fun h => ?_, fun h2h h => ?_, ?_⟩
  · simp [get_h2h_record_defaulted, h, H2H.zero]
  · simp [get_h2h_record_defaulted, h]
  · cases h : d team2 <;> simp [get_h2h_record_direct, h]

/-- Witness for `C7_h2h_lookup_amended` at the empty dictionary. -/
theorem C7_h2h_lookup_amended_witness :
    get_h2h_record_defaulted emptyH2HDict "Team B" = (0, 0, 0) ∧
    (get_h2h_record_direct emptyH2HDict "Team B" = none ↔
      emptyH2HDict "Team B" = none) :=
  ⟨(C7_h2h_lookup_amended emptyH2HDict "Team B").1 rfl,
   (C7_h2h_lookup_amended emptyH2HDict "Team B").2.2⟩

/-- C9: in the Monte-Carlo strategy the away team is credited with the win if
and only if its score is strictly greater than the home team's; in every other
case — including exactly equal scores — the home team is credited
(`monte_carlo.py` line 174 and `apply_simulation_results` lines 207-220). -/
theorem C9_monte_carlo_winner_rule (s : Stats) (g : GameResult)
    (hne : g.away_team ≠ g.home_team) :
    (g.away_score > g.home_score →
      simulate_week14_winner g = g.away_team ∧
      ((apply_simulation_results s [g]) g.away_team).wins = (s g.away_team).wins + 1 ∧
      ((apply_simulation_results s [g]) g.home_team).losses =
        (s g.home_team).losses + 1 ∧
      ((apply_simulation_results s [g]) g.home_team).wins = (s g.home_team).wins) ∧
    (¬ g.away_score > g.home_score →
      simulate_week14_winner g = g.home_team ∧
      ((apply_simulation_results s [g]) g.home_team).wins = (s g.home_team).wins + 1 ∧
      ((apply_simulation_results s [g]) g.away_team).losses =
        (s g.away_team).losses + 1 ∧
      ((apply_simulation_results s [g]) g.away_team).wins = (s g.away_team).wins) := by
  constructor <;> intro h <;>
    by_cases hd : g.is_division_game <;>
      simp [simulate_week14_winner, apply_simulation_results, apply_one_game,
        updateStats, h, hd, hne, Ne.symm hne]

/-- Witness for `C9_monte_carlo_winner_rule` at a tied game: equal scores are
credited to the home side. -/
theorem C9_monte_carlo_winner_rule_witness :
    gameTied.away_team ≠ gameTied.home_team ∧
    ¬ gameTied.away_score > gameTied.home_score ∧
    simulate_week14_winner gameTied = gameTied.home_team ∧
    ((apply_simulation_results statsZero [gameTied]) gameTied.home_team).wins =
      (statsZero gameTied.home_team).wins + 1 := by
  have hne : gameTied.away_team ≠ gameTied.home_team := by decide
  have hle : ¬ gameTied.away_score > gameTied.home_score := by decide
  have h := (C9_monte_carlo_winner_rule statsZero gameTied hne).2 hle
  exact ⟨hne, hle, h.1, h.2.1⟩

/-- C2 counterexample: applying a simulated outcome (`apply_simulation_results`,
the Monte-Carlo update cited by the claim) at a concrete game the away side
wins 10-3 increments the winner's wins but adds no points at all and leaves the
winner's head-to-head sub-record against the loser untouched — refuting both
the "adds the game's points-for/points-against symmetrically" part and the
"mirrors that result in both teams' head-to-head sub-records ... keeping
win/loss/tie counts and head-to-head sub-records mutually consistent" part. -/
theorem C2_update_drops_points_and_h2h :
    ((apply_simulation_results statsPts [gameAwayWin]) "A").wins =
      (statsPts "A").wins + 1 ∧
    ((apply_simulation_results statsPts [gameAwayWin]) "A").h2h "B" =
      (statsPts "A").h2h "B" ∧
    ((apply_simulation_results statsPts [gameAwayWin]) "A").points_for =
      (statsPts "A").points_for ∧
    ((apply_simulation_results statsPts [gameAwayWin]) "B").points_against =
      (statsPts "B").points_against ∧
    gameAwayWin.away_score ≠ 0 := by
  refine ⟨by decide, by decide, by decide, by decide, by decide⟩

/-- C2 (amended): applying one simulated game outcome — under every outcome:
an away or home (default) selection in `app.py`'s and the scenario engine's
`simulate_week14_outcome`, and a strictly-higher or not-higher away score in
the Monte-Carlo update — increments exactly the winner's wins and the loser's
losses (plus the division counters when the game is a division game) and
leaves every other team untouched.  The `app.py` and `playoff_scenarios.py`
updates additionally mirror the result in both teams' head-to-head
sub-records; a scenario-engine result string that is neither `"away"` nor
`"home"` applies nothing at all.  No variant adds the game's points to
`points_for`/`points_against`, and the Monte-Carlo update leaves head-to-head
sub-records entirely untouched. -/
theorem C2_simulated_game_update_amended
    (s : Stats) (m : Matchup) (sel : Selection) (divs : Divisions)
    (lg : String) (oc : PSOutcome) (g : GameResult)
    (hne : m.away_team ≠ m.home_team) (hg : g.away_team ≠ g.home_team) :
    (sel.winner = "away" →
      creditedGameFrame s
        (simulate_week14_outcome s [(game_id m.away_team m.home_team, sel)]
          [m] divs lg).1
        m.away_team m.home_team m.is_division_game true) ∧
    (sel.winner ≠ "away" →
      creditedGameFrame s
        (simulate_week14_outcome s [(game_id m.away_team m.home_team, sel)]
          [m] divs lg).1
        m.home_team m.away_team m.is_division_game true) ∧
    ((oc (m.away_team, m.home_team)).getD "home" = "away" →
      creditedGameFrame s (simulate_week14_outcome_ps s oc [m])
        m.away_team m.home_team m.is_division_game true) ∧
    ((oc (m.away_team, m.home_team)).getD "home" = "home" →
      creditedGameFrame s (simulate_week14_outcome_ps s oc [m])
        m.home_team m.away_team m.is_division_game true) ∧
    ((oc (m.away_team, m.home_team)).getD "home" ≠ "away" →
      (oc (m.away_team, m.home_team)).getD "home" ≠ "home" →
      simulate_week14_outcome_ps s oc [m] = s) ∧
    (g.away_score > g.home_score →
      creditedGameFrame s (apply_simulation_results s [g])
        g.away_team g.home_team g.is_division_game false) ∧
    (¬ g.away_score > g.home_score →
      creditedGameFrame s (apply_simulation_results s [g])
        g.home_team g.away_team g.is_division_game false) := by
  refine ⟨fun hw => ?_, fun hw => ?_, fun hw => ?_, fun hw => ?_,
    fun hw1 hw2 => ?_, fun hw => ?_, fun hw => ?_⟩
  · by_cases hd : m.is_division_game <;>
      simp [creditedGameFrame, simulate_week14_outcome, simulate_one_matchup,
        pyDictGet, hw, hd, updateStats, updateH2H, hne, Ne.symm hne] <;>
      (repeat' apply And.intro) <;>
      first
        | exact fun u h1 h2 => absurd h2 h1
        | (intro t h1 h2; simp [h1, h2])
  · by_cases hd : m.is_division_game <;>
      simp [creditedGameFrame, simulate_week14_outcome, simulate_one_matchup,
        pyDictGet, hw, hd, updateStats, updateH2H, hne, Ne.symm hne] <;>
      (repeat' apply And.intro) <;>
      first
        | exact fun u h1 h2 => absurd h2 h1
        | (intro t h1 h2; simp [h1, h2])
  · by_cases hd : m.is_division_game <;>
      simp [creditedGameFrame, simulate_week14_outcome_ps,
        simulate_one_matchup_ps, hw, hd, updateStats, updateH2H, hne,
        Ne.symm hne] <;>
      (repeat' apply And.intro) <;>
      first
        | exact fun u h1 h2 => absurd h2 h1
        | (intro t h1 h2; simp [h1, h2])
  · by_cases hd : m.is_division_game <;>
      simp [creditedGameFrame, simulate_week14_outcome_ps,
        simulate_one_matchup_ps, hw, hd, updateStats, updateH2H, hne,
        Ne.symm hne] <;>
      (repeat' apply And.intro) <;>
      first
        | exact fun u h1 h2 => absurd h2 h1
        | (intro t h1 h2; simp [h1, h2])
  · simp [simulate_week14_outcome_ps, simulate_one_matchup_ps, hw1, hw2]
  · by_cases hd : g.is_division_game <;>
      simp [creditedGameFrame, apply_simulation_results, apply_one_game, hw,
        hd, updateStats, hg, Ne.symm hg] <;>
      (repeat' apply And.intro) <;>
      first
        | exact fun u h1 h2 => absurd h2 h1
        | (intro t h1 h2; simp [h1, h2])
  · by_cases hd : g.is_division_game <;>
      simp [creditedGameFrame, apply_simulation_results, apply_one_game, hw,
        hd, updateStats, hg, Ne.symm hg] <;>
      (repeat' apply And.intro) <;>
      first
        | exact fun u h1 h2 => absurd h2 h1
        | (intro t h1 h2; simp [h1, h2])

/-- Witness for `C2_simulated_game_update_amended` at a concrete division
game between `"A"` and `"B"`: the scenario-engine away-win branch and the
`app.py` default-home branch. -/
theorem C2_simulated_game_update_amended_witness :
    ("A" : Team) ≠ "B" ∧
    gameAwayWin.away_team ≠ gameAwayWin.home_team ∧
    creditedGameFrame statsPts
      (simulate_week14_outcome_ps statsPts (fun _ => some "away")
        [Matchup.mk "A" "B" true])
      "A" "B" true true ∧
    creditedGameFrame statsPts
      (simulate_week14_outcome statsPts
        [(game_id "A" "B", Selection.mk "home" 5)] [Matchup.mk "A" "B" true]
        [] "WFFL").1
      "B" "A" true true := by
  have h := C2_simulated_game_update_amended statsPts (Matchup.mk "A" "B" true)
    (Selection.mk "home" 5) [] "WFFL" (fun _ => some "away") gameAwayWin
    (by decide) (by decide)
  exact ⟨by decide, by decide, h.2.2.1 rfl, h.2.1 (by decide)⟩

/-- Evaluating Python `sorted` on a two-element list. -/
theorem pySorted_pair (A B : Team) :
    pySorted [A, B] = if A.data ≤ B.data then [A, B] else [B, A] := by
  simp [pySorted, List.insertionSort, List.orderedInsert]

/-- `sorted` of a two-element list does not depend on the supplied order. -/
theorem pySorted_pair_comm {A B : Team} (hne : A ≠ B) :
    pySorted [A, B] = pySorted [B, A] := by
  rw [pySorted_pair, pySorted_pair]
  rcases le_total A.data B.data with h | h
  · by_cases h2 : B.data ≤ A.data
    · exact absurd (String.ext (le_antisymm h h2)) hne
    · simp [h, h2]
  · by_cases h2 : A.data ≤ B.data
    · exact absurd (String.ext (le_antisymm h2 h)) hne
    · simp [h, h2]

/-- The abstract shape of the five-stage pairwise cascade with a final
alphabetical fallback: swapping the two teams (and hence every stage's score
pair) gives the same ordered result. -/
theorem two_chain_swap (A B : Team) (w1 w2 : ℕ) (d1 d2 p1 p2 f1 f2 : ℚ)
    (r1 r2 : ℤ) (hne : A ≠ B) :
    (if w1 > w2 then [A, B] else if w2 > w1 then [B, A]
     else if d1 > d2 then [A, B] else if d2 > d1 then [B, A]
     else if p1 > p2 then [A, B] else if p2 > p1 then [B, A]
     else if f1 > f2 then [A, B] else if f2 > f1 then [B, A]
     else if r1 < r2 then [A, B] else if r2 < r1 then [B, A]
     else pySorted [A, B]) =
    (if w2 > w1 then [B, A] else if w1 > w2 then [A, B]
     else if d2 > d1 then [B, A] else if d1 > d2 then [A, B]
     else if p2 > p1 then [B, A] else if p1 > p2 then [A, B]
     else if f2 > f1 then [B, A] else if f1 > f2 then [A, B]
     else if r2 < r1 then [B, A] else if r1 < r2 then [A, B]
     else pySorted [B, A]) := by
  rcases lt_trichotomy w1 w2 with h | rfl | h
  · simp [h, lt_asymm h]
  · simp only [gt_iff_lt, lt_irrefl, if_false]
    rcases lt_trichotomy d1 d2 with h | rfl | h
    · simp [h, lt_asymm h]
    · simp only [lt_irrefl, if_false]
      rcases lt_trichotomy p1 p2 with h | rfl | h
      · simp [h, lt_asymm h]
      · simp only [lt_irrefl, if_false]
        rcases lt_trichotomy f1 f2 with h | rfl | h
        · simp [h, lt_asymm h]
        · simp only [lt_irrefl, if_false]
          rcases lt_trichotomy r1 r2 with h | rfl | h
          · simp [h, lt_asymm h]
          · simp only [lt_irrefl, if_false]
            exact pySorted_pair_comm hne
          · simp [h, lt_asymm h]
        · simp [h, lt_asymm h]
      · simp [h, lt_asymm h]
    · simp [h, lt_asymm h]
  · simp [h, lt_asymm h]

/-- The five-stage pairwise cascade always returns one of the two strict
orders. -/
theorem two_chain_total (A B : Team) (w1 w2 : ℕ) (d1 d2 p1 p2 f1 f2 : ℚ)
    (r1 r2 : ℤ) :
    (if w1 > w2 then [A, B] else if w2 > w1 then [B, A]
     else if d1 > d2 then [A, B] else if d2 > d1 then [B, A]
     else if p1 > p2 then [A, B] else if p2 > p1 then [B, A]
     else if f1 > f2 then [A, B] else if f2 > f1 then [B, A]
     else if r1 < r2 then [A, B] else if r2 < r1 then [B, A]
     else pySorted [A, B]) = [A, B] ∨
    (if w1 > w2 then [A, B] else if w2 > w1 then [B, A]
     else if d1 > d2 then [A, B] else if d2 > d1 then [B, A]
     else if p1 > p2 then [A, B] else if p2 > p1 then [B, A]
     else if f1 > f2 then [A, B] else if f2 > f1 then [B, A]
     else if r1 < r2 then [A, B] else if r2 < r1 then [B, A]
     else pySorted [A, B]) = [B, A] := by
  rcases lt_trichotomy w1 w2 with h | rfl | h
  · simp [h, lt_asymm h]
  · simp only [gt_iff_lt, lt_irrefl, if_false]
    rcases lt_trichotomy d1 d2 with h | rfl | h
    · simp [h, lt_asymm h]
    · simp only [lt_irrefl, if_false]
      rcases lt_trichotomy p1 p2 with h | rfl | h
      · simp [h, lt_asymm h]
      · simp only [lt_irrefl, if_false]
        rcases lt_trichotomy f1 f2 with h | rfl | h
        · simp [h, lt_asymm h]
        · simp only [lt_irrefl, if_false]
          rcases lt_trichotomy r1 r2 with h | rfl | h
          · simp [h, lt_asymm h]
          · simp only [lt_irrefl, if_false]
            rw [pySorted_pair]
            by_cases hd : A.data ≤ B.data
            · simp [hd]
            · simp [hd]
          · simp [h, lt_asymm h]
        · simp [h, lt_asymm h]
      · simp [h, lt_asymm h]
    · simp [h, lt_asymm h]
  · simp [h, lt_asymm h]

/-- The four-stage cross-division pairwise cascade: swapping the candidates
gives the same winner. -/
theorem cross_two_swap (A B : Team) (w1 w2 : ℕ) (q1 q2 f1 f2 : ℚ)
    (r1 r2 : ℤ) (hne : A ≠ B) :
    (if w1 > w2 then some A else if w2 > w1 then some B
     else if q1 > q2 then some A else if q2 > q1 then some B
     else if f1 > f2 then some A else if f2 > f1 then some B
     else if r1 < r2 then some A else if r2 < r1 then some B
     else (pySorted [A, B]).head?) =
    (if w2 > w1 then some B else if w1 > w2 then some A
     else if q2 > q1 then some B else if q1 > q2 then some A
     else if f2 > f1 then some B else if f1 > f2 then some A
     else if r2 < r1 then some B else if r1 < r2 then some A
     else (pySorted [B, A]).head?) := by
  rcases lt_trichotomy w1 w2 with h | rfl | h
  · simp [h, lt_asymm h]
  · simp only [gt_iff_lt, lt_irrefl, if_false]
    rcases lt_trichotomy q1 q2 with h | rfl | h
    · simp [h, lt_asymm h]
    · simp only [lt_irrefl, if_false]
      rcases lt_trichotomy f1 f2 with h | rfl | h
      · simp [h, lt_asymm h]
      · simp only [lt_irrefl, if_false]
        rcases lt_trichotomy r1 r2 with h | rfl | h
        · simp [h, lt_asymm h]
        · simp only [lt_irrefl, if_false]
          exact congrArg List.head? (pySorted_pair_comm hne)
        · simp [h, lt_asymm h]
      · simp [h, lt_asymm h]
    · simp [h, lt_asymm h]
  · simp [h, lt_asymm h]

/-- The four-stage cross-division pairwise cascade always picks one of the two
candidates. -/
theorem cross_two_total (A B : Team) (w1 w2 : ℕ) (q1 q2 f1 f2 : ℚ)
    (r1 r2 : ℤ) :
    (if w1 > w2 then some A else if w2 > w1 then some B
     else if q1 > q2 then some A else if q2 > q1 then some B
     else if f1 > f2 then some A else if f2 > f1 then some B
     else if r1 < r2 then some A else if r2 < r1 then some B
     else (pySorted [A, B]).head?) = some A ∨
    (if w1 > w2 then some A else if w2 > w1 then some B
     else if q1 > q2 then some A else if q2 > q1 then some B
     else if f1 > f2 then some A else if f2 > f1 then some B
     else if r1 < r2 then some A else if r2 < r1 then some B
     else (pySorted [A, B]).head?) = some B := by
  rcases lt_trichotomy w1 w2 with h | rfl | h
  · simp [h, lt_asymm h]
  · simp only [gt_iff_lt, lt_irrefl, if_false]
    rcases lt_trichotomy q1 q2 with h | rfl | h
    · simp [h, lt_asymm h]
    · simp only [lt_irrefl, if_false]
      rcases lt_trichotomy f1 f2 with h | rfl | h
      · simp [h, lt_asymm h]
      · simp only [lt_irrefl, if_false]
        rcases lt_trichotomy r1 r2 with h | rfl | h
        · simp [h, lt_asymm h]
        · simp only [lt_irrefl, if_false]
          rw [pySorted_pair]
          by_cases hd : A.data ≤ B.data
          · simp [hd]
          · simp [hd]
        · simp [h, lt_asymm h]
      · simp [h, lt_asymm h]
    · simp [h, lt_asymm h]
  · simp [h, lt_asymm h]

/-- C5 counterexample: with a head-to-head-points override that is not
mirror-consistent (a legal input: the override is a dict keyed by ordered
pairs), the division chain's returned order DOES depend on the order in which
the tied pair is supplied: on an all-zero snapshot, supplying `["A","B"]`
orders B before A while supplying `["B","A"]` orders A before B. -/
theorem C5_override_breaks_antisymmetry :
    break_tie_division_two statsZero "A" "B" ovBad = ["B", "A"] ∧
    break_tie_division_two statsZero "B" "A" ovBad = ["A", "B"] := by
  constructor <;> decide

/-- C5 (amended): for distinct teams, provided the head-to-head-points
override table is mirror-consistent — `ov (a,b) = (x,y)` forces
`ov (b,a) = (y,x)`, which holds for the only override the program ever builds
and vacuously for the no-override case — the two pairwise comparators are
strict total orders and anti-symmetric: each returns one of the two strict
orders, never an "equal" outcome, and the result does not depend on the order
in which the tied pair is supplied.  (`_compare_cross_division` takes no
override and needs no proviso.) -/
theorem C5_pairwise_comparators_amended (s : Stats) (A B : Team)
    (teams : List Team) (divs : Divisions) (ov : H2HOverride) (hne : A ≠ B)
    (hmirror : ∀ a b x y, ov (a, b) = some (x, y) → ov (b, a) = some (y, x)) :
    (break_tie_division_two s A B ov = [A, B] ∨
      break_tie_division_two s A B ov = [B, A]) ∧
    break_tie_division_two s A B ov = break_tie_division_two s B A ov ∧
    (compare_cross_division s [A, B] teams divs = some A ∨
      compare_cross_division s [A, B] teams divs = some B) ∧
    compare_cross_division s [A, B] teams divs =
      compare_cross_division s [B, A] teams divs := by
  refine ⟨?_, ?_, ?_, ?_⟩
  · unfold break_tie_division_two
    rcases hAB : ov (A, B) with _ | ⟨x, y⟩ <;> simp only [hAB] <;>
      exact two_chain_total A B _ _ _ _ _ _ _ _ _ _
  · unfold break_tie_division_two
    rcases hAB : ov (A, B) with _ | ⟨x, y⟩
    · have hBA : ov (B, A) = none := by
        rcases hq : ov (B, A) with _ | ⟨u, v⟩
        · rfl
        · have h2 := hmirror B A u v hq
          rw [hAB] at h2
          cases h2
      simp only [hAB, hBA]
      exact two_chain_swap A B _ _ _ _ _ _ _ _ _ _ hne
    · have hBA : ov (B, A) = some (y, x) := hmirror A B x y hAB
      simp only [hAB, hBA]
      exact two_chain_swap A B _ _ _ _ _ _ _ _ _ _ hne
  · simp only [compare_cross_division]
    exact cross_two_total A B _ _ _ _ _ _ _ _
  · simp only [compare_cross_division]
    exact cross_two_swap A B _ _ _ _ _ _ _ _ hne

/-- Witness for `C5_pairwise_comparators_amended`: two all-zero teams with no
override fall through every rule to the alphabetical fallback, in both supply
orders. -/
theorem C5_pairwise_comparators_amended_witness :
    ("A" : Team) ≠ "B" ∧
    (break_tie_division_two statsZero "A" "B" (fun _ => none) = ["A", "B"] ∨
      break_tie_division_two statsZero "A" "B" (fun _ => none) = ["B", "A"]) ∧
    break_tie_division_two statsZero "A" "B" (fun _ => none) =
      break_tie_division_two statsZero "B" "A" (fun _ => none) := by
  have h := C5_pairwise_comparators_amended statsZero "A" "B" ["A", "B"] []
    (fun _ => none) (by decide) (fun a b x y h => by cases h)
  exact ⟨by decide, h.1, h.2.1⟩

/-- The `playoff_scenarios.py` multi-team division chain is exactly the generic
peel-and-recurse cascade over the four claimed stages (head-to-head pct,
division record, head-to-head points vs the group, total points), with the
matrix-rank/alphabetical terminal step. -/
theorem break_tie_division_multi_ps_eq_cascade (s : Stats) (ov : H2HOverride) :
    ∀ fuel g, break_tie_division_multi_ps s ov fuel g =
      divisionCascade divisionChainStages s fuel g := by
  intro fuel
  induction fuel with
  | zero => intro g; rfl
  | succ n ih =>
      intro g
      by_cases h0 : g.length ≤ 1
      · simp [break_tie_division_multi_ps, divisionCascade, h0]
      · simp only [break_tie_division_multi_ps, divisionCascade, firstSplit,
          divisionChainStages, h0, if_false]
        by_cases h1 : (maxGroupBy (h2hGroupPct s g) g).length < g.length
        · simp [h1, ih, divisionChainStages]
        · simp only [h1, if_false]
          by_cases h2 : (maxGroupBy (divisionPct s) g).length < g.length
          · simp [h2, ih, divisionChainStages]
          · simp only [h2, if_false]
            by_cases h3 :
                (maxGroupBy (fun t => get_h2h_points_vs_group s t g) g).length <
                  g.length
            · simp [h3, ih, divisionChainStages]
            · simp only [h3, if_false]
              by_cases h4 :
                  (maxGroupBy (fun t => (s t).points_for) g).length < g.length
              · simp [h4, ih, divisionChainStages]
              · simp only [h4, if_false]
                by_cases h5 :
                    (minGroupBy (fun t => (s t).matrix_rank) g).length = 1
                · simp [h5, ih, divisionChainStages]
                · simp [h5]

/-- The `app.py` multi-team division chain is the same cascade over the stage
list with the head-to-head-points stage removed. -/
theorem break_tie_division_multi_app_eq_cascade (s : Stats) (divs : Divisions)
    (ov : H2HOverride) :
    ∀ fuel g, break_tie_division_multi s divs ov fuel g =
      divisionCascade appDivisionChainStages s fuel g := by
  intro fuel
  induction fuel with
  | zero => intro g; rfl
  | succ n ih =>
      intro g
      by_cases h0 : g.length ≤ 1
      · simp [break_tie_division_multi, divisionCascade, h0]
      · simp only [break_tie_division_multi, divisionCascade, firstSplit,
          appDivisionChainStages, h0, if_false]
        by_cases h1 : (maxGroupBy (h2hGroupPct s g) g).length < g.length
        · simp [h1, ih, appDivisionChainStages]
        · simp only [h1, if_false]
          by_cases h2 : (maxGroupBy (divisionPct s) g).length < g.length
          · simp [h2, ih, appDivisionChainStages]
          · simp only [h2, if_false]
            by_cases h4 :
                (maxGroupBy (fun t => (s t).points_for) g).length < g.length
            · simp [h4, ih, appDivisionChainStages]
            · simp only [h4, if_false]
              by_cases h5 :
                  (minGroupBy (fun t => (s t).matrix_rank) g).length = 1
              · simp [h5, ih, appDivisionChainStages]
              · simp [h5]

/-- C1 counterexample: for the tied group `["E","F","G"]` of `statsEFG` the
chain prescribed by the claim (which orders by head-to-head points at stage 3)
yields `["E","F","G"]`, but `app.py`'s `_break_tie_division_multi` — which has
no head-to-head-points stage and falls through to total points — yields
`["G","F","E"]`. -/
theorem C1_app_chain_skips_h2h_points_stage :
    divisionCascade divisionChainStages statsEFG 3 ["E", "F", "G"] =
      ["E", "F", "G"] ∧
    break_tie_division_multi statsEFG [] (fun _ => none) 3 ["E", "F", "G"] =
      ["G", "F", "E"] ∧
    break_tie_division_multi statsEFG [] (fun _ => none) 3 ["E", "F", "G"] ≠
      divisionCascade divisionChainStages statsEFG 3 ["E", "F", "G"] := by
  exact ⟨by decide, by decide, by decide⟩

/-- C1 (amended): the `playoff_scenarios.py` 3+-team division chain applies the
claimed stages in the claimed order — head-to-head win percentage among the
group, division-record win percentage, head-to-head points against the tied
group, total points in all games — peeling the strictly better subset at the
first separating stage (recursing when it has more than one member) and
restarting on the remainder; the matrix-rank stage eliminates only a uniquely
best team, otherwise the whole remaining group is sorted alphabetically.  The
`app.py` variant is the same cascade with the head-to-head-points stage
omitted (division record falls through directly to total points). -/
theorem C1_division_chain_stage_order_amended :
    (∀ (s : Stats) (ov : H2HOverride) (fuel : ℕ) (g : List Team),
      break_tie_division_multi_ps s ov fuel g =
        divisionCascade divisionChainStages s fuel g) ∧
    (∀ (s : Stats) (divs : Divisions) (ov : H2HOverride) (fuel : ℕ)
        (g : List Team),
      break_tie_division_multi s divs ov fuel g =
        divisionCascade appDivisionChainStages s fuel g) :=
  ⟨fun s ov => break_tie_division_multi_ps_eq_cascade s ov,
   fun s divs ov => break_tie_division_multi_app_eq_cascade s divs ov⟩

/-- The `app.py` multi-team division chain returns a permutation of its
input. -/
theorem break_tie_division_multi_perm (s : Stats) (divs : Divisions)
    (ov : H2HOverride) :
    ∀ fuel g, (break_tie_division_multi s divs ov fuel g).Perm g := by
  intro fuel
  induction fuel with
  | zero => intro g; exact List.Perm.refl g
  | succ n ih =>
      intro g
      by_cases h0 : g.length ≤ 1
      · simp [break_tie_division_multi, h0]
      · simp only [break_tie_division_multi, h0, if_false]
        by_cases h1 : (maxGroupBy (h2hGroupPct s g) g).length < g.length
        · simp only [h1, if_true, if_pos]
          have hb : (if (maxGroupBy (h2hGroupPct s g) g).length = 1 then
              maxGroupBy (h2hGroupPct s g) g
              else break_tie_division_multi s divs ov n
                (maxGroupBy (h2hGroupPct s g) g)).Perm
              (maxGroupBy (h2hGroupPct s g) g) := by
            split
            · exact List.Perm.refl _
            · exact ih _
          exact (hb.append (ih _)).trans maxGroupBy_split_perm.symm
        · simp only [h1, if_false]
          by_cases h2 : (maxGroupBy (divisionPct s) g).length < g.length
          · simp only [h2, if_true, if_pos]
            have hb : (if (maxGroupBy (divisionPct s) g).length = 1 then
                maxGroupBy (divisionPct s) g
                else break_tie_division_multi s divs ov n
                  (maxGroupBy (divisionPct s) g)).Perm
                (maxGroupBy (divisionPct s) g) := by
              split
              · exact List.Perm.refl _
              · exact ih _
            exact (hb.append (ih _)).trans maxGroupBy_split_perm.symm
          · simp only [h2, if_false]
            by_cases h3 : (maxGroupBy (fun t => (s t).points_for) g).length < g.length
            · simp only [h3, if_true, if_pos]
              have hb : (if (maxGroupBy (fun t => (s t).points_for) g).length = 1 then
                  maxGroupBy (fun t => (s t).points_for) g
                  else break_tie_division_multi s divs ov n
                    (maxGroupBy (fun t => (s t).points_for) g)).Perm
                  (maxGroupBy (fun t => (s t).points_for) g) := by
                split
                · exact List.Perm.refl _
                · exact ih _
              exact (hb.append (ih _)).trans maxGroupBy_split_perm.symm
            · simp only [h3, if_false]
              by_cases h4 : (minGroupBy (fun t => (s t).matrix_rank) g).length = 1
              · simp only [h4, if_true, if_pos]
                exact ((List.Perm.refl _).append (ih _)).trans
                  minGroupBy_split_perm.symm
              · simp only [h4, if_false]
                exact List.perm_insertionSort _ g

/-- The `playoff_scenarios.py` multi-team division chain returns a permutation
of its input. -/
theorem break_tie_division_multi_ps_perm (s : Stats) (ov : H2HOverride) :
    ∀ fuel g, (break_tie_division_multi_ps s ov fuel g).Perm g := by
  intro fuel
  induction fuel with
  | zero => intro g; exact List.Perm.refl g
  | succ n ih =>
      intro g
      by_cases h0 : g.length ≤ 1
      · simp [break_tie_division_multi_ps, h0]
      · simp only [break_tie_division_multi_ps, h0, if_false]
        by_cases h1 : (maxGroupBy (h2hGroupPct s g) g).length < g.length
        · simp only [h1, if_true, if_pos]
          have hb : (if (maxGroupBy (h2hGroupPct s g) g).length = 1 then
              maxGroupBy (h2hGroupPct s g) g
              else break_tie_division_multi_ps s ov n
                (maxGroupBy (h2hGroupPct s g) g)).Perm
              (maxGroupBy (h2hGroupPct s g) g) := by
            split
            · exact List.Perm.refl _
            · exact ih _
          exact (hb.append (ih _)).trans maxGroupBy_split_perm.symm
        · simp only [h1, if_false]
          by_cases h2 : (maxGroupBy (divisionPct s) g).length < g.length
          · simp only [h2, if_true, if_pos]
            have hb : (if (maxGroupBy (divisionPct s) g).length = 1 then
                maxGroupBy (divisionPct s) g
                else break_tie_division_multi_ps s ov n
                  (maxGroupBy (divisionPct s) g)).Perm
                (maxGroupBy (divisionPct s) g) := by
              split
              · exact List.Perm.refl _
              · exact ih _
            exact (hb.append (ih _)).trans maxGroupBy_split_perm.symm
          · simp only [h2, if_false]
            by_cases h3 : (maxGroupBy (fun t => get_h2h_points_vs_group s t g) g).length <
                g.length
            · simp only [h3, if_true, if_pos]
              have hb : (if (maxGroupBy (fun t => get_h2h_points_vs_group s t g) g).length
                    = 1 then
                  maxGroupBy (fun t => get_h2h_points_vs_group s t g) g
                  else break_tie_division_multi_ps s ov n
                    (maxGroupBy (fun t => get_h2h_points_vs_group s t g) g)).Perm
                  (maxGroupBy (fun t => get_h2h_points_vs_group s t g) g) := by
                split
                · exact List.Perm.refl _
                · exact ih _
              exact (hb.append (ih _)).trans maxGroupBy_split_perm.symm
            · simp only [h3, if_false]
              by_cases h4 : (maxGroupBy (fun t => (s t).points_for) g).length < g.length
              · simp only [h4, if_true, if_pos]
                have hb : (if (maxGroupBy (fun t => (s t).points_for) g).length = 1 then
                    maxGroupBy (fun t => (s t).points_for) g
                    else break_tie_division_multi_ps s ov n
                      (maxGroupBy (fun t => (s t).points_for) g)).Perm
                    (maxGroupBy (fun t => (s t).points_for) g) := by
                  split
                  · exact List.Perm.refl _
                  · exact ih _
                exact (hb.append (ih _)).trans maxGroupBy_split_perm.symm
              · simp only [h4, if_false]
                by_cases h5 : (minGroupBy (fun t => (s t).matrix_rank) g).length = 1
                · simp only [h5, if_true, if_pos]
                  exact ((List.Perm.refl _).append (ih _)).trans
                    minGroupBy_split_perm.symm
                · simp only [h5, if_false]
                  exact List.perm_insertionSort _ g

/-- The two-team division chain always returns one of the two strict orders. -/
theorem break_tie_division_two_total (s : Stats) (t1 t2 : Team) (ov : H2HOverride) :
    break_tie_division_two s t1 t2 ov = [t1, t2] ∨
      break_tie_division_two s t1 t2 ov = [t2, t1] := by
  unfold break_tie_division_two
  rcases hAB : ov (t1, t2) with _ | ⟨x, y⟩ <;> simp only [hAB] <;>
    exact two_chain_total t1 t2 _ _ _ _ _ _ _ _ _ _

/-- The two-team division chain returns a permutation of its input pair. -/
theorem break_tie_division_two_perm (s : Stats) (t1 t2 : Team) (ov : H2HOverride) :
    (break_tie_division_two s t1 t2 ov).Perm [t1, t2] := by
  rcases break_tie_division_two_total s t1 t2 ov with h | h <;> rw [h] <;>
    first
      | exact List.Perm.refl _
      | exact List.Perm.swap _ _ _

/-- `break_tie_division` returns a permutation of its input. -/
theorem break_tie_division_perm (s : Stats) (tied : List Team) (divs : Divisions)
    (ov : H2HOverride) : (break_tie_division s tied divs ov).Perm tied := by
  match tied with
  | [t] => exact List.Perm.refl _
  | [] => exact break_tie_division_multi_perm s divs ov 0 []
  | [t1, t2] => exact break_tie_division_two_perm s t1 t2 ov
  | t1 :: t2 :: t3 :: rest =>
      exact break_tie_division_multi_perm s divs ov _ _

theorem head?_isSome_of_ne_nil {α : Type} {l : List α} (h : l ≠ []) :
    l.head?.isSome := by
  cases l with
  | nil => exact absurd rfl h
  | cons x xs => rfl

theorem pySorted_perm (l : List Team) : (pySorted l).Perm l :=
  List.perm_insertionSort _ l

theorem pySorted_ne_nil {l : List Team} (h : l ≠ []) : pySorted l ≠ [] := by
  intro hc
  apply h
  have hlen := (pySorted_perm l).length_eq
  rw [hc] at hlen
  exact List.eq_nil_of_length_eq_zero hlen.symm

/-- The cross-division comparator only ever returns a member of its candidate
list. -/
theorem compare_cross_division_mem {s : Stats} {cs teams : List Team}
    {divs : Divisions} {b : Team}
    (h : compare_cross_division s cs teams divs = some b) : b ∈ cs := by
  match cs with
  | [] => simp [compare_cross_division] at h
  | [t] =>
      simp only [compare_cross_division, Option.some.injEq] at h
      simp [← h]
  | [t1, t2] =>
      simp only [compare_cross_division] at h
      split_ifs at h <;>
        first
          | (cases h; simp)
          | exact (pySorted_perm [t1, t2]).mem_iff.1
              (List.mem_of_mem_head? (Option.mem_def.2 h))
  | t1 :: t2 :: t3 :: rest =>
      simp only [compare_cross_division] at h
      split_ifs at h
      · exact mem_maxGroupBy (List.mem_of_mem_head? (Option.mem_def.2 h))
      · exact mem_maxGroupBy (mem_maxGroupBy
          (List.mem_of_mem_head? (Option.mem_def.2 h)))
      · exact mem_maxGroupBy (mem_maxGroupBy (mem_maxGroupBy
          (List.mem_of_mem_head? (Option.mem_def.2 h))))
      · exact mem_maxGroupBy (mem_maxGroupBy (mem_maxGroupBy (mem_minGroupBy
          (List.mem_of_mem_head? (Option.mem_def.2 h)))))
      · exact mem_maxGroupBy (mem_maxGroupBy (mem_maxGroupBy
          ((pySorted_perm _).mem_iff.1
            (List.mem_of_mem_head? (Option.mem_def.2 h)))))

/-- The cross-division comparator succeeds on any non-empty candidate list. -/
theorem compare_cross_division_isSome {s : Stats} {cs teams : List Team}
    {divs : Divisions} (hne : cs ≠ []) :
    (compare_cross_division s cs teams divs).isSome := by
  match cs with
  | [] => exact absurd rfl hne
  | [t] => rfl
  | [t1, t2] =>
      simp only [compare_cross_division]
      split_ifs <;>
        first
          | rfl
          | exact head?_isSome_of_ne_nil (pySorted_ne_nil (by simp))
  | t1 :: t2 :: t3 :: rest =>
      have hne1 : maxGroupBy (h2hGroupPct s (t1 :: t2 :: t3 :: rest))
          (t1 :: t2 :: t3 :: rest) ≠ [] := maxGroupBy_ne_nil (by simp)
      have hne2 : maxGroupBy
          (fun t => calculate_strength_of_schedule s t teams)
          (maxGroupBy (h2hGroupPct s (t1 :: t2 :: t3 :: rest))
            (t1 :: t2 :: t3 :: rest)) ≠ [] := maxGroupBy_ne_nil hne1
      have hne3 : maxGroupBy (fun t => (s t).points_for)
          (maxGroupBy (fun t => calculate_strength_of_schedule s t teams)
            (maxGroupBy (h2hGroupPct s (t1 :: t2 :: t3 :: rest))
              (t1 :: t2 :: t3 :: rest))) ≠ [] := maxGroupBy_ne_nil hne2
      simp only [compare_cross_division]
      split_ifs
      · exact head?_isSome_of_ne_nil hne1
      · exact head?_isSome_of_ne_nil hne2
      · exact head?_isSome_of_ne_nil hne3
      · exact head?_isSome_of_ne_nil (minGroupBy_ne_nil hne3)
      · exact head?_isSome_of_ne_nil (pySorted_ne_nil hne3)

/-- Grouping a list by distinct covering keys and concatenating the groups is
a permutation of the list. -/
theorem flatten_filter_perm {β : Type} [DecidableEq β] (key : Team → β) :
    ∀ (ks : List β) (l : List Team), ks.Nodup → (∀ t ∈ l, key t ∈ ks) →
      ((ks.map (fun k => l.filter (fun t => decide (key t = k)))).flatten).Perm l := by
  intro ks
  induction ks with
  | nil =>
      intro l _ hcov
      have hl : l = [] :=
        List.eq_nil_iff_forall_not_mem.2 (fun a ha => by simpa using hcov a ha)
      simp [hl]
  | cons k ks ih =>
      intro l hnd hcov
      simp only [List.map_cons, List.flatten_cons]
      have hrest : ∀ k2 ∈ ks,
          (l.filter (fun t => !(decide (key t = k)))).filter
              (fun t => decide (key t = k2)) =
            l.filter (fun t => decide (key t = k2)) := by
        intro k2 hk2
        rw [List.filter_filter]
        apply List.filter_congr
        intro t _
        by_cases h : key t = k2
        · have hkk : ¬ (k2 = k) := fun hc => (List.nodup_cons.1 hnd).1 (hc ▸ hk2)
          have hkt : ¬ key t = k := by rw [h]; exact hkk
          simp [h, hkt, hkk]
        · simp [h]
      have hmap : ks.map (fun k2 => l.filter (fun t => decide (key t = k2))) =
          ks.map (fun k2 => (l.filter (fun t => !(decide (key t = k)))).filter
            (fun t => decide (key t = k2))) :=
        (List.map_congr_left hrest).symm
      rw [hmap]
      have hcov2 : ∀ t ∈ l.filter (fun t => !(decide (key t = k))), key t ∈ ks := by
        intro t ht
        have hmem := List.mem_filter.1 ht
        have hne : ¬ key t = k := by simpa using hmem.2
        rcases List.mem_cons.1 (hcov t hmem.1) with hh | hh
        · exact absurd hh hne
        · exact hh
      have hperm := ih (l.filter (fun t => !(decide (key t = k))))
        (List.nodup_cons.1 hnd).2 hcov2
      exact (List.Perm.append_left _ hperm).trans (List.filter_append_perm _ l)

/-- Concatenating the groups of `pyGroupBy` gives back a permutation of the
grouped list. -/
theorem pyGroupBy_flatten_perm {β : Type} [DecidableEq β] (key : Team → β)
    (l : List Team) : (((pyGroupBy key l).map Prod.snd).flatten).Perm l := by
  unfold pyGroupBy
  rw [List.map_map]
  exact flatten_filter_perm key _ l (firstKeys_nodup _)
    (fun t ht => mem_firstKeys.2 (List.mem_map.2 ⟨t, ht, rfl⟩))

/-- The keys of `pyGroupBy` are distinct. -/
theorem pyGroupBy_keys_nodup {β : Type} [DecidableEq β] (key : Team → β)
    (l : List Team) : ((pyGroupBy key l).map Prod.fst).Nodup := by
  unfold pyGroupBy
  rw [List.map_map]
  have hcomp : (Prod.fst ∘ fun k => (k, l.filter (fun t => decide (key t = k)))) =
      fun k : β => k := rfl
  rw [hcomp, List.map_id']
  exact firstKeys_nodup (l.map key)

/-- Every member of a `pyGroupBy` group has that group's key. -/
theorem pyGroupBy_group_key {β : Type} [DecidableEq β] {key : Team → β}
    {l : List Team} {p : β × List Team} (hp : p ∈ pyGroupBy key l) :
    ∀ t ∈ p.2, key t = p.1 := by
  unfold pyGroupBy at hp
  obtain ⟨k, _, rfl⟩ := List.mem_map.1 hp
  intro t ht
  simpa using (List.mem_filter.1 ht).2

/-- `popDiv` does not change the key list. -/
theorem popDiv_map_fst (d : Option String) :
    ∀ rem : List (Option String × List Team),
      (popDiv d rem).map Prod.fst = rem.map Prod.fst := by
  intro rem
  induction rem with
  | nil => rfl
  | cons q rest ih =>
      by_cases hq : q.1 = d
      · cases q
        simp_all [popDiv]
      · cases q
        simp_all [popDiv]

/-- Every group of `popDiv d rem` is contained in the group of the same
position of `rem`. -/
theorem popDiv_sub (d : Option String) :
    ∀ rem : List (Option String × List Team), ∀ p ∈ popDiv d rem,
      ∃ q ∈ rem, p.1 = q.1 ∧ ∀ t ∈ p.2, t ∈ q.2 := by
  intro rem
  induction rem with
  | nil => intro p hp; cases hp
  | cons q rest ih =>
      intro p hp
      by_cases hq : q.1 = d
      · obtain ⟨k, ts⟩ := q
        simp only [popDiv, if_pos hq] at hp
        rcases List.mem_cons.1 hp with rfl | hp2
        · exact ⟨(k, ts), List.mem_cons_self _ _,
            rfl, fun t ht => List.mem_of_mem_tail ht⟩
        · exact ⟨p, List.mem_cons_of_mem _ hp2, rfl, fun t ht => ht⟩
      · obtain ⟨k, ts⟩ := q
        simp only [popDiv, if_neg hq] at hp
        rcases List.mem_cons.1 hp with rfl | hp2
        · exact ⟨(k, ts), List.mem_cons_self _ _, rfl, fun t ht => ht⟩
        · obtain ⟨q2, hq2, hkey, hsub⟩ := ih p hp2
          exact ⟨q2, List.mem_cons_of_mem _ hq2, hkey, hsub⟩

/-- Popping the head `t` of the (unique) group with key `d` removes exactly
one occurrence of `t` from the concatenation of the groups. -/
theorem popDiv_flatten_perm {d : Option String} {t : Team} :
    ∀ {rem : List (Option String × List Team)},
      (rem.map Prod.fst).Nodup →
      (∀ p ∈ rem, p.1 = d → p.2.head? = some t) →
      (∃ p ∈ rem, p.1 = d ∧ p.2.head? = some t) →
      ((rem.map Prod.snd).flatten).Perm
        (t :: ((popDiv d rem).map Prod.snd).flatten) := by
  intro rem
  induction rem with
  | nil => intro _ _ hex; simp at hex
  | cons q rest ih =>
      intro hnd hall hex
      obtain ⟨k, ts⟩ := q
      by_cases hq : k = d
      · have hhead : ts.head? = some t := hall (k, ts) (List.mem_cons_self _ _) hq
        obtain ⟨ys, rfl⟩ := List.head?_eq_some_iff.1 hhead
        simp only [popDiv, if_pos hq, List.map_cons, List.flatten_cons]
        exact List.Perm.refl _
      · simp only [popDiv, if_neg hq, List.map_cons, List.flatten_cons]
        have hex2 : ∃ p ∈ rest, p.1 = d ∧ p.2.head? = some t := by
          rcases hex with ⟨p, hp, hpd, hph⟩
          rcases List.mem_cons.1 hp with rfl | hp2
          · exact absurd hpd hq
          · exact ⟨p, hp2, hpd, hph⟩
        have hnd2 : (rest.map Prod.fst).Nodup := by
          simp only [List.map_cons] at hnd
          exact (List.nodup_cons.1 hnd).2
        have hperm := ih hnd2
          (fun p hp hpd => hall p (List.mem_cons_of_mem _ hp) hpd) hex2
        exact (List.Perm.append_left ts hperm).trans List.perm_middle

/-- In a list with distinct keys, two members with the same key are equal. -/
theorem eq_of_mem_keys_nodup {rem : List (Option String × List Team)}
    (hnd : (rem.map Prod.fst).Nodup) {p q : Option String × List Team}
    (hp : p ∈ rem) (hq : q ∈ rem) (hk : p.1 = q.1) : p = q := by
  induction rem with
  | nil => cases hp
  | cons r rest ih =>
      simp only [List.map_cons, List.nodup_cons] at hnd
      rcases List.mem_cons.1 hp with rfl | hp2 <;>
        rcases List.mem_cons.1 hq with rfl | hq2
      · rfl
      · exact absurd (hk ▸ List.mem_map_of_mem Prod.fst hq2) hnd.1
      · exact absurd (hk ▸ List.mem_map_of_mem Prod.fst hp2) hnd.1
      · exact ih hnd.2 hp2 hq2

/-- One appended team of the wild-card interleaving loop: appending the head
`b` of its division's group and popping that group preserves the multiset,
assuming the interleave invariant. -/
theorem wc_step (s : Stats) (teams : List Team) (divs : Divisions)
    {rem : List (Option String × List Team)} {b : Team} (n : ℕ)
    (hnd : (rem.map Prod.fst).Nodup)
    (hinv : ∀ p ∈ rem, ∀ t ∈ p.2, get_team_division t divs = p.1)
    (hor : ∃ p ∈ rem, p.2.head? = some b)
    (hlen : ((rem.map Prod.snd).flatten).length ≤ n + 1)
    (ih : ∀ rem2 : List (Option String × List Team),
      ((rem2.map Prod.snd).flatten).length ≤ n → (rem2.map Prod.fst).Nodup →
      (∀ p ∈ rem2, ∀ t ∈ p.2, get_team_division t divs = p.1) →
      (wcInterleave s teams divs n rem2).Perm ((rem2.map Prod.snd).flatten)) :
    (b :: wcInterleave s teams divs n
        (popDiv (get_team_division b divs) rem)).Perm
      ((rem.map Prod.snd).flatten) := by
  obtain ⟨p0, hp0, hhead0⟩ := hor
  have hbmem : b ∈ p0.2 := List.mem_of_mem_head? (Option.mem_def.2 hhead0)
  have hd0 : p0.1 = get_team_division b divs := (hinv p0 hp0 b hbmem).symm
  have hall : ∀ p ∈ rem, p.1 = get_team_division b divs → p.2.head? = some b := by
    intro p hp hpd
    rw [eq_of_mem_keys_nodup hnd hp hp0 (hpd.trans hd0.symm)]
    exact hhead0
  have hflat := popDiv_flatten_perm hnd hall ⟨p0, hp0, hd0, hhead0⟩
  have hlen2 : (((popDiv (get_team_division b divs) rem).map Prod.snd).flatten).length
      ≤ n := by
    have := hflat.length_eq
    simp only [List.length_cons] at this
    omega
  have hnd2 : (((popDiv (get_team_division b divs) rem).map Prod.fst)).Nodup := by
    rw [popDiv_map_fst]
    exact hnd
  have hinv2 : ∀ p ∈ popDiv (get_team_division b divs) rem, ∀ t ∈ p.2,
      get_team_division t divs = p.1 := by
    intro p hp t ht
    obtain ⟨q, hq, hkey, hsub⟩ := popDiv_sub _ rem p hp
    rw [hkey]
    exact hinv q hq t (hsub t ht)
  exact ((ih _ hlen2 hnd2 hinv2).cons b).trans hflat.symm

/-- The wild-card interleaving loop returns a permutation of the concatenation
of its division groups. -/
theorem wcInterleave_perm (s : Stats) (teams : List Team) (divs : Divisions) :
    ∀ (fuel : ℕ) (rem : List (Option String × List Team)),
      ((rem.map Prod.snd).flatten).length ≤ fuel →
      (rem.map Prod.fst).Nodup →
      (∀ p ∈ rem, ∀ t ∈ p.2, get_team_division t divs = p.1) →
      (wcInterleave s teams divs fuel rem).Perm ((rem.map Prod.snd).flatten) := by
  intro fuel
  induction fuel with
  | zero =>
      intro rem hlen _ _
      have hflat : (rem.map Prod.snd).flatten = [] :=
        List.eq_nil_of_length_eq_zero (Nat.le_zero.1 hlen)
      rw [hflat]
      exact List.Perm.refl _
  | succ n ih =>
      intro rem hlen hnd hinv
      cases hc : rem.filterMap (fun p => p.2.head?) with
      | nil =>
          have hemp : ∀ p ∈ rem, p.2 = [] := by
            intro p hp
            cases hp2 : p.2 with
            | nil => rfl
            | cons x xs =>
                have hx : x ∈ rem.filterMap (fun p => p.2.head?) :=
                  List.mem_filterMap.2 ⟨p, hp, by rw [hp2]; rfl⟩
                rw [hc] at hx
                cases hx
          have hflat : (rem.map Prod.snd).flatten = [] := by
            apply List.eq_nil_iff_forall_not_mem.2
            intro a ha
            obtain ⟨l, hl, hal⟩ := List.mem_flatten.1 ha
            obtain ⟨p, hp, rfl⟩ := List.mem_map.1 hl
            rw [hemp p hp] at hal
            cases hal
          rw [hflat]
          simp [wcInterleave, hc]
      | cons c cs =>
          cases cs with
          | nil =>
              have hor : ∃ p ∈ rem, p.2.head? = some c := by
                have hcm : c ∈ rem.filterMap (fun p => p.2.head?) := by
                  rw [hc]
                  exact List.mem_cons_self _ _
                obtain ⟨p, hp, hph⟩ := List.mem_filterMap.1 hcm
                exact ⟨p, hp, hph⟩
              simp only [wcInterleave, hc]
              exact wc_step s teams divs n hnd hinv hor hlen ih
          | cons c2 cs2 =>
              have hsome : (compare_cross_division s (c :: c2 :: cs2)
                  teams divs).isSome :=
                compare_cross_division_isSome (by simp)
              obtain ⟨b, hb⟩ := Option.isSome_iff_exists.1 hsome
              have hbmem : b ∈ c :: c2 :: cs2 := compare_cross_division_mem hb
              have hor : ∃ p ∈ rem, p.2.head? = some b := by
                have hbm : b ∈ rem.filterMap (fun p => p.2.head?) := by
                  rw [hc]
                  exact hbmem
                obtain ⟨p, hp, hph⟩ := List.mem_filterMap.1 hbm
                exact ⟨p, hp, hph⟩
              simp only [wcInterleave, hc, hb]
              exact wc_step s teams divs n hnd hinv hor hlen ih

/-- Pointwise-permuted groups have permuted concatenations. -/
theorem flatten_map_perm {β : Type} (l : List β) (f g : β → List Team)
    (h : ∀ b ∈ l, (f b).Perm (g b)) :
    ((l.map f).flatten).Perm ((l.map g).flatten) := by
  induction l with
  | nil => exact List.Perm.refl _
  | cons b bs ih =>
      simp only [List.map_cons, List.flatten_cons]
      exact (h b (List.mem_cons_self _ _)).append
        (ih (fun b2 hb2 => h b2 (List.mem_cons_of_mem _ hb2)))

/-- `break_tie_wildcard` returns a permutation of its input. -/
theorem break_tie_wildcard_perm (s : Stats) (tied teams : List Team)
    (divs : Divisions) : (break_tie_wildcard s tied teams divs).Perm tied := by
  unfold break_tie_wildcard
  by_cases h1 : tied.length = 1
  · rw [if_pos h1]
  · rw [if_neg h1]
    by_cases h2 : (pyGroupBy (fun t => get_team_division t divs) tied).length = 1
    · rw [if_pos h2]
      exact break_tie_division_perm s tied divs (fun _ => none)
    · rw [if_neg h2]
      have hflat : ((((pyGroupBy (fun t => get_team_division t divs) tied).map
          (fun p => (p.1,
            if p.2.length > 1 then break_tie_division s p.2 divs (fun _ => none)
            else p.2))).map Prod.snd).flatten).Perm tied := by
        rw [List.map_map]
        have hstep : (((pyGroupBy (fun t => get_team_division t divs) tied).map
            (Prod.snd ∘ fun p => (p.1,
              if p.2.length > 1 then break_tie_division s p.2 divs (fun _ => none)
              else p.2))).flatten).Perm
            (((pyGroupBy (fun t => get_team_division t divs) tied).map
              Prod.snd).flatten) := by
          apply flatten_map_perm
          intro p _
          simp only [Function.comp]
          split
          · exact break_tie_division_perm s p.2 divs (fun _ => none)
          · exact List.Perm.refl _
        exact hstep.trans (pyGroupBy_flatten_perm _ tied)
      apply (wcInterleave_perm s teams divs tied.length _ ?_ ?_ ?_).trans hflat
      · rw [hflat.length_eq]
      · rw [List.map_map]
        have hcomp : (Prod.fst ∘ fun p : Option String × List Team => (p.1,
            if p.2.length > 1 then break_tie_division s p.2 divs (fun _ => none)
            else p.2)) = Prod.fst := rfl
        rw [hcomp]
        exact pyGroupBy_keys_nodup _ tied
      · intro p hp t ht
        obtain ⟨q, hq, rfl⟩ := List.mem_map.1 hp
        have hq2 : t ∈ q.2 := by
          revert ht
          simp only
          split
          · intro ht
            exact (break_tie_division_perm s q.2 divs (fun _ => none)).mem_iff.1 ht
          · intro ht
            exact ht
        exact pyGroupBy_group_key hq t hq2

/-- C10: every tie-break operation returns a permutation of its input group —
`app.py`'s and `playoff_scenarios.py`'s multi-team division chains (at the
call-site fuel and any other fuel) and `app.py`'s `break_tie_wildcard`.  No
team is dropped, duplicated or introduced. -/
theorem C10_tie_breaks_return_permutations :
    (∀ (s : Stats) (divs : Divisions) (ov : H2HOverride) (fuel : ℕ)
        (g : List Team), (break_tie_division_multi s divs ov fuel g).Perm g) ∧
    (∀ (s : Stats) (ov : H2HOverride) (fuel : ℕ) (g : List Team),
      (break_tie_division_multi_ps s ov fuel g).Perm g) ∧
    (∀ (s : Stats) (tied teams : List Team) (divs : Divisions),
      (break_tie_wildcard s tied teams divs).Perm tied) :=
  ⟨fun s divs ov fuel g => break_tie_division_multi_perm s divs ov fuel g,
   fun s ov fuel g => break_tie_division_multi_ps_perm s ov fuel g,
   fun s tied teams divs => break_tie_wildcard_perm s tied teams divs⟩

/-- The accumulator fold behind Python `max(list, key=f)` yields either its
seed or a list element. -/
theorem pyFoldMax_mem {α : Type} [LinearOrder α] (f : Team → α) :
    ∀ (xs : List Team) (a : Team),
      xs.foldl (fun acc t => if f t > f acc then t else acc) a = a ∨
        xs.foldl (fun acc t => if f t > f acc then t else acc) a ∈ xs := by
  intro xs
  induction xs with
  | nil => intro a; exact Or.inl rfl
  | cons y ys ih =>
      intro a
      simp only [List.foldl_cons]
      rcases ih (if f y > f a then y else a) with h | h
      · rw [h]
        split
        · exact Or.inr (List.mem_cons_self _ _)
        · exact Or.inl rfl
      · exact Or.inr (List.mem_cons_of_mem _ h)

/-- Python `max(list, key=f)` returns a member of the list. -/
theorem pyMaxBy_mem {α : Type} [LinearOrder α] {f : Team → α} {l : List Team}
    {b : Team} (h : pyMaxBy f l = some b) : b ∈ l := by
  match l with
  | [] => cases h
  | x :: xs =>
      simp only [pyMaxBy, Option.some.injEq] at h
      rw [← h]
      rcases pyFoldMax_mem f xs x with h' | h'
      · rw [h']
        exact List.mem_cons_self _ _
      · exact List.mem_cons_of_mem _ h'

/-- Python `max(list, key=f)` succeeds on a non-empty list. -/
theorem pyMaxBy_isSome {α : Type} [LinearOrder α] (f : Team → α) {l : List Team}
    (h : l ≠ []) : (pyMaxBy f l).isSome := by
  cases l with
  | nil => exact absurd rfl h
  | cons x xs => rfl

/-- Grouping a non-empty list yields at least one group. -/
theorem pyGroupBy_ne_nil {β : Type} [DecidableEq β] (key : Team → β)
    {l : List Team} (h : l ≠ []) : pyGroupBy key l ≠ [] := by
  cases l with
  | nil => exact absurd rfl h
  | cons x xs => simp [pyGroupBy, firstKeys]

/-- Every group produced by `pyGroupBy` is non-empty. -/
theorem pyGroupBy_group_ne_nil {β : Type} [DecidableEq β] {key : Team → β}
    {l : List Team} {p : β × List Team} (hp : p ∈ pyGroupBy key l) : p.2 ≠ [] := by
  unfold pyGroupBy at hp
  obtain ⟨k, hk, rfl⟩ := List.mem_map.1 hp
  obtain ⟨t, ht, hkt⟩ := List.mem_map.1 (mem_firstKeys.1 hk)
  intro hc
  have htf : t ∈ l.filter (fun u => decide (key u = k)) := by
    simp [List.mem_filter, ht, hkt]
  change l.filter (fun u => decide (key u = k)) = [] at hc
  rw [hc] at htf
  cases htf

/-- Every group produced by `pyGroupBy` is contained in the grouped list. -/
theorem pyGroupBy_group_sub {β : Type} [DecidableEq β] {key : Team → β}
    {l : List Team} {p : β × List Team} (hp : p ∈ pyGroupBy key l) :
    ∀ t ∈ p.2, t ∈ l := by
  unfold pyGroupBy at hp
  obtain ⟨k, _, rfl⟩ := List.mem_map.1 hp
  intro t ht
  exact (List.mem_filter.1 ht).1

/-- The relegation intra-division loop only returns members of its input. -/
theorem get_lowest_loop_sub (stats : Stats) :
    ∀ (fuel : ℕ) (l : List Team) (t : Team),
      t ∈ get_lowest_loop stats fuel l → t ∈ l := by
  intro fuel
  induction fuel with
  | zero => intro l t ht; cases ht
  | succ n ih =>
      intro l t ht
      match l with
      | [] => cases ht
      | [t0] =>
          simp only [get_lowest_loop] at ht
          exact ht
      | t1 :: t2 :: rest =>
          simp only [get_lowest_loop] at ht
          split_ifs at ht with h1 h2
          · rcases List.mem_append.1 ht with h | h
            · exact mem_maxGroupBy h
            · exact (List.mem_filter.1 (ih _ _ h)).1
          · rcases List.mem_append.1 ht with h | h
            · exact mem_maxGroupBy (mem_maxGroupBy h)
            · exact (List.mem_filter.1 (ih _ _ h)).1
          · rcases hm : pyMaxBy (fun t => (stats t).points_for)
                (maxGroupBy (divisionPct stats)
                  (maxGroupBy (h2hGroupPct stats (t1 :: t2 :: rest))
                    (t1 :: t2 :: rest))) with _ | best
            · rw [hm] at ht
              cases ht
            · rw [hm] at ht
              rcases List.mem_cons.1 ht with rfl | h
              · exact mem_maxGroupBy (mem_maxGroupBy (pyMaxBy_mem hm))
              · exact List.mem_of_mem_erase (ih _ _ h)

/-- With positive fuel, the relegation intra-division loop of a non-empty
group is non-empty. -/
theorem get_lowest_loop_ne_nil (stats : Stats) (fuel : ℕ) {l : List Team}
    (h : l ≠ []) : get_lowest_loop stats (fuel + 1) l ≠ [] := by
  match l with
  | [] => exact absurd rfl h
  | [t0] => simp [get_lowest_loop]
  | t1 :: t2 :: rest =>
      have hb1 : maxGroupBy (h2hGroupPct stats (t1 :: t2 :: rest))
          (t1 :: t2 :: rest) ≠ [] := maxGroupBy_ne_nil (by simp)
      have hb2 : maxGroupBy (divisionPct stats)
          (maxGroupBy (h2hGroupPct stats (t1 :: t2 :: rest))
            (t1 :: t2 :: rest)) ≠ [] := maxGroupBy_ne_nil hb1
      simp only [get_lowest_loop]
      split_ifs
      · exact fun hc => hb1 (List.append_eq_nil.1 hc).1
      · exact fun hc => hb2 (List.append_eq_nil.1 hc).1
      · rcases hm : pyMaxBy (fun t => (stats t).points_for)
            (maxGroupBy (divisionPct stats)
              (maxGroupBy (h2hGroupPct stats (t1 :: t2 :: rest))
                (t1 :: t2 :: rest))) with _ | best
        · have hs := pyMaxBy_isSome (fun t => (stats t).points_for) hb2
          rw [hm] at hs
          simp at hs
        · simp [hm]

/-- `get_lowest_in_division_for_relegation` only returns members of its
input. -/
theorem get_lowest_sub (stats : Stats) {l : List Team} {t : Team}
    (ht : t ∈ get_lowest_in_division_for_relegation stats l) : t ∈ l := by
  match l with
  | [] =>
      simp [get_lowest_in_division_for_relegation, get_lowest_loop] at ht
  | [t0] =>
      simp only [get_lowest_in_division_for_relegation] at ht
      exact ht
  | [t1, t2] =>
      simp only [get_lowest_in_division_for_relegation] at ht
      exact (break_tie_division_two_perm stats t1 t2 _).mem_iff.1 ht
  | t1 :: t2 :: t3 :: rest =>
      simp only [get_lowest_in_division_for_relegation] at ht
      exact get_lowest_loop_sub stats _ _ _ ht

/-- `get_lowest_in_division_for_relegation` of a non-empty group is
non-empty. -/
theorem get_lowest_ne_nil (stats : Stats) {l : List Team} (h : l ≠ []) :
    get_lowest_in_division_for_relegation stats l ≠ [] := by
  match l with
  | [] => exact absurd rfl h
  | [t0] => simp [get_lowest_in_division_for_relegation]
  | [t1, t2] =>
      simp only [get_lowest_in_division_for_relegation]
      intro hc
      have hlen := (break_tie_division_two_perm stats t1 t2 (fun _ => none)).length_eq
      rw [hc] at hlen
      simp at hlen
  | t1 :: t2 :: t3 :: rest =>
      simp only [get_lowest_in_division_for_relegation, List.length_cons]
      exact get_lowest_loop_ne_nil stats _ (by simp)

/-- The relegation cross-division comparator only returns a member of its
candidate list. -/
theorem ccd_relegation_mem {stats : Stats} {cs teams : List Team}
    {divs : Divisions} {b : Team}
    (h : compare_cross_division_for_relegation stats cs teams divs = some b) :
    b ∈ cs := by
  match cs with
  | [] => simp [compare_cross_division_for_relegation] at h
  | [t] =>
      simp only [compare_cross_division_for_relegation, Option.some.injEq] at h
      simp [← h]
  | [t1, t2] =>
      simp only [compare_cross_division_for_relegation] at h
      exact compare_cross_division_mem h
  | t1 :: t2 :: t3 :: rest =>
      simp only [compare_cross_division_for_relegation] at h
      split_ifs at h
      · exact mem_maxGroupBy (List.mem_of_mem_head? (Option.mem_def.2 h))
      · exact mem_maxGroupBy (mem_maxGroupBy
          (List.mem_of_mem_head? (Option.mem_def.2 h)))
      · exact mem_maxGroupBy (mem_maxGroupBy (pyMaxBy_mem h))

/-- The relegation cross-division comparator succeeds on a non-empty
candidate list. -/
theorem ccd_relegation_isSome {stats : Stats} {cs teams : List Team}
    {divs : Divisions} (hne : cs ≠ []) :
    (compare_cross_division_for_relegation stats cs teams divs).isSome := by
  match cs with
  | [] => exact absurd rfl hne
  | [t] => rfl
  | [t1, t2] =>
      simp only [compare_cross_division_for_relegation]
      exact compare_cross_division_isSome (by simp)
  | t1 :: t2 :: t3 :: rest =>
      have hb1 : maxGroupBy (h2hGroupPct stats (t1 :: t2 :: t3 :: rest))
          (t1 :: t2 :: t3 :: rest) ≠ [] := maxGroupBy_ne_nil (by simp)
      have hb2 : maxGroupBy
          (fun t => calculate_strength_of_schedule stats t teams)
          (maxGroupBy (h2hGroupPct stats (t1 :: t2 :: t3 :: rest))
            (t1 :: t2 :: t3 :: rest)) ≠ [] := maxGroupBy_ne_nil hb1
      simp only [compare_cross_division_for_relegation]
      split_ifs
      · exact head?_isSome_of_ne_nil hb1
      · exact head?_isSome_of_ne_nil hb2
      · exact pyMaxBy_isSome _ hb2

/-- The relegation elimination loop only returns a member of its candidate
list. -/
theorem relegationElim_mem (stats : Stats) (teams : List Team)
    (divs : Divisions) :
    ∀ (fuel : ℕ) (cands : List Team) (b : Team),
      relegationElim stats teams divs fuel cands = some b → b ∈ cands := by
  intro fuel
  induction fuel with
  | zero =>
      intro cands b h
      simp only [relegationElim] at h
      exact List.mem_of_mem_head? (Option.mem_def.2 h)
  | succ n ih =>
      intro cands b h
      simp only [relegationElim] at h
      split_ifs at h
      · exact List.mem_of_mem_head? (Option.mem_def.2 h)
      · rcases hm : compare_cross_division_for_relegation stats cands teams divs
            with _ | best
        · rw [hm] at h
          cases h
        · rw [hm] at h
          exact List.mem_of_mem_erase (ih _ _ h)

/-- With fuel at least one less than the candidate count, the relegation
elimination loop succeeds on a non-empty candidate list. -/
theorem relegationElim_isSome (stats : Stats) (teams : List Team)
    (divs : Divisions) :
    ∀ (fuel : ℕ) (cands : List Team), cands ≠ [] → cands.length ≤ fuel + 1 →
      (relegationElim stats teams divs fuel cands).isSome := by
  intro fuel
  induction fuel with
  | zero =>
      intro cands hne _
      simp only [relegationElim]
      exact head?_isSome_of_ne_nil hne
  | succ n ih =>
      intro cands hne hlen
      simp only [relegationElim]
      split_ifs with h1
      · exact head?_isSome_of_ne_nil hne
      · rcases hm : compare_cross_division_for_relegation stats cands teams divs
            with _ | best
        · have hs : (compare_cross_division_for_relegation stats cands teams
              divs).isSome := ccd_relegation_isSome hne
          rw [hm] at hs
          simp at hs
        · have hbm : best ∈ cands := ccd_relegation_mem hm
          have herase : (cands.erase best).length = cands.length - 1 :=
            List.length_erase_of_mem hbm
          apply ih
          · intro hc
            rw [hc] at herase
            simp only [List.length_nil] at herase
            omega
          · omega

/-- The per-round per-division worst representatives are drawn from the
pool. -/
theorem relegationLowest_sub (stats : Stats) (divs : Divisions)
    (pool : List Team) :
    ∀ u ∈ ((pyGroupBy (fun v => get_team_division v divs)
        (minGroupBy (worstRecordKey stats) pool)).map
          (fun p => (p.1, get_lowest_in_division_for_relegation stats p.2))).filterMap
        (fun p => p.2.getLast?), u ∈ pool := by
  intro u hu
  obtain ⟨p, hp, hlast⟩ := List.mem_filterMap.1 hu
  obtain ⟨q, hq, rfl⟩ := List.mem_map.1 hp
  have hu2 : u ∈ get_lowest_in_division_for_relegation stats q.2 :=
    List.mem_of_getLast?_eq_some hlast
  exact mem_minGroupBy (pyGroupBy_group_sub hq _ (get_lowest_sub stats hu2))

/-- On a non-empty pool the per-division worst representative list is
non-empty. -/
theorem relegationLowest_ne_nil (stats : Stats) (divs : Divisions)
    {pool : List Team} (hpool : pool ≠ []) :
    ((pyGroupBy (fun v => get_team_division v divs)
        (minGroupBy (worstRecordKey stats) pool)).map
          (fun p => (p.1, get_lowest_in_division_for_relegation stats p.2))).filterMap
        (fun p => p.2.getLast?) ≠ [] := by
  intro hc
  have hworst : minGroupBy (worstRecordKey stats) pool ≠ [] :=
    minGroupBy_ne_nil hpool
  have hgb : pyGroupBy (fun v => get_team_division v divs)
      (minGroupBy (worstRecordKey stats) pool) ≠ [] := pyGroupBy_ne_nil _ hworst
  obtain ⟨q, hq⟩ := List.exists_mem_of_ne_nil _ hgb
  have hmap : (q.1, get_lowest_in_division_for_relegation stats q.2) ∈
      (pyGroupBy (fun v => get_team_division v divs)
        (minGroupBy (worstRecordKey stats) pool)).map
          (fun p => (p.1, get_lowest_in_division_for_relegation stats p.2)) :=
    List.mem_map.2 ⟨q, hq, rfl⟩
  have hnone := List.filterMap_eq_nil_iff.1 hc _ hmap
  have hgne : get_lowest_in_division_for_relegation stats q.2 ≠ [] :=
    get_lowest_ne_nil stats (pyGroupBy_group_ne_nil hq)
  change (get_lowest_in_division_for_relegation stats q.2).getLast? = none at hnone
  rw [List.getLast?_eq_none_iff] at hnone
  exact hgne hnone

/-- A successful relegation-round pick is drawn from the eligible pool. -/
theorem relegationPick_mem {stats : Stats} {teams : List Team}
    {divs : Divisions} {pool : List Team} {t : Team}
    (h : relegationPick stats teams divs pool = some t) : t ∈ pool := by
  by_cases h0 : pool = []
  · subst h0
    simp [relegationPick] at h
  · simp only [relegationPick, if_neg h0] at h
    split_ifs at h with h1 h2
    · exact mem_minGroupBy (List.mem_of_mem_head? (Option.mem_def.2 h))
    · exact relegationLowest_sub stats divs pool _
        (List.mem_of_mem_head? (Option.mem_def.2 h))
    · exact relegationLowest_sub stats divs pool _
        (relegationElim_mem stats teams divs _ _ _ h)

/-- The relegation-round pick succeeds on a non-empty pool. -/
theorem relegationPick_isSome (stats : Stats) (teams : List Team)
    (divs : Divisions) {pool : List Team} (hpool : pool ≠ []) :
    (relegationPick stats teams divs pool).isSome := by
  simp only [relegationPick, if_neg hpool]
  split_ifs with h1 h2
  · exact head?_isSome_of_ne_nil (minGroupBy_ne_nil hpool)
  · exact head?_isSome_of_ne_nil (relegationLowest_ne_nil stats divs hpool)
  · apply relegationElim_isSome
    · exact relegationLowest_ne_nil stats divs hpool
    · omega

/-- Filtering by exclusion from `acc ++ [t]` is filtering by exclusion from
`acc` and then dropping `t`. -/
theorem filter_notMem_append (non_playoff acc : List Team) (t : Team) :
    non_playoff.filter (fun u => decide (u ∉ acc ++ [t])) =
      (non_playoff.filter (fun u => decide (u ∉ acc))).filter
        (fun u => decide (u ∉ [t])) := by
  rw [List.filter_filter]
  apply List.filter_congr
  intro u _
  by_cases h1 : u ∈ acc <;> by_cases h2 : u = t <;> simp [h1, h2]

/-- The fueled relegation loop agrees with the clean pick-and-remove
recursion whenever the fuel does not overshoot the four-team cap. -/
theorem relegationLoop_eq_spec (stats : Stats) (teams : List Team)
    (divs : Divisions) (non_playoff : List Team) :
    ∀ (n : ℕ) (acc : List Team), acc.length + n ≤ 4 →
      relegationLoop stats teams divs non_playoff n acc =
        acc ++ specAppRelegation stats teams divs n
          (non_playoff.filter (fun u => decide (u ∉ acc))) := by
  intro n
  induction n with
  | zero =>
      intro acc _
      simp [relegationLoop, specAppRelegation]
  | succ m ih =>
      intro acc hlen
      have hlt : acc.length < 4 := by omega
      simp only [relegationLoop, if_pos hlt, specAppRelegation]
      rcases hm : relegationPick stats teams divs
          (non_playoff.filter (fun u => decide (u ∉ acc))) with _ | t
      · simp
      · dsimp only
        rw [ih (acc ++ [t]) (by simp only [List.length_append,
            List.length_cons, List.length_nil]; omega),
          filter_notMem_append, List.append_assoc, List.singleton_append]

/-- `determine_relegation_teams` is the clean pick-and-remove recursion over
the non-playoff pool, seeded 1..n in pick order. -/
theorem determine_relegation_eq_specAppRelegation (stats : Stats)
    (playoff_teams : List PlayoffEntry) (teams : List Team) (divs : Divisions) :
    determine_relegation_teams stats playoff_teams teams divs =
      ((specAppRelegation stats teams divs 4
        (teams.filter (fun u =>
          decide (u ∉ playoff_teams.map PlayoffEntry.team)))).enum.map
        (fun p => (p.1 + 1, p.2))) := by
  simp only [determine_relegation_teams]
  rw [relegationLoop_eq_spec stats teams divs _ 4 [] (by simp)]
  simp

/-- `specAppRelegation` on a duplicate-free pool returns `min n |pool|`
teams. -/
theorem specAppRelegation_length (stats : Stats) (teams : List Team)
    (divs : Divisions) :
    ∀ (n : ℕ) (pool : List Team), pool.Nodup →
      (specAppRelegation stats teams divs n pool).length = min n pool.length := by
  intro n
  induction n with
  | zero =>
      intro pool _
      simp [specAppRelegation]
  | succ m ih =>
      intro pool hnd
      by_cases hpool : pool = []
      · subst hpool
        simp [specAppRelegation, relegationPick]
      · rcases hm : relegationPick stats teams divs pool with _ | t
        · have hs := relegationPick_isSome stats teams divs hpool
          rw [hm] at hs
          simp at hs
        · have htm : t ∈ pool := relegationPick_mem hm
          have hfe : pool.filter (fun u => decide (u ∉ [t])) = pool.erase t := by
            rw [List.Nodup.erase_eq_filter hnd]
            apply List.filter_congr
            intro u _
            by_cases h2 : u = t <;> simp [h2]
          have hnd' : (pool.filter (fun u => decide (u ∉ [t]))).Nodup :=
            List.Nodup.filter _ hnd
          have hlenf : (pool.filter (fun u => decide (u ∉ [t]))).length =
              pool.length - 1 := by
            rw [hfe, List.length_erase_of_mem htm]
          have hp1 : 1 ≤ pool.length := List.length_pos.2 hpool
          simp only [specAppRelegation, hm, List.length_cons]
          rw [ih _ hnd', hlenf]
          omega

/-- C3 counterexample: on four one-division teams with identical records,
points and head-to-head data, distinguished only by matrix rank,
`determine_relegation_teams` (`app.py` lines 593-673) seeds the bracket
D, C, A, B, while the claimed procedure — fill worst-to-best record groups,
truncate by the wild-card chain, then seed by re-grouping with each tied
group in reversed wild-card order — seeds it A, B, C, D.  The claim does not
describe the code: the code picks teams one at a time with its own
per-round pick (worst record, per-division ordering, cross-division
elimination) and seeds them in pick order. -/
theorem C3_relegation_picks_differ_from_claim :
    determine_relegation_teams statsABCD [] teamsABCD divsABCD =
        [(1, "D"), (2, "C"), (3, "A"), (4, "B")] ∧
      specRelegationClaim statsABCD [] teamsABCD divsABCD =
        [(1, "A"), (2, "B"), (3, "C"), (4, "D")] ∧
      determine_relegation_teams statsABCD [] teamsABCD divsABCD ≠
        specRelegationClaim statsABCD [] teamsABCD divsABCD := by
  refine ⟨by decide, by decide, by decide⟩

/-- C8: with an empty unplayed-matchup list the weighted summary takes the
single deterministic branch (`app.py` lines 761-781) — no scenario weights, no
normalisation division — and every team's championship and relegation
percentage is exactly 0 or exactly 100, never fractional. -/
theorem C8_zero_matchups_percentages (stats : Stats) (teams : List Team)
    (divisions : Divisions) (matchup_probs : Team × Team → Option ℚ)
    (has_relegation : Bool) (league_name : String)
    (summary : Team → TeamSummary)
    (hsum : get_team_summary_weighted stats teams divisions [] matchup_probs
      has_relegation league_name = some summary) :
    ∀ team : Team,
      ((summary team).championship_pct = 0 ∨
        (summary team).championship_pct = 100) ∧
      ((summary team).relegation_pct = 0 ∨
        (summary team).relegation_pct = 100) := by
  simp only [get_team_summary_weighted] at hsum
  rcases hdp : determine_playoff_teams stats teams divisions (fun _ => none)
      with _ | playoff_teams
  · rw [hdp] at hsum
    cases hsum
  · rw [hdp] at hsum
    obtain rfl := Option.some.inj hsum
    intro team
    refine ⟨?_, ?_⟩ <;> dsimp only <;> split_ifs <;> simp

/-- Witness for C8 at the concrete two-team league, at team `"A"`. -/
theorem C8_zero_matchups_percentages_witness :
    get_team_summary_weighted statsZero ["A", "B"] [("X", ["A", "B"])] []
        (fun _ => none) true "L" = some zsAB ∧
      ((zsAB "A").championship_pct = 0 ∨ (zsAB "A").championship_pct = 100) ∧
      ((zsAB "A").relegation_pct = 0 ∨ (zsAB "A").relegation_pct = 100) :=
  ⟨rfl, C8_zero_matchups_percentages statsZero ["A", "B"] [("X", ["A", "B"])]
    (fun _ => none) true "L" zsAB rfl "A"⟩

/-- Unfolding of the dict lookup on a cons cell. -/
theorem divLookup_cons (k : String) (l : List Team) (rest : Divisions)
    (d : String) :
    divLookup ((k, l) :: rest) d = if k = d then l else divLookup rest d := by
  by_cases h : k = d
  · simp [divLookup, List.filter_cons, h]
  · simp [divLookup, List.filter_cons, h]

/-- A team found by the dict lookup belongs to an entry with that key. -/
theorem divLookup_mem_entry :
    ∀ (divisions : Divisions) (d : String) {t : Team},
      t ∈ divLookup divisions d → ∃ p ∈ divisions, p.1 = d ∧ t ∈ p.2 := by
  intro divisions
  induction divisions with
  | nil =>
      intro d t ht
      simp [divLookup] at ht
  | cons q rest ih =>
      intro d t ht
      obtain ⟨k, l⟩ := q
      rw [divLookup_cons] at ht
      by_cases h : k = d
      · rw [if_pos h] at ht
        exact ⟨(k, l), List.mem_cons_self _ _, h, ht⟩
      · rw [if_neg h] at ht
        obtain ⟨p, hp, h1, h2⟩ := ih d ht
        exact ⟨p, List.mem_cons_of_mem _ hp, h1, h2⟩

/-- With distinct keys and pairwise-disjoint divisions, lookups of different
keys are disjoint. -/
theorem divLookup_disjoint :
    ∀ (divisions : Divisions),
      ((divisions.map Prod.fst).Nodup) →
      divisions.Pairwise (fun p q => ∀ t, t ∈ p.2 → t ∉ q.2) →
      ∀ (d d' : String), d ≠ d' →
      ∀ t, t ∈ divLookup divisions d → t ∉ divLookup divisions d' := by
  intro divisions
  induction divisions with
  | nil =>
      intro _ _ d d' _ t ht
      simp [divLookup] at ht
  | cons q rest ih =>
      intro hkeys hdisj d d' hne t ht htc
      obtain ⟨k, l⟩ := q
      rw [divLookup_cons] at ht htc
      rw [List.map_cons, List.nodup_cons] at hkeys
      rw [List.pairwise_cons] at hdisj
      by_cases h1 : k = d <;> by_cases h2 : k = d'
      · exact hne (h1 ▸ h2 ▸ rfl)
      · rw [if_pos h1] at ht
        rw [if_neg h2] at htc
        obtain ⟨p', hp', _, hl'⟩ := divLookup_mem_entry rest d' htc
        exact hdisj.1 p' hp' t ht hl'
      · rw [if_neg h1] at ht
        rw [if_pos h2] at htc
        obtain ⟨p', hp', _, hl'⟩ := divLookup_mem_entry rest d ht
        exact hdisj.1 p' hp' t htc hl'
      · rw [if_neg h1] at ht
        rw [if_neg h2] at htc
        exact ih hkeys.2 hdisj.2 d d' hne t ht htc

/-- The sorted record keys are distinct. -/
theorem bestFirstRecords_nodup (stats : Stats) (l : List Team) :
    (bestFirstRecords stats l).Nodup :=
  ((List.perm_insertionSort _ _).nodup_iff).2 (firstKeys_nodup _)

/-- Every team's record appears among the sorted record keys. -/
theorem bestFirstRecords_mem (stats : Stats) {l : List Team} {t : Team}
    (ht : t ∈ l) : recordKey stats t ∈ bestFirstRecords stats l :=
  (List.perm_insertionSort _ _).mem_iff.2
    (mem_firstKeys.2 (List.mem_map.2 ⟨t, ht, rfl⟩))

/-- `rank_division` returns a permutation of its division. -/
theorem rank_division_perm (stats : Stats) (l : List Team) (divs : Divisions)
    (ov : H2HOverride) : (rank_division stats l divs ov).Perm l := by
  unfold rank_division
  have h1 : (((bestFirstRecords stats l).map (fun r =>
      let tied := l.filter (fun t => decide (recordKey stats t = r))
      if tied.length = 1 then tied
      else break_tie_division stats tied divs ov)).flatten).Perm
      (((bestFirstRecords stats l).map (fun r =>
        l.filter (fun t => decide (recordKey stats t = r)))).flatten) := by
    apply flatten_map_perm
    intro r _
    dsimp only
    split_ifs
    · exact List.Perm.refl _
    · exact break_tie_division_perm stats _ divs ov
  exact h1.trans (flatten_filter_perm (recordKey stats) _ l
    (bestFirstRecords_nodup stats l) (fun t ht => bestFirstRecords_mem stats ht))

/-- `seedByRecord` returns a permutation of its group. -/
theorem seedByRecord_perm (stats : Stats) (teams : List Team)
    (divs : Divisions) (group : List Team) :
    (seedByRecord stats teams divs group).Perm group := by
  unfold seedByRecord
  have h1 : (((bestFirstRecords stats group).map (fun r =>
      let tied := group.filter (fun t => decide (recordKey stats t = r))
      if tied.length = 1 then tied
      else break_tie_wildcard stats tied teams divs)).flatten).Perm
      (((bestFirstRecords stats group).map (fun r =>
        group.filter (fun t => decide (recordKey stats t = r)))).flatten) := by
    apply flatten_map_perm
    intro r _
    dsimp only
    split_ifs
    · exact List.Perm.refl _
    · exact break_tie_wildcard_perm stats _ teams divs
  exact h1.trans (flatten_filter_perm (recordKey stats) _ group
    (bestFirstRecords_nodup stats group)
    (fun t ht => bestFirstRecords_mem stats ht))

/-- Every division winner belongs to its division's team list. -/
theorem divisionWinners_mem (stats : Stats) (divisions : Divisions)
    (ov : H2HOverride) :
    ∀ (ks : List String) (ws : List Team),
      divisionWinners stats divisions ov ks = some ws →
      ∀ w ∈ ws, ∃ d ∈ ks, w ∈ divLookup divisions d := by
  intro ks
  induction ks with
  | nil =>
      intro ws h w hw
      simp only [divisionWinners] at h
      obtain rfl := Option.some.inj h
      cases hw
  | cons d ds ih =>
      intro ws h w hw
      simp only [divisionWinners] at h
      rcases hh : (rank_division stats (divLookup divisions d) divisions
          ov).head? with _ | w0
      · rw [hh] at h
        cases h
      · rw [hh] at h
        rcases hr : divisionWinners stats divisions ov ds with _ | ws0
        · rw [hr] at h
          cases h
        · rw [hr] at h
          obtain rfl := Option.some.inj h
          rcases List.mem_cons.1 hw with rfl | hw2
          · exact ⟨d, List.mem_cons_self _ _,
              (rank_division_perm stats _ divisions ov).mem_iff.1
                (List.mem_of_mem_head? (Option.mem_def.2 hh))⟩
          · obtain ⟨d2, hd2, hw3⟩ := ih ws0 hr w hw2
            exact ⟨d2, List.mem_cons_of_mem _ hd2, hw3⟩

/-- With distinct keys and pairwise-disjoint divisions, the division winners
are distinct. -/
theorem divisionWinners_nodup (stats : Stats) (divisions : Divisions)
    (ov : H2HOverride)
    (hkeys : (divisions.map Prod.fst).Nodup)
    (hdisjd : divisions.Pairwise (fun p q => ∀ t, t ∈ p.2 → t ∉ q.2)) :
    ∀ (ks : List String) (ws : List Team), ks.Nodup →
      divisionWinners stats divisions ov ks = some ws → ws.Nodup := by
  intro ks
  induction ks with
  | nil =>
      intro ws _ h
      simp only [divisionWinners] at h
      obtain rfl := Option.some.inj h
      exact List.nodup_nil
  | cons d ds ih =>
      intro ws hnd h
      simp only [divisionWinners] at h
      rcases hh : (rank_division stats (divLookup divisions d) divisions
          ov).head? with _ | w0
      · rw [hh] at h
        cases h
      · rw [hh] at h
        rcases hr : divisionWinners stats divisions ov ds with _ | ws0
        · rw [hr] at h
          cases h
        · rw [hr] at h
          obtain rfl := Option.some.inj h
          rw [List.nodup_cons] at hnd ⊢
          refine ⟨?_, ih ws0 hnd.2 hr⟩
          intro hw0
          obtain ⟨d2, hd2, hw2⟩ := divisionWinners_mem stats divisions ov ds
            ws0 hr w0 hw0
          have hw1 : w0 ∈ divLookup divisions d :=
            (rank_division_perm stats _ divisions ov).mem_iff.1
              (List.mem_of_mem_head? (Option.mem_def.2 hh))
          have hdd : d ≠ d2 := fun hc => hnd.1 (hc ▸ hd2)
          exact divLookup_disjoint divisions hkeys hdisjd d d2 hdd w0 hw1 hw2

/-- The wild-card fill is duplicate-free and drawn from its pool, with every
pick's record among the walked records. -/
theorem fillWildcards_spec (stats : Stats) (teams : List Team)
    (divs : Divisions) (non_winners : List Team) (hnw : non_winners.Nodup) :
    ∀ (rs : List (ℕ × ℕ × ℕ)) (spots : ℕ), rs.Nodup →
      (fillWildcards stats teams divs non_winners spots rs).Nodup ∧
      ∀ t ∈ fillWildcards stats teams divs non_winners spots rs,
        t ∈ non_winners ∧ recordKey stats t ∈ rs := by
  intro rs
  induction rs with
  | nil =>
      intro spots _
      constructor
      · simp [fillWildcards]
      · intro t ht
        simp [fillWildcards] at ht
  | cons r rest ih =>
      intro spots hnd
      rw [List.nodup_cons] at hnd
      by_cases h0 : spots = 0
      · subst h0
        constructor
        · simp [fillWildcards]
        · intro t ht
          simp [fillWildcards] at ht
      · by_cases hle : (non_winners.filter
            (fun t => decide (recordKey stats t = r))).length ≤ spots
        · have heq : fillWildcards stats teams divs non_winners spots
              (r :: rest) =
              non_winners.filter (fun t => decide (recordKey stats t = r)) ++
                fillWildcards stats teams divs non_winners
                  (spots - (non_winners.filter
                    (fun t => decide (recordKey stats t = r))).length) rest := by
            simp only [fillWildcards, if_neg h0, if_pos hle]
          obtain ⟨ihn, ihm⟩ := ih _ hnd.2
          rw [heq]
          constructor
          · refine List.Nodup.append (List.Nodup.filter _ hnw) ihn ?_
            intro t ht1 ht2
            have h1 := (List.mem_filter.1 ht1).2
            have h2 := (ihm t ht2).2
            simp only [decide_eq_true_eq] at h1
            exact hnd.1 (h1 ▸ h2)
          · intro t ht
            rcases List.mem_append.1 ht with h | h
            · refine ⟨(List.mem_filter.1 h).1, ?_⟩
              have h2 := (List.mem_filter.1 h).2
              simp only [decide_eq_true_eq] at h2
              simp [h2]
            · obtain ⟨h1, h2⟩ := ihm t h
              exact ⟨h1, List.mem_cons_of_mem _ h2⟩
        · have heq : fillWildcards stats teams divs non_winners spots
              (r :: rest) =
              (break_tie_wildcard stats (non_winners.filter
                (fun t => decide (recordKey stats t = r))) teams divs).take
                spots := by
            simp only [fillWildcards, if_neg h0, if_neg hle]
          rw [heq]
          have hperm := break_tie_wildcard_perm stats (non_winners.filter
            (fun t => decide (recordKey stats t = r))) teams divs
          constructor
          · exact List.Nodup.sublist (List.take_sublist _ _)
              (hperm.nodup_iff.2 (List.Nodup.filter _ hnw))
          · intro t ht
            have ht2 : t ∈ non_winners.filter
                (fun t => decide (recordKey stats t = r)) :=
              hperm.mem_iff.1 (List.mem_of_mem_take ht)
            refine ⟨(List.mem_filter.1 ht2).1, ?_⟩
            have h2 := (List.mem_filter.1 ht2).2
            simp only [decide_eq_true_eq] at h2
            simp [h2]

/-- The names of the assembled playoff entries are the seeded winners followed
by the seeded wild cards. -/
theorem playoff_entries_names (w wc : List Team) :
    ((w.enum.map (fun p =>
        (⟨p.1 + 1, p.2, true, decide (p.1 < 2)⟩ : PlayoffEntry)) ++
      wc.enum.map (fun p =>
        (⟨w.length + p.1 + 1, p.2, false, false⟩ : PlayoffEntry))).map
        PlayoffEntry.team) = w ++ wc := by
  rw [List.map_append, List.map_map, List.map_map]
  have h1 : (PlayoffEntry.team ∘ fun p : ℕ × Team =>
      (⟨p.1 + 1, p.2, true, decide (p.1 < 2)⟩ : PlayoffEntry)) = Prod.snd := rfl
  have h2 : (PlayoffEntry.team ∘ fun p : ℕ × Team =>
      (⟨w.length + p.1 + 1, p.2, false, false⟩ : PlayoffEntry)) = Prod.snd :=
    rfl
  rw [h1, h2, List.enum_map_snd, List.enum_map_snd]

/-- On a duplicate-free team list with distinct, pairwise-disjoint divisions
the playoff field carries no repeated team name. -/
theorem playoff_names_nodup {stats : Stats} {teams : List Team}
    {divisions : Divisions} {ov : H2HOverride} {pt : List PlayoffEntry}
    (hnd : teams.Nodup) (hkeys : (divisions.map Prod.fst).Nodup)
    (hdisjd : divisions.Pairwise (fun p q => ∀ t, t ∈ p.2 → t ∉ q.2))
    (hpt : determine_playoff_teams stats teams divisions ov = some pt) :
    (pt.map PlayoffEntry.team).Nodup := by
  simp only [determine_playoff_teams] at hpt
  rcases hw : divisionWinners stats divisions ov
      (pySorted (divisions.map Prod.fst)) with _ | ws
  · rw [hw] at hpt
    cases hpt
  · rw [hw] at hpt
    obtain rfl := Option.some.inj hpt
    rw [playoff_entries_names]
    have hwnd : ws.Nodup := divisionWinners_nodup stats divisions ov hkeys
      hdisjd _ ws ((pySorted_perm _).nodup_iff.2 hkeys) hw
    have hsw := seedByRecord_perm stats teams divisions ws
    have hnw_nodup : (teams.filter (fun t => decide (t ∉ ws))).Nodup :=
      List.Nodup.filter _ hnd
    obtain ⟨hwcnd, hwcm⟩ := fillWildcards_spec stats teams divisions _
      hnw_nodup (bestFirstRecords stats
        (teams.filter (fun t => decide (t ∉ ws)))) (6 - ws.length)
      (bestFirstRecords_nodup stats _)
    have hswc := seedByRecord_perm stats teams divisions
      (fillWildcards stats teams divisions
        (teams.filter (fun t => decide (t ∉ ws))) (6 - ws.length)
        (bestFirstRecords stats (teams.filter (fun t => decide (t ∉ ws)))))
    refine List.Nodup.append (hsw.nodup_iff.2 hwnd) (hswc.nodup_iff.2 hwcnd) ?_
    intro t ht1 ht2
    have h1 : t ∈ ws := hsw.mem_iff.1 ht1
    have h2 := (hwcm t (hswc.mem_iff.1 ht2)).1
    have h3 := (List.mem_filter.1 h2).2
    simp only [decide_eq_true_eq] at h3
    exact h3 h1

/-- The relegation names are the clean pick-and-remove recursion itself. -/
theorem determine_relegation_names (stats : Stats)
    (playoff_teams : List PlayoffEntry) (teams : List Team)
    (divs : Divisions) :
    (determine_relegation_teams stats playoff_teams teams divs).map Prod.snd =
      specAppRelegation stats teams divs 4
        (teams.filter (fun u =>
          decide (u ∉ playoff_teams.map PlayoffEntry.team))) := by
  rw [determine_relegation_eq_specAppRelegation, List.map_map]
  have h1 : (Prod.snd ∘ fun p : ℕ × Team => (p.1 + 1, p.2)) = Prod.snd := rfl
  rw [h1, List.enum_map_snd]

/-- The clean relegation recursion only picks teams of its pool. -/
theorem specAppRelegation_sub (stats : Stats) (teams : List Team)
    (divs : Divisions) :
    ∀ (n : ℕ) (pool : List Team) (t : Team),
      t ∈ specAppRelegation stats teams divs n pool → t ∈ pool := by
  intro n
  induction n with
  | zero =>
      intro pool t ht
      cases ht
  | succ m ih =>
      intro pool t ht
      rcases hm : relegationPick stats teams divs pool with _ | t0
      · simp only [specAppRelegation, hm] at ht
        cases ht
      · simp only [specAppRelegation, hm] at ht
        rcases List.mem_cons.1 ht with rfl | h
        · exact relegationPick_mem hm
        · exact (List.mem_filter.1 (ih _ _ h)).1

/-- The clean relegation recursion never picks a team twice. -/
theorem specAppRelegation_nodup (stats : Stats) (teams : List Team)
    (divs : Divisions) :
    ∀ (n : ℕ) (pool : List Team),
      (specAppRelegation stats teams divs n pool).Nodup := by
  intro n
  induction n with
  | zero =>
      intro pool
      simp [specAppRelegation]
  | succ m ih =>
      intro pool
      rcases hm : relegationPick stats teams divs pool with _ | t0
      · simp [specAppRelegation, hm]
      · simp only [specAppRelegation, hm]
        rw [List.nodup_cons]
        refine ⟨?_, ih _⟩
        intro hmem
        have h1 := specAppRelegation_sub stats teams divs m _ _ hmem
        have h2 := (List.mem_filter.1 h1).2
        simp at h2

/-- In every successful scenario the playoff names are duplicate-free, the
relegation names are duplicate-free, and no relegated team is a playoff
team. -/
theorem scenarioOutcome_good {stats : Stats} {teams : List Team}
    {divisions : Divisions} {matchups : List Matchup} {league_name : String}
    {has_relegation : Bool} {results : List Bool}
    {pt : List PlayoffEntry} {rn : List Team}
    (hnd : teams.Nodup) (hkeys : (divisions.map Prod.fst).Nodup)
    (hdisjd : divisions.Pairwise (fun p q => ∀ t, t ∈ p.2 → t ∉ q.2))
    (h : scenarioOutcome stats teams divisions matchups league_name
      has_relegation results = some (pt, rn)) :
    (pt.map PlayoffEntry.team).Nodup ∧
      (∀ u ∈ rn, u ∉ pt.map PlayoffEntry.team) ∧ rn.Nodup := by
  simp only [scenarioOutcome] at h
  rcases hdp : determine_playoff_teams
      (simulate_week14_outcome stats
        (scenarioSelections (matchups.map (fun m => (m.away_team, m.home_team)))
          results) matchups divisions league_name).1 teams divisions
      (simulate_week14_outcome stats
        (scenarioSelections (matchups.map (fun m => (m.away_team, m.home_team)))
          results) matchups divisions league_name).2 with _ | pts
  · rw [hdp] at h
    cases h
  · rw [hdp] at h
    have h2 := Option.some.inj h
    rw [Prod.mk.injEq] at h2
    obtain ⟨rfl, hrn⟩ := h2
    subst hrn
    refine ⟨playoff_names_nodup hnd hkeys hdisjd hdp, ?_, ?_⟩
    · cases has_relegation with
      | false =>
          intro u hu
          simp at hu
      | true =>
          intro u hu
          rw [if_pos rfl, determine_relegation_names] at hu
          have h3 := specAppRelegation_sub _ _ _ _ _ _ hu
          have h4 := (List.mem_filter.1 h3).2
          simp only [decide_eq_true_eq] at h4
          exact h4
    · cases has_relegation with
      | false => simp
      | true =>
          rw [if_pos rfl, determine_relegation_names]
          exact specAppRelegation_nodup _ _ _ _ _

/-- Counting occurrences in a duplicate-free list is a membership
indicator. -/
theorem filter_eq_length_nodup {l : List Team} (hnd : l.Nodup) (team : Team) :
    (l.filter (fun u => decide (u = team))).length =
      if team ∈ l then 1 else 0 := by
  induction l with
  | nil => simp
  | cons x xs ih =>
      rw [List.nodup_cons] at hnd
      by_cases hx : x = team
      · subst hx
        rw [List.filter_cons_of_pos (by simp)]
        have hxs : xs.filter (fun u => decide (u = x)) = [] := by
          rw [List.filter_eq_nil_iff]
          intro u hu
          simp only [decide_eq_true_eq]
          intro hc
          exact hnd.1 (hc ▸ hu)
        rw [if_pos (List.mem_cons_self _ _)]
        simp [hxs]
      · rw [List.filter_cons_of_neg (by simp [hx])]
        rw [ih hnd.2]
        by_cases hmem : team ∈ xs
        · rw [if_pos hmem, if_pos (List.mem_cons_of_mem _ hmem)]
        · rw [if_neg hmem, if_neg ?_]
          simp only [List.mem_cons, not_or]
          exact ⟨fun hc => hx hc.symm, hmem⟩

/-- Counting playoff entries by name counts the name list. -/
theorem filter_entries_length (pt : List PlayoffEntry) (team : Team) :
    (pt.filter (fun p => decide (p.team = team))).length =
      ((pt.map PlayoffEntry.team).filter
        (fun u => decide (u = team))).length := by
  rw [List.filter_map, List.length_map]
  rfl

/-- `all (≠ team)` over the entries is the complement of name membership. -/
theorem all_entries_ne_iff (pt : List PlayoffEntry) (team : Team) :
    pt.all (fun p => decide (p.team ≠ team)) = true ↔
      team ∉ pt.map PlayoffEntry.team := by
  rw [List.all_eq_true]
  constructor
  · intro h hc
    obtain ⟨p, hp, hpe⟩ := List.mem_map.1 hc
    have h2 := h p hp
    simp only [decide_eq_true_eq] at h2
    exact h2 hpe
  · intro h p hp
    simp only [decide_eq_true_eq]
    intro hc
    exact h (List.mem_map.2 ⟨p, hp, hc⟩)

/-- `all (≠ team)` over a name list is the complement of membership. -/
theorem all_names_ne_iff (rn : List Team) (team : Team) :
    rn.all (fun u => decide (u ≠ team)) = true ↔ team ∉ rn := by
  rw [List.all_eq_true]
  constructor
  · intro h hc
    have h2 := h team hc
    simp at h2
  · intro h u hu
    simp only [decide_eq_true_eq]
    intro hc
    exact h (hc ▸ hu)

/-- `any (name = team)` over the entries is name membership. -/
theorem any_entries_eq_iff (pt : List PlayoffEntry) (team : Team) :
    pt.any (fun p => decide (p.team = team)) = true ↔
      team ∈ pt.map PlayoffEntry.team := by
  rw [List.any_eq_true]
  constructor
  · rintro ⟨p, hp, hpe⟩
    simp only [decide_eq_true_eq] at hpe
    exact List.mem_map.2 ⟨p, hp, hpe⟩
  · intro h
    obtain ⟨p, hp, hpe⟩ := List.mem_map.1 h
    exact ⟨p, hp, by simp [hpe]⟩

/-- `any (= team)` over a name list is membership. -/
theorem any_names_eq_iff (rn : List Team) (team : Team) :
    rn.any (fun u => decide (u = team)) = true ↔ team ∈ rn := by
  rw [List.any_eq_true]
  constructor
  · rintro ⟨u, hu, hue⟩
    simp only [decide_eq_true_eq] at hue
    exact hue ▸ hu
  · intro h
    exact ⟨team, h, by simp⟩

/-- One scenario's three accumulator contributions for a team in the league
add up to exactly the scenario's probability. -/
theorem scenario_entry_sum {teams : List Team} {team : Team}
    (hteam : team ∈ teams) (hnd : teams.Nodup)
    (prob : ℚ) (pt : List PlayoffEntry) (rn : List Team)
    (hptnd : (pt.map PlayoffEntry.team).Nodup)
    (hdisj : ∀ u ∈ rn, u ∉ pt.map PlayoffEntry.team)
    (hrnnd : rn.Nodup) :
    prob * ((pt.filter (fun p => decide (p.team = team))).length : ℚ) +
      prob * ((rn.filter (fun u => decide (u = team))).length : ℚ) +
      (if pt.all (fun p => decide (p.team ≠ team)) &&
          rn.all (fun u => decide (u ≠ team)) then
        prob * ((teams.filter (fun u => decide (u = team))).length : ℚ)
      else 0) = prob := by
  have hT : (teams.filter (fun u => decide (u = team))).length = 1 := by
    rw [filter_eq_length_nodup hnd team, if_pos hteam]
  by_cases hp : team ∈ pt.map PlayoffEntry.team
  · have hr : team ∉ rn := fun hc => hdisj team hc hp
    have h1 : (pt.filter (fun p => decide (p.team = team))).length = 1 := by
      rw [filter_entries_length, filter_eq_length_nodup hptnd team, if_pos hp]
    have h2 : (rn.filter (fun u => decide (u = team))).length = 0 := by
      rw [filter_eq_length_nodup hrnnd team, if_neg hr]
    have hcond : ¬((pt.all (fun p => decide (p.team ≠ team)) &&
        rn.all (fun u => decide (u ≠ team))) = true) := by
      rw [Bool.and_eq_true, all_entries_ne_iff, all_names_ne_iff]
      exact fun hcc => hcc.1 hp
    rw [h1, h2, if_neg hcond]
    push_cast
    ring
  · by_cases hr : team ∈ rn
    · have h1 : (pt.filter (fun p => decide (p.team = team))).length = 0 := by
        rw [filter_entries_length, filter_eq_length_nodup hptnd team,
          if_neg hp]
      have h2 : (rn.filter (fun u => decide (u = team))).length = 1 := by
        rw [filter_eq_length_nodup hrnnd team, if_pos hr]
      have hcond : ¬((pt.all (fun p => decide (p.team ≠ team)) &&
          rn.all (fun u => decide (u ≠ team))) = true) := by
        rw [Bool.and_eq_true, all_entries_ne_iff, all_names_ne_iff]
        exact fun hcc => hcc.2 hr
      rw [h1, h2, if_neg hcond]
      push_cast
      ring
    · have h1 : (pt.filter (fun p => decide (p.team = team))).length = 0 := by
        rw [filter_entries_length, filter_eq_length_nodup hptnd team,
          if_neg hp]
      have h2 : (rn.filter (fun u => decide (u = team))).length = 0 := by
        rw [filter_eq_length_nodup hrnnd team, if_neg hr]
      have hcond : (pt.all (fun p => decide (p.team ≠ team)) &&
          rn.all (fun u => decide (u ≠ team))) = true := by
        rw [Bool.and_eq_true]
        exact ⟨(all_entries_ne_iff pt team).2 hp,
          (all_names_ne_iff rn team).2 hr⟩
      rw [h1, h2, if_pos hcond, hT]
      push_cast
      ring

/-- The three raw accumulators of a team in the league add up to the sum of
the scenario probabilities. -/
theorem scenarioAccum_sum {teams : List Team} {team : Team}
    (hteam : team ∈ teams) (hnd : teams.Nodup) :
    ∀ data : List (ℚ × (List PlayoffEntry × List Team)),
      (∀ q ∈ data, (q.2.1.map PlayoffEntry.team).Nodup ∧
        (∀ u ∈ q.2.2, u ∉ q.2.1.map PlayoffEntry.team) ∧ q.2.2.Nodup) →
      (scenarioAccum teams data team).championship_pct +
        (scenarioAccum teams data team).relegation_pct +
        (scenarioAccum teams data team).safe_pct =
      (data.map Prod.fst).sum := by
  intro data
  induction data with
  | nil =>
      intro _
      simp [scenarioAccum]
  | cons q rest ih =>
      intro hgood
      have hq := hgood q (List.mem_cons_self _ _)
      have hrest := ih (fun p hp => hgood p (List.mem_cons_of_mem _ hp))
      simp only [scenarioAccum, List.map_cons, List.sum_cons] at hrest ⊢
      have hentry := scenario_entry_sum hteam hnd q.1 q.2.1 q.2.2 hq.1 hq.2.1
        hq.2.2
      linarith

/-- `round(x, 1)` moves its argument by at most one twentieth. -/
theorem pyRound1_close (x : ℚ) : |pyRound1 x - x| ≤ 1 / 20 := by
  have hf : ((⌊x * 10⌋ : ℤ) : ℚ) ≤ x * 10 := Int.floor_le _
  have hf2 : x * 10 < ((⌊x * 10⌋ : ℤ) : ℚ) + 1 := Int.lt_floor_add_one _
  simp only [pyRound1]
  split_ifs with h1 h2 h3 <;>
    · rw [abs_le]
      constructor <;> push_cast <;> linarith

/-- `round(x, 1)` is an integer number of tenths. -/
theorem pyRound1_int (x : ℚ) : ∃ r : ℤ, pyRound1 x = (r : ℚ) / 10 := by
  simp only [pyRound1]
  split_ifs <;> exact ⟨_, rfl⟩

/-- Three tenths-valued roundings of numbers summing to 100 sum to within one
tenth of 100. -/
theorem round_three_sum (a b c : ℚ) (h : a + b + c = 100) :
    |pyRound1 a + pyRound1 b + pyRound1 c - 100| ≤ 1 / 10 := by
  obtain ⟨ra, hra⟩ := pyRound1_int a
  obtain ⟨rb, hrb⟩ := pyRound1_int b
  obtain ⟨rc, hrc⟩ := pyRound1_int c
  have ha := pyRound1_close a
  have hb := pyRound1_close b
  have hc := pyRound1_close c
  rw [hra] at ha ⊢
  rw [hrb] at hb ⊢
  rw [hrc] at hc ⊢
  rw [abs_le] at ha hb hc ⊢
  obtain ⟨ha1, ha2⟩ := ha
  obtain ⟨hb1, hb2⟩ := hb
  obtain ⟨hc1, hc2⟩ := hc
  have hRa : (999 : ℤ) ≤ ra + rb + rc := by
    by_contra hcon
    push_neg at hcon
    have hle : ra + rb + rc ≤ 998 := by omega
    have hle2 : ((ra + rb + rc : ℤ) : ℚ) ≤ 998 := by exact_mod_cast hle
    push_cast at hle2
    linarith
  have hRb : ra + rb + rc ≤ (1001 : ℤ) := by
    by_contra hcon
    push_neg at hcon
    have hle : (1002 : ℤ) ≤ ra + rb + rc := by omega
    have hle2 : (1002 : ℚ) ≤ ((ra + rb + rc : ℤ) : ℚ) := by exact_mod_cast hle
    push_cast at hle2
    linarith
  have h1 : ((ra + rb + rc : ℤ) : ℚ) ≤ 1001 := by exact_mod_cast hRb
  have h2 : (999 : ℚ) ≤ ((ra + rb + rc : ℤ) : ℚ) := by exact_mod_cast hRa
  push_cast at h1 h2
  constructor <;> linarith

/-- Summing the scenario probabilities over every outcome assignment gives
the product of the per-game probability totals. -/
theorem pyProduct_scenarioProb_sum :
    ∀ gp : List (ℚ × ℚ),
      ((pyProduct gp.length).map (fun results =>
        scenarioProb gp results)).sum =
        (gp.map (fun q => q.1 + q.2)).prod := by
  intro gp
  induction gp with
  | nil => simp [pyProduct, scenarioProb]
  | cons q gps ih =>
      simp only [List.length_cons, pyProduct, List.map_append, List.map_map,
        List.sum_append, List.map_cons, List.prod_cons]
      have h1 : ((pyProduct gps.length).map ((fun results =>
          scenarioProb (q :: gps) results) ∘ (fun l => false :: l))) =
          (pyProduct gps.length).map (fun l => q.1 * scenarioProb gps l) := by
        apply List.map_congr_left
        intro l _
        simp [Function.comp, scenarioProb, List.zip_cons_cons]
      have h2 : ((pyProduct gps.length).map ((fun results =>
          scenarioProb (q :: gps) results) ∘ (fun l => true :: l))) =
          (pyProduct gps.length).map (fun l => q.2 * scenarioProb gps l) := by
        apply List.map_congr_left
        intro l _
        simp [Function.comp, scenarioProb, List.zip_cons_cons]
      rw [h1, h2, List.sum_map_mul_left, List.sum_map_mul_left, ih]
      ring

/-- When every game's two probabilities add to one, the scenario
probabilities add to exactly one. -/
theorem game_probs_total (gp : List (ℚ × ℚ))
    (h : ∀ q ∈ gp, q.1 + q.2 = 1) :
    ((pyProduct gp.length).map (fun results =>
      scenarioProb gp results)).sum = 1 := by
  rw [pyProduct_scenarioProb_sum]
  refine List.prod_eq_one (fun x hx => ?_)
  obtain ⟨q, hq, rfl⟩ := List.mem_map.1 hx
  exact h q hq

/-- The scenario walk preserves length and every result comes from some
scenario. -/
theorem scenarioOutcomes_spec (stats : Stats) (teams : List Team)
    (divisions : Divisions) (matchups : List Matchup) (league_name : String)
    (has_relegation : Bool) :
    ∀ (scen : List (List Bool)) (outs : List (List PlayoffEntry × List Team)),
      scenarioOutcomes stats teams divisions matchups league_name
        has_relegation scen = some outs →
      outs.length = scen.length ∧
        ∀ o ∈ outs, ∃ results, scenarioOutcome stats teams divisions matchups
          league_name has_relegation results = some o := by
  intro scen
  induction scen with
  | nil =>
      intro outs h
      simp only [scenarioOutcomes] at h
      obtain rfl := Option.some.inj h
      exact ⟨rfl, by simp⟩
  | cons r rest ih =>
      intro outs h
      simp only [scenarioOutcomes] at h
      rcases h1 : scenarioOutcome stats teams divisions matchups league_name
          has_relegation r with _ | o
      · rw [h1] at h
        cases h
      · rw [h1] at h
        rcases h2 : scenarioOutcomes stats teams divisions matchups
            league_name has_relegation rest with _ | os
        · rw [h2] at h
          cases h
        · rw [h2] at h
          obtain rfl := Option.some.inj h
          obtain ⟨hl, hm⟩ := ih os h2
          refine ⟨by simp [hl], ?_⟩
          intro o2 ho2
          rcases List.mem_cons.1 ho2 with rfl | ho3
          · exact ⟨r, h1⟩
          · exact hm o2 ho3

/-- In every successful scenario every team is in exactly one of the playoff
field, the relegation list, or neither ("safe"). -/
theorem scenario_exactly_one (stats : Stats) (teams : List Team)
    (divisions : Divisions) (matchups : List Matchup) (league_name : String)
    (has_relegation : Bool)
    (hnd : teams.Nodup) (hkeys : (divisions.map Prod.fst).Nodup)
    (hdisjd : divisions.Pairwise (fun p q => ∀ t, t ∈ p.2 → t ∉ q.2)) :
    ∀ (results : List Bool) (pt : List PlayoffEntry) (rn : List Team),
      scenarioOutcome stats teams divisions matchups league_name
        has_relegation results = some (pt, rn) →
      ∀ team : Team,
        (team ∈ pt.map PlayoffEntry.team ∧ team ∉ rn) ∨
        (team ∉ pt.map PlayoffEntry.team ∧ team ∈ rn) ∨
        (team ∉ pt.map PlayoffEntry.team ∧ team ∉ rn) := by
  intro results pt rn h team
  obtain ⟨-, hdisj, -⟩ := scenarioOutcome_good hnd hkeys hdisjd h
  by_cases hp : team ∈ pt.map PlayoffEntry.team
  · exact Or.inl ⟨hp, fun hr => hdisj team hr hp⟩
  · by_cases hr : team ∈ rn
    · exact Or.inr (Or.inl ⟨hp, hr⟩)
    · exact Or.inr (Or.inr ⟨hp, hr⟩)

/-- The weighted summary conserves probability: championship, relegation and
safe percentages of a league team sum to 100 within one tenth. -/
theorem summary_sum_100 (stats : Stats) (teams : List Team)
    (divisions : Divisions) (matchups : List Matchup)
    (matchup_probs : Team × Team → Option ℚ) (has_relegation : Bool)
    (league_name : String) (summary : Team → TeamSummary)
    (hnd : teams.Nodup) (hkeys : (divisions.map Prod.fst).Nodup)
    (hdisjd : divisions.Pairwise (fun p q => ∀ t, t ∈ p.2 → t ∉ q.2))
    (hsum : get_team_summary_weighted stats teams divisions matchups
      matchup_probs has_relegation league_name = some summary) :
    ∀ team ∈ teams,
      |(summary team).championship_pct + (summary team).relegation_pct +
          (summary team).safe_pct - 100| ≤ 1 / 10 := by
  intro team hteam
  match matchups with
  | [] =>
      simp only [get_team_summary_weighted] at hsum
      rcases hdp : determine_playoff_teams stats teams divisions
          (fun _ => none) with _ | pt
      · rw [hdp] at hsum
        cases hsum
      · rw [hdp] at hsum
        obtain rfl := Option.some.inj hsum
        have hd : ∀ u ∈ (if has_relegation then
            (determine_relegation_teams stats pt teams divisions).map Prod.snd
            else []), u ∉ pt.map PlayoffEntry.team := by
          cases has_relegation with
          | false =>
              intro u hu
              simp at hu
          | true =>
              intro u hu
              rw [if_pos rfl, determine_relegation_names] at hu
              have h3 := specAppRelegation_sub _ _ _ _ _ _ hu
              have h4 := (List.mem_filter.1 h3).2
              simp only [decide_eq_true_eq] at h4
              exact h4
        dsimp only
        by_cases hp : team ∈ pt.map PlayoffEntry.team
        · rw [if_pos ((any_entries_eq_iff pt team).2 hp)]
          have hr : team ∉ (if has_relegation then
              (determine_relegation_teams stats pt teams divisions).map
                Prod.snd else []) := fun hc => hd team hc hp
          rw [if_neg (fun hc => hr ((any_names_eq_iff _ team).1 hc))]
          rw [if_neg (fun hc => (all_entries_ne_iff pt team).1
            (Bool.and_eq_true _ _ ▸ hc).1 hp)]
          norm_num
        · rw [if_neg (fun hc => hp ((any_entries_eq_iff pt team).1 hc))]
          by_cases hr : team ∈ (if has_relegation then
              (determine_relegation_teams stats pt teams divisions).map
                Prod.snd else [])
          · rw [if_pos ((any_names_eq_iff _ team).2 hr)]
            rw [if_neg (fun hc => (all_names_ne_iff _ team).1
              (Bool.and_eq_true _ _ ▸ hc).2 hr)]
            norm_num
          · rw [if_neg (fun hc => hr ((any_names_eq_iff _ team).1 hc))]
            rw [if_pos (by
              rw [Bool.and_eq_true]
              exact ⟨(all_entries_ne_iff pt team).2 hp,
                (all_names_ne_iff _ team).2 hr⟩)]
            norm_num
  | m :: rest =>
      simp only [get_team_summary_weighted] at hsum
      rcases ho : scenarioOutcomes stats teams divisions (m :: rest)
          league_name has_relegation (pyProduct (m :: rest).length)
          with _ | outs
      · rw [ho] at hsum
        cases hsum
      · rw [ho] at hsum
        obtain rfl := Option.some.inj hsum
        have htot : ((pyProduct (m :: rest).length).map (fun results =>
            scenarioProb (((m :: rest).map (fun mm =>
              (mm.away_team, mm.home_team))).map (fun p =>
                (get_matchup_win_probability matchup_probs p.1 p.2,
                  1 - get_matchup_win_probability matchup_probs p.1 p.2)))
              results)).sum = 1 := by
          have hlen : (m :: rest).length = (((m :: rest).map (fun mm =>
              (mm.away_team, mm.home_team))).map (fun p =>
                (get_matchup_win_probability matchup_probs p.1 p.2,
                  1 - get_matchup_win_probability matchup_probs
                    p.1 p.2))).length := by
            simp
          rw [hlen]
          refine game_probs_total _ (fun q hq => ?_)
          obtain ⟨p, hp, rfl⟩ := List.mem_map.1 hq
          dsimp only
          ring
        obtain ⟨hol, hom⟩ := scenarioOutcomes_spec stats teams divisions
          (m :: rest) league_name has_relegation _ outs ho
        have hgood : ∀ q ∈ ((pyProduct (m :: rest).length).map
            (fun results => scenarioProb (((m :: rest).map (fun mm =>
              (mm.away_team, mm.home_team))).map (fun p =>
                (get_matchup_win_probability matchup_probs p.1 p.2,
                  1 - get_matchup_win_probability matchup_probs p.1 p.2)))
              results)).zip outs,
            (q.2.1.map PlayoffEntry.team).Nodup ∧
              (∀ u ∈ q.2.2, u ∉ q.2.1.map PlayoffEntry.team) ∧
              q.2.2.Nodup := by
          intro q hq
          have hq2 := (List.of_mem_zip hq).2
          obtain ⟨results, hres⟩ := hom q.2 hq2
          exact scenarioOutcome_good hnd hkeys hdisjd hres
        have hsum3 := scenarioAccum_sum hteam hnd _ hgood
        have hfst : (((pyProduct (m :: rest).length).map
            (fun results => scenarioProb (((m :: rest).map (fun mm =>
              (mm.away_team, mm.home_team))).map (fun p =>
                (get_matchup_win_probability matchup_probs p.1 p.2,
                  1 - get_matchup_win_probability matchup_probs p.1 p.2)))
              results)).zip outs).map Prod.fst =
            (pyProduct (m :: rest).length).map
              (fun results => scenarioProb (((m :: rest).map (fun mm =>
                (mm.away_team, mm.home_team))).map (fun p =>
                  (get_matchup_win_probability matchup_probs p.1 p.2,
                    1 - get_matchup_win_probability matchup_probs p.1 p.2)))
                results) := by
          apply List.map_fst_zip
          rw [List.length_map, hol]
        rw [hfst, htot] at hsum3
        dsimp only
        rw [htot, if_pos (by norm_num : (1 : ℚ) > 0)]
        dsimp only
        simp only [div_one]
        apply round_three_sum
        linarith

/-- C4: in the scenario-weighted mode (`get_team_summary_weighted`,
`app.py` lines 729-842), for every successful scenario every team falls in
exactly one of championship bracket, relegation bracket, or safe (neither);
and for every league team the championship, relegation and safe percentages
of the produced summary sum to 100 up to the 0.1 output rounding, given a
duplicate-free team list and distinct pairwise-disjoint divisions. -/
theorem C4_conservation (stats : Stats) (teams : List Team)
    (divisions : Divisions) (matchups : List Matchup)
    (matchup_probs : Team × Team → Option ℚ) (has_relegation : Bool)
    (league_name : String) (summary : Team → TeamSummary)
    (hnd : teams.Nodup) (hkeys : (divisions.map Prod.fst).Nodup)
    (hdisjd : divisions.Pairwise (fun p q => ∀ t, t ∈ p.2 → t ∉ q.2))
    (hsum : get_team_summary_weighted stats teams divisions matchups
      matchup_probs has_relegation league_name = some summary) :
    (∀ (results : List Bool) (pt : List PlayoffEntry) (rn : List Team),
        scenarioOutcome stats teams divisions matchups league_name
          has_relegation results = some (pt, rn) →
        ∀ team : Team,
          (team ∈ pt.map PlayoffEntry.team ∧ team ∉ rn) ∨
          (team ∉ pt.map PlayoffEntry.team ∧ team ∈ rn) ∨
          (team ∉ pt.map PlayoffEntry.team ∧ team ∉ rn)) ∧
      ∀ team ∈ teams,
        |(summary team).championship_pct + (summary team).relegation_pct +
            (summary team).safe_pct - 100| ≤ 1 / 10 :=
  ⟨scenario_exactly_one stats teams divisions matchups league_name
      has_relegation hnd hkeys hdisjd,
    summary_sum_100 stats teams divisions matchups matchup_probs
      has_relegation league_name summary hnd hkeys hdisjd hsum⟩

/-- Witness for C4 at the concrete two-team league, read off at team `"A"`. -/
theorem C4_conservation_witness :
    (["A", "B"] : List Team).Nodup ∧
      (([("X", ["A", "B"])] : Divisions).map Prod.fst).Nodup ∧
      get_team_summary_weighted statsZero ["A", "B"] [("X", ["A", "B"])] []
        (fun _ => none) true "L" = some zsAB ∧
      "A" ∈ (["A", "B"] : List Team) ∧
      |(zsAB "A").championship_pct + (zsAB "A").relegation_pct +
          (zsAB "A").safe_pct - 100| ≤ 1 / 10 :=
  ⟨by decide, by decide, rfl, by decide,
    (C4_conservation statsZero ["A", "B"] [("X", ["A", "B"])] []
      (fun _ => none) true "L" zsAB (by decide) (by decide)
      (List.pairwise_singleton _ _) rfl).2 "A" (by decide)⟩

/-- The worst-first record grouping is the filter of each sorted record. -/
theorem recordGroupsWorstFirst_eq (stats : Stats) (l : List Team) :
    recordGroupsWorstFirst stats l = (worstFirstRecords stats l).map
      (fun r => l.filter (fun t => decide (recordKey stats t = r))) := rfl

/-- The scenario engine's relegation fill loop is the claim's fill procedure
over the record groups, with the scenario engine's wild-card chain. -/
theorem psFillRelegation_eq_spec (stats : Stats) (teams : List Team)
    (divs : Divisions) (non_playoff : List Team) :
    ∀ (rs : List (ℕ × ℕ × ℕ)) (spots : ℕ),
      psFillRelegation stats teams divs non_playoff spots rs =
        specFillRelegationWith
          (fun g => break_tie_wildcard_ps stats g teams divs) spots
          (rs.map (fun r =>
            non_playoff.filter (fun t => decide (recordKey stats t = r)))) := by
  intro rs
  induction rs with
  | nil =>
      intro spots
      rfl
  | cons r rest ih =>
      intro spots
      simp only [psFillRelegation, List.map_cons, specFillRelegationWith, ih]

/-- The scenario engine's relegation selection is exactly the claimed
fill-truncate-reseed procedure, instantiated with its wild-card chain. -/
theorem determine_relegation_ps_eq_claim (stats : Stats)
    (playoff_teams : List (ℕ × Team × Bool)) (teams : List Team)
    (divs : Divisions) :
    determine_relegation_teams_ps stats playoff_teams teams divs =
      specRelegationClaimWith stats
        (fun g => break_tie_wildcard_ps stats g teams divs)
        (playoff_teams.map (fun p => p.2.1)) teams := by
  simp only [determine_relegation_teams_ps, specRelegationClaimWith,
    recordGroupsWorstFirst_eq, psFillRelegation_eq_spec, List.map_map]
  rfl

/-- C3 (amended): `app.py`'s relegation selection picks the relegated teams
one at a time — each round it takes the non-playoff teams not yet picked,
keeps the worst record group, orders each division as
`get_lowest_in_division_for_relegation` and takes each division's last entry,
then eliminates cross-division — and seeds the picks 1..n in pick order
(`app.py` lines 593-673, modelled by `specAppRelegation`).
`playoff_scenarios.py`'s relegation selection (lines 742-809) instead
implements the claimed procedure exactly: walk the worst-to-best record
groups of the non-qualifying teams, fill up to four slots truncating an
overflowing group by keeping the worst of its wild-card-chain order, and seed
by re-grouping worst to best with each tied group in reversed wild-card
order — with that file's own wild-card chain. -/
theorem C3_relegation_selection_amended :
    (∀ (stats : Stats) (playoff_teams : List PlayoffEntry) (teams : List Team)
        (divs : Divisions),
      determine_relegation_teams stats playoff_teams teams divs =
        ((specAppRelegation stats teams divs 4
          (teams.filter (fun u =>
            decide (u ∉ playoff_teams.map PlayoffEntry.team)))).enum.map
          (fun p => (p.1 + 1, p.2)))) ∧
    (∀ (stats : Stats) (playoff_teams : List (ℕ × Team × Bool))
        (teams : List Team) (divs : Divisions),
      determine_relegation_teams_ps stats playoff_teams teams divs =
        specRelegationClaimWith stats
          (fun g => break_tie_wildcard_ps stats g teams divs)
          (playoff_teams.map (fun p => p.2.1)) teams) :=
  ⟨determine_relegation_eq_specAppRelegation, determine_relegation_ps_eq_claim⟩

/-- The wild-card fill takes exactly `min spots (sum of the walked group
sizes)` teams. -/
theorem fillWildcards_length (stats : Stats) (teams : List Team)
    (divs : Divisions) (pool : List Team) :
    ∀ (rs : List (ℕ × ℕ × ℕ)) (spots : ℕ),
      (fillWildcards stats teams divs pool spots rs).length =
        min spots ((rs.map (fun r =>
          (pool.filter (fun t => decide (recordKey stats t = r))).length)).sum) := by
  intro rs
  induction rs with
  | nil =>
      intro spots
      simp [fillWildcards]
  | cons r rest ih =>
      intro spots
      by_cases h0 : spots = 0
      · subst h0
        simp [fillWildcards]
      · by_cases hle : (pool.filter
            (fun t => decide (recordKey stats t = r))).length ≤ spots
        · simp only [fillWildcards, if_neg h0, if_pos hle,
            List.length_append, ih, List.map_cons, List.sum_cons]
          omega
        · simp only [fillWildcards, if_neg h0, if_neg hle, List.length_take,
            List.map_cons, List.sum_cons]
          have hp := (break_tie_wildcard_perm stats (pool.filter
            (fun t => decide (recordKey stats t = r))) teams divs).length_eq
          omega

/-- The division-winner walk yields one winner per key. -/
theorem divisionWinners_length (stats : Stats) (divs : Divisions)
    (ov : H2HOverride) :
    ∀ (ks : List String) (ws : List Team),
      divisionWinners stats divs ov ks = some ws → ws.length = ks.length := by
  intro ks
  induction ks with
  | nil =>
      intro ws h
      simp only [divisionWinners] at h
      obtain rfl := Option.some.inj h
      rfl
  | cons d ds ih =>
      intro ws h
      simp only [divisionWinners] at h
      rcases hh : (rank_division stats (divLookup divs d) divs ov).head?
          with _ | w0
      · rw [hh] at h
        cases h
      · rw [hh] at h
        rcases hr : divisionWinners stats divs ov ds with _ | ws0
        · rw [hr] at h
          cases h
        · rw [hr] at h
          obtain rfl := Option.some.inj h
          simp [ih ws0 hr]

/-- A successful playoff determination returns one winner per division plus
`min (6 - winners) n` wild cards, where `n` is the number of non-winner
teams: fewer available teams silently shrink the field below six. -/
theorem determine_playoff_teams_length (stats : Stats) (teams : List Team)
    (divs : Divisions) (ov : H2HOverride) (pt : List PlayoffEntry)
    (hpt : determine_playoff_teams stats teams divs ov = some pt) :
    ∃ ws, divisionWinners stats divs ov (pySorted (divs.map Prod.fst)) =
        some ws ∧
      ws.length = divs.length ∧
      pt.length = ws.length + min (6 - ws.length)
        (teams.filter (fun t => decide (t ∉ ws))).length := by
  simp only [determine_playoff_teams] at hpt
  rcases hw : divisionWinners stats divs ov (pySorted (divs.map Prod.fst))
      with _ | ws
  · rw [hw] at hpt
    cases hpt
  · rw [hw] at hpt
    obtain rfl := Option.some.inj hpt
    refine ⟨ws, rfl, ?_, ?_⟩
    · rw [divisionWinners_length stats divs ov _ ws hw,
        (pySorted_perm _).length_eq, List.length_map]
    · rw [List.length_append, List.length_map, List.length_map,
        List.enum_length, List.enum_length,
        (seedByRecord_perm stats teams divs ws).length_eq,
        (seedByRecord_perm stats teams divs _).length_eq,
        fillWildcards_length]
      have hperm := flatten_filter_perm (recordKey stats)
        (bestFirstRecords stats (teams.filter (fun t => decide (t ∉ ws))))
        (teams.filter (fun t => decide (t ∉ ws)))
        (bestFirstRecords_nodup stats _)
        (fun t ht => bestFirstRecords_mem stats ht)
      have hlen := hperm.length_eq
      rw [List.length_flatten, List.map_map] at hlen
      have hlen2 : ((bestFirstRecords stats
          (teams.filter (fun t => decide (t ∉ ws)))).map (fun r =>
            ((teams.filter (fun t => decide (t ∉ ws))).filter
              (fun t => decide (recordKey stats t = r))).length)).sum =
          (teams.filter (fun t => decide (t ∉ ws))).length := hlen
      rw [hlen2]

/-- C6 counterexample: on a two-team league, `app.py` silently degrades both
brackets.  `determine_relegation_teams` (lines 609-659) returns a two-entry
relegation bracket — the `while len(relegation_teams) < 4` loop just breaks
when no eligible teams remain — and `determine_playoff_teams` (lines 511-590)
returns normally with a two-entry playoff field instead of six — the
wild-card fill loop simply runs out of teams.  Neither computation reports a
configuration error. -/
theorem C6_brackets_silently_short :
    (determine_relegation_teams statsZero [] ["A", "B"]
        [("X", ["A", "B"])]).length = 2 ∧
    (determine_relegation_teams statsZero [] ["A", "B"]
        [("X", ["A", "B"])]).length ≠ 4 ∧
    determine_playoff_teams statsZero ["A", "B"] [("X", ["A", "B"])]
        (fun _ => none) = some playoffAB ∧
    playoffAB.length = 2 ∧ (2 : ℕ) ≠ 6 := by
  refine ⟨by decide, by decide, by decide, by decide, by decide⟩

/-- C6 (amended): a qualification or relegation computation with fewer
available teams than bracket slots is silently degraded to a smaller
bracket, never reported as an error: on a duplicate-free team list the
relegation bracket has `min 4 n` entries (`n` the number of non-playoff
teams), and a successful playoff determination has one winner per division
plus `min (6 - winners) m` wild cards (`m` the number of non-winner teams) —
four relegation entries and six playoff entries only when enough teams are
available. -/
theorem C6_bracket_sizes_amended (stats : Stats) (teams : List Team)
    (divs : Divisions) (ov : H2HOverride) (playoff_teams : List PlayoffEntry)
    (pt : List PlayoffEntry)
    (hnd : teams.Nodup)
    (hpt : determine_playoff_teams stats teams divs ov = some pt) :
    ((determine_relegation_teams stats playoff_teams teams divs).length =
      min 4 (teams.filter (fun u =>
        decide (u ∉ playoff_teams.map PlayoffEntry.team))).length) ∧
    ∃ ws, divisionWinners stats divs ov (pySorted (divs.map Prod.fst)) =
        some ws ∧
      ws.length = divs.length ∧
      pt.length = ws.length + min (6 - ws.length)
        (teams.filter (fun t => decide (t ∉ ws))).length := by
  constructor
  · rw [determine_relegation_eq_specAppRelegation, List.length_map,
      List.enum_length]
    exact specAppRelegation_length stats teams divs 4 _
      (List.Nodup.filter _ hnd)
  · exact determine_playoff_teams_length stats teams divs ov pt hpt

/-- Witness for the amended C6 statement at the concrete two-team league. -/
theorem C6_bracket_sizes_amended_witness :
    (["A", "B"] : List Team).Nodup ∧
    determine_playoff_teams statsZero ["A", "B"] [("X", ["A", "B"])]
        (fun _ => none) = some playoffAB ∧
    (determine_relegation_teams statsZero [] ["A", "B"]
        [("X", ["A", "B"])]).length =
      min 4 ((["A", "B"] : List Team).filter (fun u =>
        decide (u ∉ ([] : List PlayoffEntry).map PlayoffEntry.team))).length :=
  ⟨by decide, by decide,
    (C6_bracket_sizes_amended statsZero ["A", "B"] [("X", ["A", "B"])]
      (fun _ => none) [] playoffAB (by decide) (by decide)).1⟩
